import Mathlib

/-!
# Write barrier buffer of the Go runtime (`runtime/mwbbuf.go`)

A shallow embedding of `wbBuf` (`reset`, `discard`, `empty`, `putFast`) and of the
flush path (`wbBufFlush`, `wbBufFlush1`).

* `uintptr` values are naturals below `uintptrMod PtrSize = 2 ^ (8 * PtrSize)`; additions and
  subtractions the source performs on `uintptr` are reduced modulo that number.
* `PtrSize` (`sys.PtrSize`, also `unsafe.Sizeof(b.buf[0])`) is a parameter; the theorems
  hold for the 32-bit and the 64-bit targets.
* Fatal paths (`throw`, a failed slice or index bounds check) are `Except.error`.
* Functions that live outside `mwbbuf.go` (`findObject`, `shade`, `gcw.putBatch`,
  `cgoCheckWriteBarrier`) are either parameters (`Heap`) or recorded, in call order, in a trace.
* The bulk operations of `runtime/mbarrier.go` (`typedmemmove`, `typedslicecopy`, `typedmemclr`
  and their `reflect_` variants) are embedded as the list of calls they make, in order.
* Two workers flushing concurrently are a step relation: the steps of `wbBufFlush1` that
  touch shared state, interleaved by a schedule.
-/

namespace Runtime

/-! ## Machine words -/

/-- Number of distinct `uintptr` values when a pointer is `PtrSize` bytes wide. -/
def uintptrMod (PtrSize : Nat) : Nat := 2 ^ (8 * PtrSize)

/-- Addition on `uintptr`. -/
def uadd (PtrSize a b : Nat) : Nat := (a + b) % uintptrMod PtrSize

/-- Subtraction on `uintptr` (operands below `uintptrMod PtrSize`). -/
def usub (PtrSize a b : Nat) : Nat := (a + uintptrMod PtrSize - b) % uintptrMod PtrSize

/-- Number of distinct `uint64` values. -/
def uint64Mod : Nat := 2 ^ 64

/-! ## Constants of `mwbbuf.go` -/

/-- The constant `testSmallBuf = false`. -/
def testSmallBuf : Bool := false

/-- The constant `wbBufEntries = 256`: write barriers between flushes. -/
def wbBufEntries : Nat := 256

/-- The constant `wbBufEntryPointers = 2`: pointers added to the buffer by each write barrier. -/
def wbBufEntryPointers : Nat := 2

/-! ## Process-wide flags and collaborators -/

/-- Flags read (never written) by the buffer code. `debugCachedWork` is a constant of
`mgcwork.go`, the others are runtime variables. -/
structure Globals where
  /-- The flag `writeBarrier.cgo`. -/
  cgo : Bool
  /-- The flag `writeBarrier.needed`. -/
  needed : Bool
  debugCachedWork : Bool
  throwOnGCWork : Bool
  /-- The value of `atomic.Load(&gcWorkPauseGen)`. -/
  gcWorkPauseGen : Nat
  useCheckmark : Bool

/-- The fields of an `mspan` the flush consults. `id` stands for the identity of the span
(its address); its mark bitmap is kept in `State.marked`. -/
structure mspan where
  id : Nat
  elemsize : Nat
  /-- The result of `spanclass.noscan()`. -/
  noscan : Bool
deriving DecidableEq, Inhabited, Repr

/-- Span lookup, owned by the allocator: `minLegalPointer` and `findObject(p, 0, 0)`, which
returns `(obj, span, objIndex)` with `obj = 0` when `p` points into no heap object. -/
structure Heap where
  minLegalPointer : Nat
  findObject : Nat → Nat × mspan × Nat

/-- Calls that leave `mwbbuf.go`, in the order they are made. -/
inductive Event where
  | shade (ptr : Nat)
  | putBatch (objs : List Nat)
  | cgoCheckWriteBarrier (dst src : Nat)
deriving DecidableEq, Repr

/-- Fatal exits. -/
inductive Fault where
  | throw (msg : String)
  | sliceBounds
  | indexRange
deriving DecidableEq, Repr

/-! ## The buffer -/

/-- The struct `wbBuf`. `start` is `uintptr(unsafe.Pointer(&b.buf[0]))`, the address at which
the array `buf` lives. `wild` records, in order, every store made through an unsafe pointer
that did not land on a slot of `buf` (address, value); it is empty as long as the buffer code
is memory safe. -/
structure wbBuf where
  start : Nat
  next : Nat
  end_ : Nat
  buf : List Nat
  debugGen : Nat
  wild : List (Nat × Nat)
deriving DecidableEq, Repr

/-- The condition under which `reset` forces a flush on every barrier. -/
def forceEager (g : Globals) (b : wbBuf) : Bool :=
  g.cgo || (g.debugCachedWork && (g.throwOnGCWork || b.debugGen == g.gcWorkPauseGen))

/-- Method `func (b *wbBuf) reset()`. -/
def wbBuf.reset (PtrSize : Nat) (g : Globals) (b : wbBuf) : Except Fault wbBuf :=
  let start := b.start
  let b := { b with next := start }
  let b :=
    if forceEager g b then
      { b with end_ := uadd PtrSize start (wbBufEntryPointers * PtrSize) }
    else if testSmallBuf then
      { b with end_ := uadd PtrSize start (2 * wbBufEntryPointers * PtrSize) }
    else
      { b with end_ := uadd PtrSize start ((wbBufEntryPointers * wbBufEntries) * PtrSize) }
  if usub PtrSize b.end_ b.next % (wbBufEntryPointers * PtrSize) ≠ 0 then
    Except.error (Fault.throw "bad write barrier buffer bounds")
  else
    Except.ok b

/-- Method `func (b *wbBuf) discard()`. -/
def wbBuf.discard (b : wbBuf) : wbBuf :=
  { b with next := b.start }

/-- Method `func (b *wbBuf) empty() bool`. -/
def wbBuf.empty (b : wbBuf) : Bool :=
  b.next == b.start

/-- A store of one word `v` at address `addr` through an unsafe pointer: it updates the slot of
`buf` that starts at `addr` when there is one, and is a wild store otherwise. -/
def wbBuf.store (PtrSize : Nat) (b : wbBuf) (addr v : Nat) : wbBuf :=
  if b.start ≤ addr ∧ (addr - b.start) % PtrSize = 0 ∧ (addr - b.start) / PtrSize < b.buf.length then
    { b with buf := b.buf.set ((addr - b.start) / PtrSize) v }
  else
    { b with wild := b.wild ++ [(addr, v)] }

/-- Method `func (b *wbBuf) putFast(old, new uintptr) bool`: the new buffer and the returned flag. -/
def wbBuf.putFast (PtrSize : Nat) (b : wbBuf) (old new : Nat) : wbBuf × Bool :=
  let p := b.next
  let b := b.store PtrSize p old
  let b := b.store PtrSize (uadd PtrSize p PtrSize) new
  let b := { b with next := uadd PtrSize b.next (2 * PtrSize) }
  (b, b.next != b.end_)

/-! ## The flush -/

/-- The part of the runtime state the flush reads and writes. -/
structure State where
  /-- The field `getg().m.dying`. -/
  dying : Int
  /-- The buffer `getg().m.p.ptr().wbBuf`. -/
  wbBuf : wbBuf
  /-- The tally `_p_.gcw.bytesMarked`. -/
  bytesMarked : Nat
  /-- The mark bit of object `objIndex` of a span: `span.markBitsForIndex(objIndex).isMarked()` -/
  marked : mspan → Nat → Bool
  trace : List Event

/-- The call `mbits.setMarked()` for the bit of object `objIndex` of `span`. -/
def setMarked (marked : mspan → Nat → Bool) (span : mspan) (objIndex : Nat) :
    mspan → Nat → Bool :=
  fun s i => if s = span ∧ i = objIndex then true else marked s i

/-- The marking loop of `wbBufFlush1`, `for _, ptr := range ptrs` with `ptrs = buf[:n]`:
`rem` iterations remain, `i` is the index about to be read, `pos` the write index. The slice
aliases `buf`, so `ptrs[i]` is read from, and `ptrs[pos]` written to, the buffer itself.
Returns the final `pos`. -/
def wbBufFlush1.loop (h : Heap) (n : Nat) : Nat → Nat → Nat → State → Except Fault (Nat × State)
  | 0, _, pos, s => Except.ok (pos, s)
  | rem + 1, i, pos, s =>
    let ptr := s.wbBuf.buf.getD i 0
    if ptr < h.minLegalPointer then
      wbBufFlush1.loop h n rem (i + 1) pos s
    else
      let r := h.findObject ptr
      let obj := r.1
      let span := r.2.1
      let objIndex := r.2.2
      if obj = 0 then
        wbBufFlush1.loop h n rem (i + 1) pos s
      else if s.marked span objIndex then
        wbBufFlush1.loop h n rem (i + 1) pos s
      else
        let s := { s with marked := setMarked s.marked span objIndex }
        if span.noscan then
          let s := { s with bytesMarked := (s.bytesMarked + span.elemsize) % uint64Mod }
          wbBufFlush1.loop h n rem (i + 1) pos s
        else if n ≤ pos then
          Except.error Fault.indexRange
        else
          let s := { s with wbBuf := { s.wbBuf with buf := s.wbBuf.buf.set pos obj } }
          wbBufFlush1.loop h n rem (i + 1) (pos + 1) s

/-- Function `func wbBufFlush1(_p_ *p)`. -/
def wbBufFlush1 (PtrSize : Nat) (g : Globals) (h : Heap) (s : State) : Except Fault State :=
  let start := s.wbBuf.start
  let n := usub PtrSize s.wbBuf.next start / PtrSize
  if wbBufEntryPointers * wbBufEntries < n then
    Except.error Fault.sliceBounds
  else
    let s := { s with wbBuf := { s.wbBuf with next := 0 } }
    if g.useCheckmark then
      let s := { s with trace := s.trace ++ (s.wbBuf.buf.take n).map Event.shade }
      match s.wbBuf.reset PtrSize g with
      | Except.error e => Except.error e
      | Except.ok b => Except.ok { s with wbBuf := b }
    else
      match wbBufFlush1.loop h n n 0 0 s with
      | Except.error e => Except.error e
      | Except.ok (pos, s) =>
        if wbBufEntryPointers * wbBufEntries < pos then
          Except.error Fault.sliceBounds
        else
          let s := { s with trace := s.trace ++ [Event.putBatch (s.wbBuf.buf.take pos)] }
          match s.wbBuf.reset PtrSize g with
          | Except.error e => Except.error e
          | Except.ok b => Except.ok { s with wbBuf := b }

/-- Function `func wbBufFlush1Debug(old, buf1, buf2 uintptr, start *uintptr, next uintptr)`: its
arguments only give context to a traceback. -/
def wbBufFlush1Debug (PtrSize : Nat) (g : Globals) (h : Heap) (s : State) : Except Fault State :=
  wbBufFlush1 PtrSize g h s

/-- Function `func wbBufFlush(dst *uintptr, src uintptr)`; `dst = 0` is the nil pointer. -/
def wbBufFlush (PtrSize : Nat) (g : Globals) (h : Heap) (dst src : Nat) (s : State) :
    Except Fault State :=
  if s.dying > 0 then
    Except.ok { s with wbBuf := s.wbBuf.discard }
  else
    let s :=
      if g.cgo && dst != 0 then
        { s with trace := s.trace ++ [Event.cgoCheckWriteBarrier dst src] }
      else s
    if g.cgo && dst != 0 && !g.needed then
      Except.ok { s with wbBuf := s.wbBuf.discard }
    else if g.debugCachedWork then
      wbBufFlush1Debug PtrSize g h s
    else
      wbBufFlush1 PtrSize g h s

/-! ## The flush as the specification words it -/

/-- Whether the flush sets the mark bit of the object `ptr` points to, the mark bits being
`marked` when `ptr` is processed: `ptr` is a legal pointer, resolves to an object, and that
object is not marked yet. -/
def Heap.greys (h : Heap) (marked : mspan → Nat → Bool) (ptr : Nat) : Bool :=
  decide (h.minLegalPointer ≤ ptr) && decide ((h.findObject ptr).1 ≠ 0) &&
    !marked (h.findObject ptr).2.1 (h.findObject ptr).2.2

/-- Mark bits after the addresses `ptrs` have been processed in order. -/
def marksAfter (h : Heap) : (mspan → Nat → Bool) → List Nat → (mspan → Nat → Bool)
  | marked, [] => marked
  | marked, ptr :: ptrs =>
    if h.greys marked ptr then
      marksAfter h (setMarked marked (h.findObject ptr).2.1 (h.findObject ptr).2.2) ptrs
    else marksAfter h marked ptrs

/-- Object bases the specification retains for the batch: in buffer order, the object of
every address that is greyed at the moment it is processed and whose span is not noscan. -/
def retained (h : Heap) : (mspan → Nat → Bool) → List Nat → List Nat
  | _, [] => []
  | marked, ptr :: ptrs =>
    if h.greys marked ptr then
      (if (h.findObject ptr).2.1.noscan then [] else [(h.findObject ptr).1]) ++
        retained h (setMarked marked (h.findObject ptr).2.1 (h.findObject ptr).2.2) ptrs
    else retained h marked ptrs

/-- Bytes the specification tallies: the element size of the span of every address that is
greyed at the moment it is processed and whose span is noscan. -/
def noscanBytes (h : Heap) : (mspan → Nat → Bool) → List Nat → Nat
  | _, [] => 0
  | marked, ptr :: ptrs =>
    if h.greys marked ptr then
      (if (h.findObject ptr).2.1.noscan then (h.findObject ptr).2.1.elemsize else 0) +
        noscanBytes h (setMarked marked (h.findObject ptr).2.1 (h.findObject ptr).2.2) ptrs
    else noscanBytes h marked ptrs

/-- Number of buffered pointers `wbBufFlush1` computes: `(next - start) / PtrSize`. -/
def wbBuf.count (PtrSize : Nat) (b : wbBuf) : Nat :=
  usub PtrSize b.next b.start / PtrSize

/-- The buffered addresses a flush of `b` reads: `buf[:n]`. -/
def wbBuf.ptrs (PtrSize : Nat) (b : wbBuf) : List Nat :=
  b.buf.take (b.count PtrSize)

/-- Number of `putFast` calls a buffer accepts after `reset` until it reports full. -/
def effectiveCapacity (g : Globals) (b : wbBuf) : Nat :=
  if forceEager g b then 1 else wbBufEntries

/-- The Go types of the fields of a `wbBuf`: `start`, `next` and `end` are `uintptr` values
and `buf` is an array of `wbBufEntryPointers * wbBufEntries` words. -/
def wbBuf.wellTyped (PtrSize : Nat) (b : wbBuf) : Prop :=
  b.start < uintptrMod PtrSize ∧ b.next < uintptrMod PtrSize ∧ b.end_ < uintptrMod PtrSize ∧
    b.buf.length = wbBufEntryPointers * wbBufEntries

instance (PtrSize : Nat) (b : wbBuf) : Decidable (b.wellTyped PtrSize) := by
  unfold wbBuf.wellTyped; exact inferInstance

/-- The Go types of the fields of the state: a well typed buffer and a `uint64` tally. -/
def State.wellTyped (PtrSize : Nat) (s : State) : Prop :=
  s.wbBuf.wellTyped PtrSize ∧ s.bytesMarked < uint64Mod

instance (PtrSize : Nat) (s : State) : Decidable (s.wellTyped PtrSize) := by
  unfold State.wellTyped; exact inferInstance

/-- The array `buf` is an object in memory: it does not start at the nil address and its
one-past-the-end address is a `uintptr`. -/
def wbBuf.allocated (PtrSize : Nat) (b : wbBuf) : Prop :=
  0 < b.start ∧ b.start + (wbBufEntryPointers * wbBufEntries) * PtrSize < uintptrMod PtrSize

instance (PtrSize : Nat) (b : wbBuf) : Decidable (b.allocated PtrSize) := by
  unfold wbBuf.allocated; exact inferInstance

/-- An object and its mark bit determine each other: two addresses that resolve to objects
resolve to the same object base exactly when they resolve to the same span and index. -/
def Heap.coherent (h : Heap) : Prop :=
  ∀ p q, (h.findObject p).1 ≠ 0 → (h.findObject q).1 ≠ 0 →
    ((h.findObject p).1 = (h.findObject q).1 ↔ (h.findObject p).2 = (h.findObject q).2)

/-- A buffer `wbBufFlush1` can take its slice `buf[:n]` of: well typed, with `n` in range. -/
def wbBuf.flushable (PtrSize : Nat) (b : wbBuf) : Prop :=
  b.wellTyped PtrSize ∧ b.count PtrSize ≤ wbBufEntryPointers * wbBufEntries

instance (PtrSize : Nat) (b : wbBuf) : Decidable (b.flushable PtrSize) := by
  unfold wbBuf.flushable; exact inferInstance

/-- A sequence of flushes that share the mark bitmap, the tally and the work queue: the
buffers `bs` are flushed one after the other by `wbBufFlush1`, and no mark bit is cleared in
between. -/
def flushSeq (PtrSize : Nat) (g : Globals) (h : Heap) : State → List wbBuf → Except Fault State
  | s, [] => Except.ok s
  | s, b :: bs =>
    match wbBufFlush1 PtrSize g h { s with wbBuf := b } with
    | Except.error e => Except.error e
    | Except.ok s' => flushSeq PtrSize g h s' bs

/-- Successive `putFast` calls, one per pair of `ws`: the final buffer and the flags the calls
returned, in call order. -/
def putFastAll (PtrSize : Nat) : wbBuf → List (Nat × Nat) → wbBuf × List Bool
  | b, [] => (b, [])
  | b, w :: ws =>
    ((putFastAll PtrSize (b.putFast PtrSize w.1 w.2).1 ws).1,
      (b.putFast PtrSize w.1 w.2).2 :: (putFastAll PtrSize (b.putFast PtrSize w.1 w.2).1 ws).2)

/-! ## A small heap used to run the definitions

Three spans: X (16-byte objects, scanned) at 8192, Y (32-byte objects, scanned) at 16384 and
Z (8-byte objects, noscan) at 32768. -/

/-- Span X: 64 scanned objects of 16 bytes. -/
def demoSpanX : mspan := { id := 1, elemsize := 16, noscan := false }

/-- Span Y: 32 scanned objects of 32 bytes. -/
def demoSpanY : mspan := { id := 2, elemsize := 32, noscan := false }

/-- Span Z: 128 noscan objects of 8 bytes. -/
def demoSpanZ : mspan := { id := 3, elemsize := 8, noscan := true }

/-- Object lookup in the three spans: base of the object, span, index in the span. -/
def demoFindObject (p : Nat) : Nat × mspan × Nat :=
  if 8192 ≤ p ∧ p < 8192 + 64 * 16 then (p - (p - 8192) % 16, demoSpanX, (p - 8192) / 16)
  else if 16384 ≤ p ∧ p < 16384 + 32 * 32 then (p - (p - 16384) % 32, demoSpanY, (p - 16384) / 32)
  else if 32768 ≤ p ∧ p < 32768 + 128 * 8 then (p - (p - 32768) % 8, demoSpanZ, (p - 32768) / 8)
  else (0, default, 0)

/-- The heap of the three spans. -/
def demoHeap : Heap := { minLegalPointer := 4096, findObject := demoFindObject }

/-- Flags of an ordinary mark phase. -/
def demoGlobals : Globals :=
  { cgo := false, needed := true, debugCachedWork := false, throwOnGCWork := false,
    gcWorkPauseGen := 0, useCheckmark := false }

/-- Mark bits with only object 0 of span Y marked. -/
def demoMarked : mspan → Nat → Bool := fun s i => decide (s = demoSpanY ∧ i = 0)

/-- A buffer at address 49152 holding three entries: (nil, pointer into object 2 of X),
(pointer into object 2 of X, nil), (object 0 of Y, nil). -/
def demoBuf : wbBuf :=
  { start := 49152, next := 49152 + 6 * 8, end_ := 49152 + 512 * 8,
    buf := [0, 8224, 8232, 0, 16384, 0] ++ List.replicate 506 0,
    debugGen := 0, wild := [] }

/-- A state of a live worker with `demoBuf` and `demoMarked`. -/
def demoState : State :=
  { dying := 0, wbBuf := demoBuf, bytesMarked := 100, marked := demoMarked, trace := [] }

/-- A buffer holding one entry whose two addresses are objects 0 and 1 of the noscan
span Z. -/
def demoNoscanBuf : wbBuf :=
  { start := 49152, next := 49152 + 2 * 8, end_ := 49152 + 512 * 8,
    buf := [32768, 32776] ++ List.replicate 510 0, debugGen := 0, wild := [] }

/-- A state of a live worker with `demoNoscanBuf`, in which object 0 of span Z is already
marked and object 1 is not. -/
def demoNoscanState : State :=
  { dying := 0, wbBuf := demoNoscanBuf, bytesMarked := 100,
    marked := fun s i => decide (s = demoSpanZ ∧ i = 0), trace := [] }

/-- The state `demoNoscanState` with no object marked. -/
def demoNoscanFresh : State :=
  { demoNoscanState with marked := fun _ _ => false }

/-! ## Runs of buffer steps -/

/-- One step of a worker on its write barrier buffer. The flags are those in force when the
step is taken. -/
inductive BufOp where
  | reset (g : Globals)
  | putFast (old new : Nat)
  | discard
  | flush (g : Globals) (dst src : Nat)

/-- The state after a step: `reset`, `putFast` and `discard` act on the worker's buffer,
`flush` is `wbBufFlush(dst, src)`. -/
def BufOp.apply (PtrSize : Nat) (h : Heap) : State → BufOp → Except Fault State
  | s, BufOp.reset g =>
    match s.wbBuf.reset PtrSize g with
    | Except.error e => Except.error e
    | Except.ok b => Except.ok { s with wbBuf := b }
  | s, BufOp.putFast old new => Except.ok { s with wbBuf := (s.wbBuf.putFast PtrSize old new).1 }
  | s, BufOp.discard => Except.ok { s with wbBuf := s.wbBuf.discard }
  | s, BufOp.flush g dst src => wbBufFlush PtrSize g h dst src s

/-- Number of entries appended since the last reset, discard or flush, after a step. -/
def BufOp.pending : Nat → BufOp → Nat
  | n, BufOp.putFast _ _ => n + 1
  | _, _ => 0

/-- A run of steps from state `s` with `n` entries pending: the final state and the final
number of pending entries. -/
def runOps (PtrSize : Nat) (h : Heap) : State → Nat → List BufOp → Except Fault (State × Nat)
  | s, n, [] => Except.ok (s, n)
  | s, n, op :: ops =>
    match op.apply PtrSize h s with
    | Except.error e => Except.error e
    | Except.ok s' => runOps PtrSize h s' (op.pending n) ops

/-- The protocol the comment of `putFast` asks of its callers: once `putFast` has returned
false (`next = end`), the buffer is flushed before the next `putFast`. -/
def obeysProtocol (PtrSize : Nat) (h : Heap) : State → List BufOp → Bool
  | _, [] => true
  | s, op :: ops =>
    (match op with
      | BufOp.putFast _ _ => s.wbBuf.next != s.wbBuf.end_
      | _ => true) &&
    (match op.apply PtrSize h s with
      | Except.error _ => true
      | Except.ok s' => obeysProtocol PtrSize h s' ops)

/-- The bound invariant of a buffer with `n` entries pending: `end` is `c` entries past
`start` for some capacity `c` between 1 and `wbBufEntries`, `next` is `n <= c` entries past
`start`. -/
def BufInv (PtrSize : Nat) (s : State) (n : Nat) : Prop :=
  s.wbBuf.allocated PtrSize ∧ s.wbBuf.buf.length = wbBufEntryPointers * wbBufEntries ∧
    s.bytesMarked < uint64Mod ∧
    ∃ c, 1 ≤ c ∧ c ≤ wbBufEntries ∧
      s.wbBuf.end_ = s.wbBuf.start + c * (wbBufEntryPointers * PtrSize) ∧
      s.wbBuf.next = s.wbBuf.start + n * (wbBufEntryPointers * PtrSize) ∧ n ≤ c

/-! ## Bulk barriers of `mbarrier.go` -/

/-- The constant `kindNoPointers = 1 << 7` of `typekind.go`. -/
def kindNoPointers : Nat := 1 <<< 7

/-- The fields of the type descriptor `_type` the bulk operations read. -/
structure _type where
  size : Nat
  kind : Nat
deriving DecidableEq, Repr

/-- The slice header `slice`: `array` is an address, `len` and `cap` are Go `int`. -/
structure slice where
  array : Nat
  len : Int
  cap : Int
deriving DecidableEq, Repr

/-- The build constants `raceenabled` and `msanenabled`. -/
structure Build where
  raceenabled : Bool
  msanenabled : Bool

/-- Calls the bulk operations make outside `mbarrier.go`, with their arguments (program
counters omitted). -/
inductive Call where
  | bulkBarrierPreWrite (dst src size : Nat)
  | memmove (dst src size : Nat)
  | memclrNoHeapPointers (ptr size : Nat)
  | cgoCheckMemmove (typ : _type) (dst src off size : Nat)
  | cgoCheckSliceCopy (typ : _type) (dst src : slice) (n : Int)
  | raceWriteObjectPC (typ : _type) (addr : Nat)
  | raceReadObjectPC (typ : _type) (addr : Nat)
  | racewriterangepc (addr size : Nat)
  | racereadrangepc (addr size : Nat)
  | msanwrite (addr size : Nat)
  | msanread (addr size : Nat)
deriving DecidableEq, Repr

/-- Whether a call is a call of `bulkBarrierPreWrite`. -/
def Call.isBarrier : Call → Bool
  | Call.bulkBarrierPreWrite _ _ _ => true
  | _ => false

/-- Whether a call moves or clears memory (`memmove`, `memclrNoHeapPointers`). -/
def Call.isCopy : Call → Bool
  | Call.memmove _ _ _ => true
  | Call.memclrNoHeapPointers _ _ => true
  | _ => false

/-- The test `typ.kind&kindNoPointers == 0`: the type may contain pointers. -/
def _type.hasPointers (typ : _type) : Bool :=
  typ.kind &&& kindNoPointers == 0

/-- Multiplication on `uintptr`. -/
def umul (PtrSize a b : Nat) : Nat := (a * b) % uintptrMod PtrSize

/-- The conversion `uintptr(n)` of a Go `int`. -/
def uintptrOfInt (PtrSize : Nat) (n : Int) : Nat := (n % (uintptrMod PtrSize : Int)).toNat

/-- Function `func typedmemmove(typ *_type, dst, src unsafe.Pointer)`: its calls in order. -/
def typedmemmove (g : Globals) (typ : _type) (dst src : Nat) : List Call :=
  if dst = src then []
  else
    (if typ.hasPointers then [Call.bulkBarrierPreWrite dst src typ.size] else []) ++
    [Call.memmove dst src typ.size] ++
    (if g.cgo then [Call.cgoCheckMemmove typ dst src 0 typ.size] else [])

/-- Function `func reflect_typedmemmove(typ *_type, dst, src unsafe.Pointer)`. -/
def reflect_typedmemmove (bld : Build) (g : Globals) (typ : _type) (dst src : Nat) : List Call :=
  (if bld.raceenabled then [Call.raceWriteObjectPC typ dst, Call.raceReadObjectPC typ src]
    else []) ++
  (if bld.msanenabled then [Call.msanwrite dst typ.size, Call.msanread src typ.size] else []) ++
  typedmemmove g typ dst src

/-- Function `func reflect_typedmemmovepartial(typ *_type, dst, src unsafe.Pointer, off, size
uintptr)`. `-off` is `usub 0 off`, `&^` is `Nat.ldiff`, `add(p, x)` is `uadd p x`. -/
def reflect_typedmemmovepartial (PtrSize : Nat) (g : Globals) (typ : _type)
    (dst src off size : Nat) : List Call :=
  (if g.needed && typ.hasPointers && decide (size ≥ PtrSize) then
    let frag := usub PtrSize 0 off &&& (PtrSize - 1)
    let adst := if frag ≠ 0 then uadd PtrSize dst frag else dst
    let asrc := if frag ≠ 0 then uadd PtrSize src frag else src
    let asize := if frag ≠ 0 then usub PtrSize size frag else size
    [Call.bulkBarrierPreWrite adst asrc (Nat.ldiff asize (PtrSize - 1))]
  else []) ++
  [Call.memmove dst src size] ++
  (if g.cgo then [Call.cgoCheckMemmove typ dst src off size] else [])

/-- Function `func reflectcallmove(typ *_type, dst, src unsafe.Pointer, size uintptr)`;
`typ = none` is the nil type. -/
def reflectcallmove (PtrSize : Nat) (g : Globals) (typ : Option _type)
    (dst src size : Nat) : List Call :=
  (if g.needed && (match typ with
      | none => false
      | some t => t.hasPointers) && decide (size ≥ PtrSize) then
    [Call.bulkBarrierPreWrite dst src size]
  else []) ++
  [Call.memmove dst src size]

/-- Function `func typedslicecopy(typ *_type, dst, src slice) int`: the returned count and
the calls in order. -/
def typedslicecopy (PtrSize : Nat) (bld : Build) (g : Globals) (typ : _type)
    (dst src : slice) : Int × List Call :=
  let n := if dst.len > src.len then src.len else dst.len
  if n = 0 then (0, [])
  else
    let dstp := dst.array
    let srcp := src.array
    let instr :=
      (if bld.raceenabled then
        [Call.racewriterangepc dstp (umul PtrSize (uintptrOfInt PtrSize n) typ.size),
         Call.racereadrangepc srcp (umul PtrSize (uintptrOfInt PtrSize n) typ.size)]
      else []) ++
      (if bld.msanenabled then
        [Call.msanwrite dstp (umul PtrSize (uintptrOfInt PtrSize n) typ.size),
         Call.msanread srcp (umul PtrSize (uintptrOfInt PtrSize n) typ.size)]
      else []) ++
      (if g.cgo then [Call.cgoCheckSliceCopy typ dst src n] else [])
    if dstp = srcp then (n, instr)
    else
      let size := umul PtrSize (uintptrOfInt PtrSize n) typ.size
      (n, instr ++
        (if g.needed then [Call.bulkBarrierPreWrite dstp srcp size] else []) ++
        [Call.memmove dstp srcp size])

/-- Function `func reflect_typedslicecopy(elemType *_type, dst, src slice) int`. -/
def reflect_typedslicecopy (PtrSize : Nat) (bld : Build) (g : Globals) (elemType : _type)
    (dst src : slice) : Int × List Call :=
  if !elemType.hasPointers then
    let n := if dst.len > src.len then src.len else dst.len
    if n = 0 then (0, [])
    else
      let size := umul PtrSize (uintptrOfInt PtrSize n) elemType.size
      (n,
        (if bld.raceenabled then
          [Call.racewriterangepc dst.array size, Call.racereadrangepc src.array size]
        else []) ++
        (if bld.msanenabled then [Call.msanwrite dst.array size, Call.msanread src.array size]
        else []) ++
        [Call.memmove dst.array src.array size])
  else typedslicecopy PtrSize bld g elemType dst src

/-- Function `func typedmemclr(typ *_type, ptr unsafe.Pointer)`. -/
def typedmemclr (typ : _type) (ptr : Nat) : List Call :=
  (if typ.hasPointers then [Call.bulkBarrierPreWrite ptr 0 typ.size] else []) ++
  [Call.memclrNoHeapPointers ptr typ.size]

/-- Function `func reflect_typedmemclr(typ *_type, ptr unsafe.Pointer)`. -/
def reflect_typedmemclr (typ : _type) (ptr : Nat) : List Call :=
  typedmemclr typ ptr

/-- Function `func reflect_typedmemclrpartial(typ *_type, ptr unsafe.Pointer, off, size
uintptr)`; the body does not use `off`. -/
def reflect_typedmemclrpartial (typ : _type) (ptr _off size : Nat) : List Call :=
  (if typ.hasPointers then [Call.bulkBarrierPreWrite ptr 0 size] else []) ++
  [Call.memclrNoHeapPointers ptr size]

/-- Function `func memclrHasPointers(ptr unsafe.Pointer, n uintptr)`. -/
def memclrHasPointers (ptr n : Nat) : List Call :=
  [Call.bulkBarrierPreWrite ptr 0 n, Call.memclrNoHeapPointers ptr n]

/-- A type with pointers: 24 bytes, kind `struct`. -/
def demoPtrType : _type := { size := 24, kind := 25 }

/-- A type without pointers: 8 bytes, kind `uint64` with `kindNoPointers` set. -/
def demoNoPtrType : _type := { size := 8, kind := 11 + 128 }

/-- A build without race detector and memory sanitizer. -/
def demoBuild : Build := { raceenabled := false, msanenabled := false }

/-- The marking loop of `wbBufFlush1` again, recording each iteration it starts: the index
`i` read, the write index `pos` at that moment, and the value `ptrs[i]` it reads. The
branches are those of `wbBufFlush1.loop`; the record stops where the loop would fault. -/
def wbBufFlush1.loopLog (h : Heap) (n : Nat) : Nat → Nat → Nat → State → List (Nat × Nat × Nat)
  | 0, _, _, _ => []
  | rem + 1, i, pos, s =>
    let ptr := s.wbBuf.buf.getD i 0
    (i, pos, ptr) ::
    (if ptr < h.minLegalPointer then
      wbBufFlush1.loopLog h n rem (i + 1) pos s
    else
      let r := h.findObject ptr
      let obj := r.1
      let span := r.2.1
      let objIndex := r.2.2
      if obj = 0 then
        wbBufFlush1.loopLog h n rem (i + 1) pos s
      else if s.marked span objIndex then
        wbBufFlush1.loopLog h n rem (i + 1) pos s
      else
        let s := { s with marked := setMarked s.marked span objIndex }
        if span.noscan then
          let s := { s with bytesMarked := (s.bytesMarked + span.elemsize) % uint64Mod }
          wbBufFlush1.loopLog h n rem (i + 1) pos s
        else if n ≤ pos then
          []
        else
          let s := { s with wbBuf := { s.wbBuf with buf := s.wbBuf.buf.set pos obj } }
          wbBufFlush1.loopLog h n rem (i + 1) (pos + 1) s)

/-! ## Two workers flushing concurrently

The normal-mode marking loop of `wbBufFlush1`, cut at its accesses to the state the
workers share: `mbits.isMarked()` is one step, `mbits.setMarked()` (with the bookkeeping
on the worker's own buffer and tally that follows it) is another step, and `gcw.putBatch`
is the last step. Steps of the two workers interleave in any order. -/

/-- Where a worker stands in the loop of `wbBufFlush1`: about to take the next buffered
address, or between `isMarked()` returning false and `setMarked()` for the object it
resolved, or past `putBatch`. -/
inductive FlushPc where
  | top
  | tested (obj : Nat) (span : mspan) (objIndex : Nat)
  | done
deriving DecidableEq, Repr

/-- The private state of a flushing worker: the buffered addresses not yet read, its
program point, the object bases recorded so far (`ptrs[:pos]`) and `gcw.bytesMarked`. -/
structure FlushWorker where
  ptrs : List Nat
  pc : FlushPc
  batch : List Nat
  bytesMarked : Nat
deriving DecidableEq, Repr

/-- The state the workers share: the mark bits and the batches handed to `putBatch`, in
call order. -/
structure SharedHeap where
  marked : mspan → Nat → Bool
  queue : List (List Nat)

/-- One step of a worker. At `top` it takes the next address through the filters of the
loop up to and including `isMarked()`; at `tested` it calls `setMarked()` and records the
object (tally for a noscan span, batch otherwise); with no address left it calls
`putBatch`. -/
def FlushWorker.step (h : Heap) (w : FlushWorker) (sh : SharedHeap) :
    FlushWorker × SharedHeap :=
  match w.pc with
  | FlushPc.done => (w, sh)
  | FlushPc.tested obj span objIndex =>
    let sh := { sh with marked := setMarked sh.marked span objIndex }
    if span.noscan then
      ({ w with pc := FlushPc.top,
                bytesMarked := (w.bytesMarked + span.elemsize) % uint64Mod }, sh)
    else
      ({ w with pc := FlushPc.top, batch := w.batch ++ [obj] }, sh)
  | FlushPc.top =>
    match w.ptrs with
    | [] => ({ w with pc := FlushPc.done }, { sh with queue := sh.queue ++ [w.batch] })
    | ptr :: rest =>
      if ptr < h.minLegalPointer then
        ({ w with ptrs := rest }, sh)
      else
        let r := h.findObject ptr
        if r.1 = 0 then
          ({ w with ptrs := rest }, sh)
        else if sh.marked r.2.1 r.2.2 then
          ({ w with ptrs := rest }, sh)
        else
          ({ w with ptrs := rest, pc := FlushPc.tested r.1 r.2.1 r.2.2 }, sh)

/-- Two workers and the state they share. -/
structure TwoWorkers where
  w0 : FlushWorker
  w1 : FlushWorker
  shared : SharedHeap

/-- A step of the system: worker 1 steps when `who` is true, worker 0 otherwise. -/
def TwoWorkers.step (h : Heap) (t : TwoWorkers) (who : Bool) : TwoWorkers :=
  if who then
    { t with w1 := (t.w1.step h t.shared).1, shared := (t.w1.step h t.shared).2 }
  else
    { t with w0 := (t.w0.step h t.shared).1, shared := (t.w0.step h t.shared).2 }

/-- An interleaving: the steps of a schedule taken in order. -/
def TwoWorkers.run (h : Heap) : TwoWorkers → List Bool → TwoWorkers
  | t, [] => t
  | t, who :: sched => TwoWorkers.run h (t.step h who) sched

/-- Two workers about to flush the buffered addresses `ptrs0` and `ptrs1`, the mark bits
being `marked` and nothing handed to the queue yet. -/
def TwoWorkers.init (marked : mspan → Nat → Bool) (ptrs0 ptrs1 : List Nat) : TwoWorkers :=
  { w0 := { ptrs := ptrs0, pc := FlushPc.top, batch := [], bytesMarked := 0 },
    w1 := { ptrs := ptrs1, pc := FlushPc.top, batch := [], bytesMarked := 0 },
    shared := { marked := marked, queue := [] } }

/-- What a worker's private state guarantees at any moment of an interleaving: its batch
holds no object twice, every object of the batch is marked in the shared bits, and an
object it has tested but not yet set is a resolved object that is not in its batch. -/
def FlushWorker.inv (h : Heap) (w : FlushWorker) (sh : SharedHeap) : Prop :=
  w.batch.Nodup ∧
  (∀ o ∈ w.batch, ∀ q, (h.findObject q).1 = o →
    sh.marked (h.findObject q).2.1 (h.findObject q).2.2 = true) ∧
  (∀ obj span objIndex, w.pc = FlushPc.tested obj span objIndex →
    obj ∉ w.batch ∧ obj ≠ 0 ∧ ∃ q, h.findObject q = (obj, span, objIndex))

/-- The invariant of two workers flushing concurrently: both private states are sound, the
batches in the queue hold no object twice, and the queue holds one batch per worker that
is past `putBatch`. -/
def TwoWorkers.inv (h : Heap) (t : TwoWorkers) : Prop :=
  t.w0.inv h t.shared ∧ t.w1.inv h t.shared ∧ (∀ b ∈ t.shared.queue, b.Nodup) ∧
  t.shared.queue.length =
    (if t.w0.pc = FlushPc.done then 1 else 0) + (if t.w1.pc = FlushPc.done then 1 else 0)

/-- Whether a buffered address is one of the entries the no-scan accounting counts: a legal
pointer that resolves to an object of a noscan span of element size `S` whose mark bit is
clear in `marked`, the mark bits before the flush. -/
def Heap.noscanEntry (h : Heap) (S : Nat) (marked : mspan → Nat → Bool) (p : Nat) : Bool :=
  decide (h.minLegalPointer ≤ p) && decide ((h.findObject p).1 ≠ 0) &&
    (h.findObject p).2.1.noscan && decide ((h.findObject p).2.1.elemsize = S) &&
    !marked (h.findObject p).2.1 (h.findObject p).2.2

/-- A buffer holding (nil, object 0 of Z), (nil, object 1 of Z) and (object 2 of Z, object 2
of X): no-scan entries among nil old values and an object with pointers. -/
def demoNoscanMixedBuf : wbBuf :=
  { start := 49152, next := 49152 + 6 * 8, end_ := 49152 + 512 * 8,
    buf := [0, 32768, 0, 32776, 32784, 8224] ++ List.replicate 506 0, debugGen := 0,
    wild := [] }

/-- A state of a live worker with `demoNoscanMixedBuf` in which object 2 of span Z is
already marked and nothing else is. -/
def demoNoscanMixed : State :=
  { dying := 0, wbBuf := demoNoscanMixedBuf, bytesMarked := 100,
    marked := fun s i => decide (s = demoSpanZ ∧ i = 2), trace := [] }

/-! ## Lemmas on the marking loop -/

theorem take_succ_set {α : Type} (l : List α) (k : Nat) (a : α) (hk : k < l.length) :
    (l.set k a).take (k + 1) = l.take k ++ [a] := by
  induction l generalizing k with
  | nil => simp at hk
  | cons x xs ih =>
    cases k with
    | zero => simp
    | succ k => simpa using ih k (by simpa using hk)

theorem retained_cons_skip (h : Heap) (m : mspan → Nat → Bool) (p : Nat) (l : List Nat)
    (hg : h.greys m p = false) : retained h m (p :: l) = retained h m l := by
  simp [retained, hg]

theorem marksAfter_cons_skip (h : Heap) (m : mspan → Nat → Bool) (p : Nat) (l : List Nat)
    (hg : h.greys m p = false) : marksAfter h m (p :: l) = marksAfter h m l := by
  simp [marksAfter, hg]

theorem noscanBytes_cons_skip (h : Heap) (m : mspan → Nat → Bool) (p : Nat) (l : List Nat)
    (hg : h.greys m p = false) : noscanBytes h m (p :: l) = noscanBytes h m l := by
  simp [noscanBytes, hg]

theorem retained_cons_grey (h : Heap) (m : mspan → Nat → Bool) (p : Nat) (l : List Nat)
    (hg : h.greys m p = true) :
    retained h m (p :: l) =
      (if (h.findObject p).2.1.noscan then [] else [(h.findObject p).1]) ++
        retained h (setMarked m (h.findObject p).2.1 (h.findObject p).2.2) l := by
  simp [retained, hg]

theorem marksAfter_cons_grey (h : Heap) (m : mspan → Nat → Bool) (p : Nat) (l : List Nat)
    (hg : h.greys m p = true) :
    marksAfter h m (p :: l) =
      marksAfter h (setMarked m (h.findObject p).2.1 (h.findObject p).2.2) l := by
  simp [marksAfter, hg]

theorem noscanBytes_cons_grey (h : Heap) (m : mspan → Nat → Bool) (p : Nat) (l : List Nat)
    (hg : h.greys m p = true) :
    noscanBytes h m (p :: l) =
      (if (h.findObject p).2.1.noscan then (h.findObject p).2.1.elemsize else 0) +
        noscanBytes h (setMarked m (h.findObject p).2.1 (h.findObject p).2.2) l := by
  simp [noscanBytes, hg]

theorem greys_iff (h : Heap) (m : mspan → Nat → Bool) (p : Nat) :
    h.greys m p = true ↔
      ¬ p < h.minLegalPointer ∧ (h.findObject p).1 ≠ 0 ∧
        m (h.findObject p).2.1 (h.findObject p).2.2 = false := by
  simp [Heap.greys, and_assoc]

theorem loop_spec (h : Heap) (n : Nat) :
    ∀ (rem i pos : Nat) (s : State), pos ≤ i → i + rem ≤ n → n ≤ s.wbBuf.buf.length →
      s.bytesMarked < uint64Mod →
      ∃ buf : List Nat,
        wbBufFlush1.loop h n rem i pos s =
          Except.ok (pos + (retained h s.marked ((s.wbBuf.buf.drop i).take rem)).length,
            { s with
              wbBuf := { s.wbBuf with buf := buf }
              marked := marksAfter h s.marked ((s.wbBuf.buf.drop i).take rem)
              bytesMarked :=
                (s.bytesMarked + noscanBytes h s.marked ((s.wbBuf.buf.drop i).take rem))
                  % uint64Mod }) ∧
        buf.length = s.wbBuf.buf.length ∧
        buf.take (pos + (retained h s.marked ((s.wbBuf.buf.drop i).take rem)).length) =
          s.wbBuf.buf.take pos ++ retained h s.marked ((s.wbBuf.buf.drop i).take rem) ∧
        buf.drop (i + rem) = s.wbBuf.buf.drop (i + rem) ∧
        pos + (retained h s.marked ((s.wbBuf.buf.drop i).take rem)).length ≤ i + rem := by
  intro rem
  induction rem with
  | zero =>
    intro i pos s hpi _ _ hb
    refine ⟨s.wbBuf.buf, ?_, rfl, ?_, rfl, ?_⟩
    · simp [wbBufFlush1.loop, retained, marksAfter, noscanBytes, Nat.mod_eq_of_lt hb]
    · simp [retained]
    · simpa [retained] using hpi
  | succ rem ih =>
    intro i pos s hpi hin hlen hb
    have hi : i < s.wbBuf.buf.length := by omega
    have hdrop : (s.wbBuf.buf.drop i).take (rem + 1) =
        s.wbBuf.buf.getD i 0 :: (s.wbBuf.buf.drop (i + 1)).take rem := by
      rw [List.drop_eq_getElem_cons hi, List.take_succ_cons, List.getD_eq_getElem?_getD,
        List.getElem?_eq_getElem hi]
      rfl
    rw [hdrop]
    unfold wbBufFlush1.loop
    cases hg : h.greys s.marked (s.wbBuf.buf.getD i 0) with
    | true =>
      obtain ⟨c1, c2, c3⟩ := (greys_iff h s.marked (s.wbBuf.buf.getD i 0)).mp hg
      rw [retained_cons_grey h _ _ _ hg, marksAfter_cons_grey h _ _ _ hg,
        noscanBytes_cons_grey h _ _ _ hg]
      simp only [c1, c2, c3, if_false, Bool.false_eq_true]
      cases hn : (h.findObject (s.wbBuf.buf.getD i 0)).2.1.noscan with
      | true =>
        obtain ⟨buf, h1, h2, h3, h4, h5⟩ := ih (i + 1) pos
          { s with
            marked := setMarked s.marked (h.findObject (s.wbBuf.buf.getD i 0)).2.1
              (h.findObject (s.wbBuf.buf.getD i 0)).2.2
            bytesMarked :=
              (s.bytesMarked + (h.findObject (s.wbBuf.buf.getD i 0)).2.1.elemsize) % uint64Mod }
          (by omega) (by omega) hlen (Nat.mod_lt _ (by simp [uint64Mod]))
        dsimp only at h1 h2 h3 h4 h5
        refine ⟨buf, ?_, h2, ?_, ?_, ?_⟩
        · simp only [if_true, List.nil_append]
          rw [h1]
          simp only [Nat.mod_add_mod, Nat.add_assoc]
        · simpa using h3
        · simpa only [Nat.add_assoc, Nat.add_comm 1 rem] using h4
        · simp only [if_true, List.nil_append]; exact (by omega)
      | false =>
        have hpn : ¬ n ≤ pos := by omega
        have hpl : pos < s.wbBuf.buf.length := by omega
        obtain ⟨buf, h1, h2, h3, h4, h5⟩ := ih (i + 1) (pos + 1)
          { s with
            marked := setMarked s.marked (h.findObject (s.wbBuf.buf.getD i 0)).2.1
              (h.findObject (s.wbBuf.buf.getD i 0)).2.2
            wbBuf := { s.wbBuf with
              buf := s.wbBuf.buf.set pos (h.findObject (s.wbBuf.buf.getD i 0)).1 } }
          (by omega) (by omega) (by simpa using hlen) hb
        have hd : (s.wbBuf.buf.set pos (h.findObject (s.wbBuf.buf.getD i 0)).1).drop (i + 1) =
            s.wbBuf.buf.drop (i + 1) := List.drop_set_of_lt _ _ (by omega)
        have ht : (s.wbBuf.buf.set pos (h.findObject (s.wbBuf.buf.getD i 0)).1).take (pos + 1) =
            s.wbBuf.buf.take pos ++ [(h.findObject (s.wbBuf.buf.getD i 0)).1] :=
          take_succ_set _ _ _ hpl
        dsimp only at h1 h2 h3 h4 h5
        simp only [hd] at h1 h3 h4 h5
        refine ⟨buf, ?_, ?_, ?_, ?_, ?_⟩
        · simp only [hpn, if_false, Bool.false_eq_true, List.length_append, List.length_singleton]
          rw [h1]
          simp only [Nat.add_assoc, Nat.zero_add, Nat.add_comm 1]
        · simpa using h2
        · simp only [if_false, Bool.false_eq_true, List.length_append, List.length_singleton]
          rw [← List.append_assoc, ← ht, ← h3]
          simp only [Nat.add_assoc, Nat.add_comm 1]
        · rw [show i + (rem + 1) = i + 1 + rem by omega, h4]
          exact List.drop_set_of_lt _ _ (by omega)
        · simp only [if_false, Bool.false_eq_true, List.length_append, List.length_singleton]
          omega
    | false =>
      obtain ⟨buf, h1, h2, h3, h4, h5⟩ := ih (i + 1) pos s (by omega) (by omega) hlen hb
      rw [retained_cons_skip h _ _ _ hg, marksAfter_cons_skip h _ _ _ hg,
        noscanBytes_cons_skip h _ _ _ hg]
      refine ⟨buf, ?_, h2, h3, ?_, by omega⟩
      · have hg2 := (greys_iff h s.marked (s.wbBuf.buf.getD i 0)).not.mp (by rw [hg]; simp)
        by_cases c1 : s.wbBuf.buf.getD i 0 < h.minLegalPointer
        · simp only [c1, if_true]; exact h1
        · by_cases c2 : (h.findObject (s.wbBuf.buf.getD i 0)).1 = 0
          · simp only [c1, c2, if_true, if_false]; exact h1
          · have c3 : s.marked (h.findObject (s.wbBuf.buf.getD i 0)).2.1
                (h.findObject (s.wbBuf.buf.getD i 0)).2.2 = true := by
              by_contra hc
              exact hg2 ⟨c1, c2, by simpa using hc⟩
            simp only [c1, c2, c3, if_true, if_false]; exact h1
      · simpa only [Nat.add_assoc, Nat.add_comm 1 rem] using h4

/-! ## Lemmas on `reset` and on the normal-mode flush -/

theorem reset_eq (PtrSize : Nat) (hps : PtrSize = 4 ∨ PtrSize = 8) (g : Globals) (b : wbBuf)
    (hstart : b.start < uintptrMod PtrSize) :
    b.reset PtrSize g =
      Except.ok { b with
        next := b.start
        end_ := uadd PtrSize b.start (effectiveCapacity g b * (wbBufEntryPointers * PtrSize)) } := by
  rcases hps with rfl | rfl <;>
  · simp only [uintptrMod] at hstart
    cases hf : forceEager g b <;>
    · have hf2 : forceEager g { b with next := b.start } = forceEager g b := rfl
      simp only [wbBuf.reset, hf2, hf, effectiveCapacity, testSmallBuf, wbBufEntries,
        wbBufEntryPointers, uadd, usub, uintptrMod, if_true, if_false, Bool.false_eq_true]
      norm_num
      omega

theorem wbBufFlush1_normal (PtrSize : Nat) (hps : PtrSize = 4 ∨ PtrSize = 8) (g : Globals)
    (h : Heap) (s : State) (hck : g.useCheckmark = false)
    (hstart : s.wbBuf.start < uintptrMod PtrSize)
    (hn : s.wbBuf.count PtrSize ≤ wbBufEntryPointers * wbBufEntries)
    (hlen : s.wbBuf.buf.length = wbBufEntryPointers * wbBufEntries)
    (hb : s.bytesMarked < uint64Mod) :
    ∃ buf : List Nat,
      wbBufFlush1 PtrSize g h s =
        Except.ok { s with
          wbBuf := { s.wbBuf with
            next := s.wbBuf.start
            end_ := uadd PtrSize s.wbBuf.start
              (effectiveCapacity g s.wbBuf * (wbBufEntryPointers * PtrSize))
            buf := buf }
          marked := marksAfter h s.marked (s.wbBuf.ptrs PtrSize)
          bytesMarked :=
            (s.bytesMarked + noscanBytes h s.marked (s.wbBuf.ptrs PtrSize)) % uint64Mod
          trace := s.trace ++ [Event.putBatch (retained h s.marked (s.wbBuf.ptrs PtrSize))] } ∧
      buf.length = wbBufEntryPointers * wbBufEntries ∧
      buf.take (retained h s.marked (s.wbBuf.ptrs PtrSize)).length =
        retained h s.marked (s.wbBuf.ptrs PtrSize) ∧
      buf.drop (s.wbBuf.count PtrSize) = s.wbBuf.buf.drop (s.wbBuf.count PtrSize) ∧
      (retained h s.marked (s.wbBuf.ptrs PtrSize)).length ≤ s.wbBuf.count PtrSize := by
  obtain ⟨buf, h1, h2, h3, h4, h5⟩ := loop_spec h (s.wbBuf.count PtrSize) (s.wbBuf.count PtrSize)
    0 0 { s with wbBuf := { s.wbBuf with next := 0 } } (Nat.le_refl 0) (by omega)
    (by simpa [hlen] using hn) hb
  simp only [List.drop_zero, Nat.zero_add, List.take_zero, List.nil_append] at h1 h2 h3 h4 h5
  refine ⟨buf, ?_, by rw [h2, hlen], h3, h4, h5⟩
  have hpos : ¬ wbBufEntryPointers * wbBufEntries <
      (retained h s.marked (s.wbBuf.ptrs PtrSize)).length := by
    have : (retained h s.marked (s.wbBuf.ptrs PtrSize)).length ≤ s.wbBuf.count PtrSize := h5
    omega
  have hcnt : ¬ wbBufEntryPointers * wbBufEntries < usub PtrSize s.wbBuf.next s.wbBuf.start / PtrSize :=
    by simpa [wbBuf.count] using hn
  unfold wbBufFlush1
  simp only [hcnt, if_false, hck, Bool.false_eq_true]
  have h1x : wbBufFlush1.loop h (usub PtrSize s.wbBuf.next s.wbBuf.start / PtrSize)
      (usub PtrSize s.wbBuf.next s.wbBuf.start / PtrSize) 0 0
      { s with wbBuf := { s.wbBuf with next := 0 } } = _ := h1
  rw [h1x]
  simp only [wbBuf.ptrs] at hpos h3 ⊢
  simp only [hpos, if_false, h3]
  rw [reset_eq PtrSize hps g]
  · rfl
  · exact hstart

/-! ## Lemmas on the specification functions -/

theorem setMarked_mono (m : mspan → Nat → Bool) (sp : mspan) (k : Nat) (x : mspan) (i : Nat)
    (hm : m x i = true) : setMarked m sp k x i = true := by
  unfold setMarked; split <;> simp [hm]

theorem setMarked_self (m : mspan → Nat → Bool) (sp : mspan) (k : Nat) :
    setMarked m sp k sp k = true := by
  simp [setMarked]

theorem marksAfter_mono (h : Heap) (l : List Nat) :
    ∀ (m : mspan → Nat → Bool) (x : mspan) (i : Nat), m x i = true →
      marksAfter h m l x i = true := by
  induction l with
  | nil => intro m x i hm; simpa [marksAfter] using hm
  | cons p l ih =>
    intro m x i hm
    cases hg : h.greys m p with
    | true =>
      rw [marksAfter_cons_grey h _ _ _ hg]
      exact ih _ x i (setMarked_mono m _ _ x i hm)
    | false =>
      rw [marksAfter_cons_skip h _ _ _ hg]
      exact ih m x i hm

theorem retained_sound (h : Heap) (hco : h.coherent) (l : List Nat) :
    ∀ (m : mspan → Nat → Bool) (obj : Nat), obj ∈ retained h m l →
      obj ≠ 0 ∧ (∃ q ∈ l, (h.findObject q).1 = obj ∧ (h.findObject q).2.1.noscan = false) ∧
      ∀ q, (h.findObject q).1 = obj →
        m (h.findObject q).2.1 (h.findObject q).2.2 = false ∧
        marksAfter h m l (h.findObject q).2.1 (h.findObject q).2.2 = true := by
  induction l with
  | nil => intro m obj hm; simp [retained] at hm
  | cons p l ih =>
    intro m obj hm
    cases hg : h.greys m p with
    | false =>
      rw [retained_cons_skip h _ _ _ hg] at hm
      rw [marksAfter_cons_skip h _ _ _ hg]
      obtain ⟨h0, ⟨q, hq, hq2⟩, h2⟩ := ih m obj hm
      exact ⟨h0, ⟨q, List.mem_cons_of_mem _ hq, hq2⟩, h2⟩
    | true =>
      obtain ⟨c1, c2, c3⟩ := (greys_iff h m p).mp hg
      rw [retained_cons_grey h _ _ _ hg] at hm
      rw [marksAfter_cons_grey h _ _ _ hg]
      rcases List.mem_append.mp hm with hm1 | hm2
      · cases hn : (h.findObject p).2.1.noscan with
        | true => simp [hn] at hm1
        | false =>
          simp only [hn, if_false, Bool.false_eq_true, List.mem_singleton] at hm1
          subst hm1
          refine ⟨c2, ⟨p, List.mem_cons_self _ _, rfl, hn⟩, ?_⟩
          intro q hq
          have hbit : (h.findObject p).2 = (h.findObject q).2 :=
            (hco p q c2 (by rw [hq]; exact c2)).mp hq.symm
          rw [← hbit]
          exact ⟨c3, marksAfter_mono h l _ _ _ (setMarked_self m _ _)⟩
      · obtain ⟨h0, ⟨q, hq, hq2⟩, h2⟩ := ih _ obj hm2
        refine ⟨h0, ⟨q, List.mem_cons_of_mem _ hq, hq2⟩, ?_⟩
        intro q hq
        obtain ⟨h3, h4⟩ := h2 q hq
        refine ⟨?_, h4⟩
        cases hmq : m (h.findObject q).2.1 (h.findObject q).2.2 with
        | false => rfl
        | true => rw [setMarked_mono m _ _ _ _ hmq] at h3; exact absurd h3 (by simp)

theorem retained_nodup (h : Heap) (hco : h.coherent) (l : List Nat) :
    ∀ (m : mspan → Nat → Bool), (retained h m l).Nodup := by
  induction l with
  | nil => intro m; simp [retained]
  | cons p l ih =>
    intro m
    cases hg : h.greys m p with
    | false => rw [retained_cons_skip h _ _ _ hg]; exact ih m
    | true =>
      rw [retained_cons_grey h _ _ _ hg]
      cases hn : (h.findObject p).2.1.noscan with
      | true => simpa using ih _
      | false =>
        simp only [if_false, Bool.false_eq_true, List.singleton_append, List.nodup_cons]
        refine ⟨?_, ih _⟩
        intro hmem
        have := ((retained_sound h hco l _ _ hmem).2.2 p rfl).1
        rw [setMarked_self] at this
        exact absurd this (by simp)

theorem marksAfter_marks (h : Heap) (l : List Nat) :
    ∀ (m : mspan → Nat → Bool) (v : Nat), v ∈ l → h.minLegalPointer ≤ v →
      (h.findObject v).1 ≠ 0 →
      marksAfter h m l (h.findObject v).2.1 (h.findObject v).2.2 = true := by
  induction l with
  | nil => intro m v hv; simp at hv
  | cons p l ih =>
    intro m v hv h1 h2
    cases hg : h.greys m p with
    | true =>
      rw [marksAfter_cons_grey h _ _ _ hg]
      rcases List.mem_cons.mp hv with rfl | hv
      · exact marksAfter_mono h l _ _ _ (setMarked_self m _ _)
      · exact ih _ v hv h1 h2
    | false =>
      rw [marksAfter_cons_skip h _ _ _ hg]
      rcases List.mem_cons.mp hv with rfl | hv
      · have hng := (greys_iff h m v).not.mp (by rw [hg]; simp)
        have hm : m (h.findObject v).2.1 (h.findObject v).2.2 = true := by
          by_contra hc
          exact hng ⟨by omega, h2, by simpa using hc⟩
        exact marksAfter_mono h l m _ _ hm
      · exact ih _ v hv h1 h2

theorem marksAfter_only (h : Heap) (l : List Nat) :
    ∀ (m : mspan → Nat → Bool) (x : mspan) (i : Nat), marksAfter h m l x i = true →
      m x i = true ∨
        ∃ v ∈ l, h.minLegalPointer ≤ v ∧ (h.findObject v).1 ≠ 0 ∧ (h.findObject v).2 = (x, i) := by
  induction l with
  | nil => intro m x i hm; exact Or.inl (by simpa [marksAfter] using hm)
  | cons p l ih =>
    intro m x i hm
    cases hg : h.greys m p with
    | true =>
      obtain ⟨c1, c2, -⟩ := (greys_iff h m p).mp hg
      rw [marksAfter_cons_grey h _ _ _ hg] at hm
      rcases ih _ x i hm with h1 | ⟨v, hv, h2⟩
      · unfold setMarked at h1
        split at h1
        · rename_i hxi
          exact Or.inr ⟨p, List.mem_cons_self _ _, by omega, c2, by
            rw [hxi.1, hxi.2]⟩
        · exact Or.inl h1
      · exact Or.inr ⟨v, List.mem_cons_of_mem _ hv, h2⟩
    | false =>
      rw [marksAfter_cons_skip h _ _ _ hg] at hm
      rcases ih _ x i hm with h1 | ⟨v, hv, h2⟩
      · exact Or.inl h1
      · exact Or.inr ⟨v, List.mem_cons_of_mem _ hv, h2⟩

theorem count_of_entries (PtrSize : Nat) (hps : PtrSize = 4 ∨ PtrSize = 8) (b : wbBuf) (j : Nat)
    (hal : b.allocated PtrSize) (hj : j ≤ wbBufEntries)
    (hnext : b.next = b.start + j * (wbBufEntryPointers * PtrSize)) :
    b.count PtrSize = wbBufEntryPointers * j := by
  obtain ⟨h0, h1⟩ := hal
  unfold wbBuf.count usub
  rw [hnext]
  rcases hps with rfl | rfl <;>
  · simp only [uintptrMod, wbBufEntryPointers, wbBufEntries] at h1 hj ⊢
    norm_num at h1 ⊢
    omega

theorem noscan_all (h : Heap) (hco : h.coherent) (S : Nat) (l : List Nat) :
    ∀ (m : mspan → Nat → Bool),
      (∀ p ∈ l, h.minLegalPointer ≤ p ∧ (h.findObject p).1 ≠ 0 ∧
        (h.findObject p).2.1.noscan = true ∧ (h.findObject p).2.1.elemsize = S ∧
        m (h.findObject p).2.1 (h.findObject p).2.2 = false) →
      (l.map (fun p => (h.findObject p).1)).Nodup →
      noscanBytes h m l = l.length * S ∧ retained h m l = [] := by
  induction l with
  | nil => intro m _ _; simp [noscanBytes, retained]
  | cons p l ih =>
    intro m hall hnd
    obtain ⟨c1, c2, c3, c4, c5⟩ := hall p (List.mem_cons_self _ _)
    have hg : h.greys m p = true := (greys_iff h m p).mpr ⟨by omega, c2, c5⟩
    rw [List.map_cons, List.nodup_cons] at hnd
    obtain ⟨i1, i2⟩ := ih (setMarked m (h.findObject p).2.1 (h.findObject p).2.2)
      (by
        intro q hq
        obtain ⟨d1, d2, d3, d4, d5⟩ := hall q (List.mem_cons_of_mem _ hq)
        refine ⟨d1, d2, d3, d4, ?_⟩
        unfold setMarked
        split
        · rename_i hx
          exfalso
          apply hnd.1
          have hobj : (h.findObject p).1 = (h.findObject q).1 :=
            (hco p q c2 d2).mpr (Prod.ext hx.1.symm hx.2.symm)
          rw [hobj]
          exact List.mem_map_of_mem _ hq
        · exact d5)
      hnd.2
    rw [noscanBytes_cons_grey h _ _ _ hg, retained_cons_grey h _ _ _ hg, i1, i2]
    simp only [c3, c4, if_true, List.length_cons, List.append_nil, and_true]
    ring

theorem flushSeq_spec (PtrSize : Nat) (hps : PtrSize = 4 ∨ PtrSize = 8) (g : Globals) (h : Heap)
    (hco : h.coherent) (hck : g.useCheckmark = false) (bs : List wbBuf) :
    ∀ s : State, s.bytesMarked < uint64Mod → (∀ b ∈ bs, b.flushable PtrSize) →
      ∃ (s' : State) (batches : List (List Nat)),
        flushSeq PtrSize g h s bs = Except.ok s' ∧
        s'.trace = s.trace ++ batches.map Event.putBatch ∧
        batches.length = bs.length ∧
        batches.flatten.Nodup ∧
        (∀ obj ∈ batches.flatten, (∃ q, (h.findObject q).1 = obj) ∧
          ∀ q, (h.findObject q).1 = obj →
            s.marked (h.findObject q).2.1 (h.findObject q).2.2 = false) ∧
        (∀ x i, s.marked x i = true → s'.marked x i = true) ∧
        s'.bytesMarked < uint64Mod := by
  induction bs with
  | nil =>
    intro s hb _
    exact ⟨s, [], rfl, by simp, rfl, by simp, by simp, fun _ _ hm => hm, hb⟩
  | cons b bs ih =>
    intro s hb hbs
    have hfl := hbs b (List.mem_cons_self _ _)
    obtain ⟨buf, h1, -⟩ := wbBufFlush1_normal PtrSize hps g h { s with wbBuf := b } hck
      hfl.1.1 hfl.2 hfl.1.2.2.2 hb
    obtain ⟨s', batches, e1, e2, e3, e4, e5, e6, e7⟩ := ih _
      (show (State.mk s.dying _ ((s.bytesMarked + noscanBytes h s.marked (b.ptrs PtrSize))
        % uint64Mod) (marksAfter h s.marked (b.ptrs PtrSize))
        (s.trace ++ [Event.putBatch (retained h s.marked (b.ptrs PtrSize))])).bytesMarked
          < uint64Mod from Nat.mod_lt _ (by simp [uint64Mod]))
      (fun b' hb' => hbs b' (List.mem_cons_of_mem _ hb'))
    refine ⟨s', retained h s.marked (b.ptrs PtrSize) :: batches, ?_, ?_, by simp [e3], ?_, ?_,
      ?_, e7⟩
    · simp only [flushSeq, h1]
      exact e1
    · rw [e2]; simp
    · rw [List.flatten_cons, List.nodup_append]
      refine ⟨retained_nodup h hco _ _, e4, ?_⟩
      intro obj ho1 ho2
      obtain ⟨-, -, hs1⟩ := retained_sound h hco _ _ obj ho1
      obtain ⟨⟨q, hq⟩, hs2⟩ := e5 obj ho2
      have a1 := (hs1 q hq).2
      have a2 : marksAfter h s.marked (b.ptrs PtrSize) (h.findObject q).2.1
          (h.findObject q).2.2 = false := hs2 q hq
      rw [a1] at a2
      exact absurd a2 (by simp)
    · intro obj ho
      rw [List.flatten_cons, List.mem_append] at ho
      rcases ho with ho | ho
      · obtain ⟨-, ⟨q, -, hq, -⟩, hs1⟩ := retained_sound h hco _ _ obj ho
        exact ⟨⟨q, hq⟩, fun q hq => (hs1 q hq).1⟩
      · obtain ⟨hq0, hs2⟩ := e5 obj ho
        refine ⟨hq0, fun q hq => ?_⟩
        have a2 : marksAfter h s.marked (b.ptrs PtrSize) (h.findObject q).2.1
            (h.findObject q).2.2 = false := hs2 q hq
        cases hmq : s.marked (h.findObject q).2.1 (h.findObject q).2.2 with
        | false => rfl
        | true =>
          have a3 := marksAfter_mono h (b.ptrs PtrSize) s.marked _ _ hmq
          rw [a3] at a2
          exact absurd a2 (by simp)
    · intro x i hm
      exact e6 x i (marksAfter_mono h (b.ptrs PtrSize) s.marked x i hm)

theorem demoHeap_coherent : demoHeap.coherent := by
  intro p q
  simp only [demoHeap, demoFindObject]
  split_ifs <;> simp [demoSpanX, demoSpanY, demoSpanZ] <;> omega

/-! ## Lemmas on `putFast` -/

theorem store_next (PtrSize : Nat) (b : wbBuf) (a v : Nat) : (b.store PtrSize a v).next = b.next := by
  unfold wbBuf.store; split <;> rfl

theorem store_end (PtrSize : Nat) (b : wbBuf) (a v : Nat) : (b.store PtrSize a v).end_ = b.end_ := by
  unfold wbBuf.store; split <;> rfl

theorem store_start (PtrSize : Nat) (b : wbBuf) (a v : Nat) :
    (b.store PtrSize a v).start = b.start := by
  unfold wbBuf.store; split <;> rfl

theorem store_debugGen (PtrSize : Nat) (b : wbBuf) (a v : Nat) :
    (b.store PtrSize a v).debugGen = b.debugGen := by
  unfold wbBuf.store; split <;> rfl

theorem store_length (PtrSize : Nat) (b : wbBuf) (a v : Nat) :
    (b.store PtrSize a v).buf.length = b.buf.length := by
  unfold wbBuf.store; split <;> simp

theorem putFast_next (PtrSize : Nat) (b : wbBuf) (old new : Nat) :
    (b.putFast PtrSize old new).1.next = uadd PtrSize b.next (2 * PtrSize) := by
  simp [wbBuf.putFast, store_next]

theorem putFast_end (PtrSize : Nat) (b : wbBuf) (old new : Nat) :
    (b.putFast PtrSize old new).1.end_ = b.end_ := by
  simp [wbBuf.putFast, store_end]

theorem putFast_start (PtrSize : Nat) (b : wbBuf) (old new : Nat) :
    (b.putFast PtrSize old new).1.start = b.start := by
  simp [wbBuf.putFast, store_start]

theorem putFast_debugGen (PtrSize : Nat) (b : wbBuf) (old new : Nat) :
    (b.putFast PtrSize old new).1.debugGen = b.debugGen := by
  simp [wbBuf.putFast, store_debugGen]

theorem putFast_length (PtrSize : Nat) (b : wbBuf) (old new : Nat) :
    (b.putFast PtrSize old new).1.buf.length = b.buf.length := by
  simp [wbBuf.putFast, store_length]

theorem putFast_flag (PtrSize : Nat) (b : wbBuf) (old new : Nat) :
    (b.putFast PtrSize old new).2 = (uadd PtrSize b.next (2 * PtrSize) != b.end_) := by
  simp [wbBuf.putFast, store_next, store_end]

theorem store_in_buf (PtrSize : Nat) (b : wbBuf) (addr v i : Nat) (hp : 0 < PtrSize)
    (ha : addr = b.start + i * PtrSize) (hi : i < b.buf.length) :
    b.store PtrSize addr v = { b with buf := b.buf.set i v } := by
  have e : addr - b.start = i * PtrSize := by omega
  unfold wbBuf.store
  rw [if_pos ⟨by omega, by rw [e]; exact Nat.mul_mod_left _ _,
    by rw [e, Nat.mul_div_cancel _ hp]; exact hi⟩, e, Nat.mul_div_cancel _ hp]

theorem putFast_step (PtrSize : Nat) (hps : PtrSize = 4 ∨ PtrSize = 8) (b : wbBuf)
    (old new j : Nat) (hal : b.allocated PtrSize)
    (hlen : b.buf.length = wbBufEntryPointers * wbBufEntries)
    (hnext : b.next = b.start + j * (wbBufEntryPointers * PtrSize)) (hj : j < wbBufEntries) :
    b.putFast PtrSize old new =
      ({ b with
          buf := (b.buf.set (wbBufEntryPointers * j) old).set (wbBufEntryPointers * j + 1) new
          next := b.start + (j + 1) * (wbBufEntryPointers * PtrSize) },
        b.start + (j + 1) * (wbBufEntryPointers * PtrSize) != b.end_) := by
  obtain ⟨h0, h1⟩ := hal
  have hp : 0 < PtrSize := by omega
  simp only [wbBufEntryPointers, wbBufEntries] at h1 hlen hnext hj ⊢
  have e1 : uadd PtrSize b.next PtrSize = b.start + (2 * j + 1) * PtrSize := by
    unfold uadd
    rw [Nat.mod_eq_of_lt]
    · rw [hnext]; ring
    · rcases hps with rfl | rfl <;> omega
  have e2 : uadd PtrSize b.next (2 * PtrSize) = b.start + (j + 1) * (2 * PtrSize) := by
    unfold uadd
    rw [Nat.mod_eq_of_lt]
    · rw [hnext]; ring
    · rcases hps with rfl | rfl <;> omega
  have e0 : b.next = b.start + (2 * j) * PtrSize := by rw [hnext]; ring
  unfold wbBuf.putFast
  simp only []
  rw [store_in_buf PtrSize b b.next old (2 * j) hp e0 (by omega)]
  rw [store_in_buf PtrSize { b with buf := b.buf.set (2 * j) old } (uadd PtrSize b.next PtrSize)
    new (2 * j + 1) hp e1 (by simp; omega)]
  simp only [e2]

theorem putFastAll_spec (PtrSize : Nat) (hps : PtrSize = 4 ∨ PtrSize = 8)
    (ws : List (Nat × Nat)) :
    ∀ (b : wbBuf) (j c : Nat), b.allocated PtrSize →
      b.buf.length = wbBufEntryPointers * wbBufEntries →
      b.next = b.start + j * (wbBufEntryPointers * PtrSize) →
      b.end_ = b.start + c * (wbBufEntryPointers * PtrSize) →
      j + ws.length ≤ c → c ≤ wbBufEntries →
      (putFastAll PtrSize b ws).1.start = b.start ∧
      (putFastAll PtrSize b ws).1.next =
        b.start + (j + ws.length) * (wbBufEntryPointers * PtrSize) ∧
      (putFastAll PtrSize b ws).1.end_ = b.end_ ∧
      (putFastAll PtrSize b ws).1.wild = b.wild ∧
      (putFastAll PtrSize b ws).1.debugGen = b.debugGen ∧
      (putFastAll PtrSize b ws).1.buf.length = b.buf.length ∧
      (putFastAll PtrSize b ws).2 =
        (List.range ws.length).map (fun k => decide (j + k + 1 ≠ c)) := by
  induction ws with
  | nil =>
    intro b j c _ _ hnext _ _ _
    simp [putFastAll, hnext]
  | cons w ws ih =>
    intro b j c hal hlen hnext hend hjc hc
    have hj : j < wbBufEntries := by simp only [List.length_cons] at hjc; omega
    have hstep := putFast_step PtrSize hps b w.1 w.2 j hal hlen hnext hj
    have hp : 0 < wbBufEntryPointers * PtrSize := by
      rcases hps with rfl | rfl <;> simp [wbBufEntryPointers]
    obtain ⟨i1, i2, i3, i4, i5, i6, i7⟩ := ih (b.putFast PtrSize w.1 w.2).1 (j + 1) c
      (by rw [hstep]; exact hal) (by rw [hstep]; simpa using hlen) (by rw [hstep])
      (by rw [hstep]; exact hend) (by simp only [List.length_cons] at hjc; omega) hc
    simp only [putFastAll, List.length_cons]
    rw [i1, i2, i3, i4, i5, i6, i7, hstep]
    refine ⟨rfl, by ring, rfl, rfl, rfl, by simp, ?_⟩
    rw [List.range_succ_eq_map, List.map_cons, List.map_map]
    congr 1
    · simp only [hend, Nat.add_zero]
      by_cases hjc1 : j + 1 = c
      · simp [hjc1]
      · have : (j + 1) * (wbBufEntryPointers * PtrSize) ≠ c * (wbBufEntryPointers * PtrSize) := by
          intro hm
          exact hjc1 (Nat.eq_of_mul_eq_mul_right hp hm)
        simp [hjc1, this]
    · apply List.map_congr_left
      intro k _
      simp only [Function.comp, Nat.succ_eq_add_one]
      congr 2
      omega

theorem reset_end (PtrSize : Nat) (hps : PtrSize = 4 ∨ PtrSize = 8) (g : Globals) (b : wbBuf)
    (hal : b.allocated PtrSize) :
    b.reset PtrSize g =
      Except.ok { b with
        next := b.start
        end_ := b.start + effectiveCapacity g b * (wbBufEntryPointers * PtrSize) } := by
  obtain ⟨h0, h1⟩ := hal
  have hc : effectiveCapacity g b ≤ wbBufEntries := by
    unfold effectiveCapacity; split <;> simp [wbBufEntries]
  have e : uadd PtrSize b.start (effectiveCapacity g b * (wbBufEntryPointers * PtrSize)) =
      b.start + effectiveCapacity g b * (wbBufEntryPointers * PtrSize) := by
    apply Nat.mod_eq_of_lt
    have : effectiveCapacity g b * (wbBufEntryPointers * PtrSize) ≤
        wbBufEntryPointers * wbBufEntries * PtrSize := by
      calc effectiveCapacity g b * (wbBufEntryPointers * PtrSize)
          ≤ wbBufEntries * (wbBufEntryPointers * PtrSize) := Nat.mul_le_mul_right _ hc
        _ = wbBufEntryPointers * wbBufEntries * PtrSize := by ring
    omega
  rw [reset_eq PtrSize hps g b (by omega), e]

theorem putFastAll_after_reset (PtrSize : Nat) (hps : PtrSize = 4 ∨ PtrSize = 8) (g : Globals)
    (b : wbBuf) (hwt : b.wellTyped PtrSize) (hal : b.allocated PtrSize) (ws : List (Nat × Nat))
    (hk : ws.length ≤ effectiveCapacity g b) :
    ∃ b0, b.reset PtrSize g = Except.ok b0 ∧
      b0.end_ = b.start + effectiveCapacity g b * (wbBufEntryPointers * PtrSize) ∧
      (putFastAll PtrSize b0 ws).1.start = b.start ∧
      (putFastAll PtrSize b0 ws).1.next =
        b.start + ws.length * (wbBufEntryPointers * PtrSize) ∧
      (putFastAll PtrSize b0 ws).1.end_ = b0.end_ ∧
      (putFastAll PtrSize b0 ws).1.wild = b.wild ∧
      (putFastAll PtrSize b0 ws).1.debugGen = b.debugGen ∧
      (putFastAll PtrSize b0 ws).1.buf.length = wbBufEntryPointers * wbBufEntries ∧
      (putFastAll PtrSize b0 ws).2 =
        (List.range ws.length).map (fun k => decide (k + 1 ≠ effectiveCapacity g b)) := by
  have hc : effectiveCapacity g b ≤ wbBufEntries := by
    unfold effectiveCapacity; split <;> simp [wbBufEntries]
  refine ⟨_, reset_end PtrSize hps g b hal, rfl, ?_⟩
  obtain ⟨i1, i2, i3, i4, i5, i6, i7⟩ := putFastAll_spec PtrSize hps ws
    { b with
      next := b.start
      end_ := b.start + effectiveCapacity g b * (wbBufEntryPointers * PtrSize) }
    0 (effectiveCapacity g b) hal hwt.2.2.2 (by simp) rfl (by omega) hc
  refine ⟨i1, ?_, i3, i4, i5, by rw [i6]; exact hwt.2.2.2, ?_⟩
  · rw [i2]; simp
  · rw [i7]; simp

/-! ## Lemmas on `wbBufFlush` -/

theorem wbBufFlush1_checkmark (PtrSize : Nat) (hps : PtrSize = 4 ∨ PtrSize = 8) (g : Globals)
    (h : Heap) (s : State) (hck : g.useCheckmark = true)
    (hstart : s.wbBuf.start < uintptrMod PtrSize)
    (hn : s.wbBuf.count PtrSize ≤ wbBufEntryPointers * wbBufEntries) :
    wbBufFlush1 PtrSize g h s =
      Except.ok { s with
        wbBuf := { s.wbBuf with
          next := s.wbBuf.start
          end_ := uadd PtrSize s.wbBuf.start
            (effectiveCapacity g s.wbBuf * (wbBufEntryPointers * PtrSize)) }
        trace := s.trace ++ (s.wbBuf.ptrs PtrSize).map Event.shade } := by
  have hcnt : ¬ wbBufEntryPointers * wbBufEntries < usub PtrSize s.wbBuf.next s.wbBuf.start / PtrSize :=
    by simpa [wbBuf.count] using hn
  unfold wbBufFlush1
  simp only [hcnt, if_false, hck, if_true]
  rw [reset_eq PtrSize hps g]
  · rfl
  · exact hstart

theorem wbBufFlush_dying_eq (PtrSize : Nat) (g : Globals) (h : Heap) (dst src : Nat) (s : State)
    (hd : s.dying > 0) :
    wbBufFlush PtrSize g h dst src s =
      Except.ok { s with wbBuf := { s.wbBuf with next := s.wbBuf.start } } := by
  simp [wbBufFlush, hd, wbBuf.discard]

theorem wbBufFlush_live (PtrSize : Nat) (g : Globals) (h : Heap) (dst src : Nat) (s : State)
    (hd : s.dying ≤ 0) (hcgo : (g.cgo && dst != 0 && !g.needed) = false) :
    wbBufFlush PtrSize g h dst src s =
      wbBufFlush1 PtrSize g h
        { s with trace := s.trace ++
            (if g.cgo && dst != 0 then [Event.cgoCheckWriteBarrier dst src] else []) } := by
  have hd2 : ¬ s.dying > 0 := by omega
  unfold wbBufFlush
  simp only [hd2, if_false, hcgo, Bool.false_eq_true, wbBufFlush1Debug, ite_self]
  split <;> simp

theorem putFast_at_start (PtrSize : Nat) (hps : PtrSize = 4 ∨ PtrSize = 8) (b : wbBuf)
    (old new : Nat) (hal : b.allocated PtrSize)
    (hlen : b.buf.length = wbBufEntryPointers * wbBufEntries) (hnext : b.next = b.start) :
    (b.putFast PtrSize old new).1.buf = (b.buf.set 0 old).set 1 new ∧
      (b.putFast PtrSize old new).1.wild = b.wild := by
  obtain ⟨h0, h1⟩ := hal
  have e1 : uadd PtrSize b.start PtrSize = b.start + PtrSize := by
    apply Nat.mod_eq_of_lt
    rcases hps with rfl | rfl <;>
    · simp only [wbBufEntryPointers, wbBufEntries] at h1
      omega
  have hp : 0 < PtrSize := by omega
  have h512 : 1 < b.buf.length := by rw [hlen]; simp [wbBufEntryPointers, wbBufEntries]
  simp only [wbBuf.putFast, wbBuf.store, hnext, e1, le_refl, Nat.sub_self, Nat.zero_mod,
    Nat.zero_div, true_and, Nat.le_add_right, Nat.add_sub_cancel_left, Nat.mod_self,
    List.length_set, Nat.div_self hp, h512, show 0 < b.buf.length by omega, if_true]

theorem putFast_ptrs (PtrSize : Nat) (hps : PtrSize = 4 ∨ PtrSize = 8) (b : wbBuf)
    (old new j : Nat) (hal : b.allocated PtrSize)
    (hlen : b.buf.length = wbBufEntryPointers * wbBufEntries)
    (hnext : b.next = b.start + j * (wbBufEntryPointers * PtrSize)) (hj : j < wbBufEntries) :
    (b.putFast PtrSize old new).1.count PtrSize = wbBufEntryPointers * (j + 1) ∧
      old ∈ (b.putFast PtrSize old new).1.ptrs PtrSize ∧
      new ∈ (b.putFast PtrSize old new).1.ptrs PtrSize := by
  have hstep := putFast_step PtrSize hps b old new j hal hlen hnext hj
  have hc : (b.putFast PtrSize old new).1.count PtrSize = wbBufEntryPointers * (j + 1) :=
    count_of_entries PtrSize hps _ (j + 1) (by rw [hstep]; exact hal) (by omega) (by rw [hstep])
  refine ⟨hc, ?_, ?_⟩
  · apply List.getElem?_mem (n := wbBufEntryPointers * j)
    unfold wbBuf.ptrs
    rw [hc, hstep]
    simp only [wbBufEntryPointers, wbBufEntries] at hlen hj ⊢
    rw [List.getElem?_take_of_lt (by omega), List.getElem?_set_ne (by omega),
      List.getElem?_set_self (by omega)]
  · apply List.getElem?_mem (n := wbBufEntryPointers * j + 1)
    unfold wbBuf.ptrs
    rw [hc, hstep]
    simp only [wbBufEntryPointers, wbBufEntries] at hlen hj ⊢
    rw [List.getElem?_take_of_lt (by omega), List.getElem?_set_self (by simp; omega)]

/-! ## Lemmas on runs of buffer steps -/

theorem putFastAll_buf (PtrSize : Nat) (hps : PtrSize = 4 ∨ PtrSize = 8)
    (ws : List (Nat × Nat)) :
    ∀ (b : wbBuf) (j : Nat), b.allocated PtrSize →
      b.buf.length = wbBufEntryPointers * wbBufEntries →
      b.next = b.start + j * (wbBufEntryPointers * PtrSize) →
      j + ws.length ≤ wbBufEntries →
      (putFastAll PtrSize b ws).1.buf.take (wbBufEntryPointers * (j + ws.length)) =
        b.buf.take (wbBufEntryPointers * j) ++ ws.flatMap (fun w => [w.1, w.2]) := by
  induction ws with
  | nil => intro b j _ _ _ _; simp [putFastAll]
  | cons w ws ih =>
    intro b j hal hlen hnext hj
    simp only [List.length_cons] at hj
    have hstep := putFast_step PtrSize hps b w.1 w.2 j hal hlen hnext (by omega)
    have h1 := ih (b.putFast PtrSize w.1 w.2).1 (j + 1) (by rw [hstep]; exact hal)
      (by rw [hstep]; simpa using hlen) (by rw [hstep]) (by omega)
    simp only [putFastAll, List.length_cons, List.flatMap_cons]
    rw [show j + (ws.length + 1) = j + 1 + ws.length by omega, h1, hstep]
    simp only [wbBufEntryPointers, wbBufEntries] at hlen hj ⊢
    rw [show 2 * (j + 1) = 2 * j + 1 + 1 by omega,
      take_succ_set _ _ _ (by simp; omega), take_succ_set _ _ _ (by omega)]
    simp

theorem uadd_cap (PtrSize : Nat) (g : Globals) (b : wbBuf) (hal : b.allocated PtrSize) :
    uadd PtrSize b.start (effectiveCapacity g b * (wbBufEntryPointers * PtrSize)) =
      b.start + effectiveCapacity g b * (wbBufEntryPointers * PtrSize) := by
  obtain ⟨h0, h1⟩ := hal
  have hc : effectiveCapacity g b ≤ wbBufEntries := by
    unfold effectiveCapacity; split <;> simp [wbBufEntries]
  apply Nat.mod_eq_of_lt
  have : effectiveCapacity g b * (wbBufEntryPointers * PtrSize) ≤
      wbBufEntryPointers * wbBufEntries * PtrSize := by
    calc effectiveCapacity g b * (wbBufEntryPointers * PtrSize)
        ≤ wbBufEntries * (wbBufEntryPointers * PtrSize) := Nat.mul_le_mul_right _ hc
      _ = wbBufEntryPointers * wbBufEntries * PtrSize := by ring
  omega

theorem wbBufFlush_post (PtrSize : Nat) (hps : PtrSize = 4 ∨ PtrSize = 8) (g : Globals)
    (h : Heap) (dst src : Nat) (s : State) (hal : s.wbBuf.allocated PtrSize)
    (hlen : s.wbBuf.buf.length = wbBufEntryPointers * wbBufEntries)
    (hn : s.wbBuf.count PtrSize ≤ wbBufEntryPointers * wbBufEntries)
    (hb : s.bytesMarked < uint64Mod) :
    ∃ s', wbBufFlush PtrSize g h dst src s = Except.ok s' ∧
      s'.wbBuf.start = s.wbBuf.start ∧ s'.wbBuf.next = s.wbBuf.start ∧
      (s'.wbBuf.end_ = s.wbBuf.end_ ∨
        s'.wbBuf.end_ =
          s.wbBuf.start + effectiveCapacity g s.wbBuf * (wbBufEntryPointers * PtrSize)) ∧
      s'.wbBuf.buf.length = wbBufEntryPointers * wbBufEntries ∧
      s'.bytesMarked < uint64Mod := by
  have hstart : s.wbBuf.start < uintptrMod PtrSize := by
    have := hal.2; omega
  have hcap := uadd_cap PtrSize g s.wbBuf hal
  by_cases hd : s.dying > 0
  · exact ⟨_, wbBufFlush_dying_eq PtrSize g h dst src s hd, rfl, rfl, Or.inl rfl, hlen, hb⟩
  · cases hcgo : (g.cgo && dst != 0 && !g.needed) with
    | true =>
      refine ⟨{ s with
          trace := s.trace ++ [Event.cgoCheckWriteBarrier dst src]
          wbBuf := { s.wbBuf with next := s.wbBuf.start } }, ?_, rfl, rfl, Or.inl rfl, hlen, hb⟩
      have hc1 : (g.cgo && dst != 0) = true := by
        revert hcgo; cases (g.cgo && dst != 0) <;> simp
      have hc2 : (true && !g.needed) = true := by rw [hc1] at hcgo; exact hcgo
      unfold wbBufFlush
      simp only [hd, if_false, hc1, if_true, hc2, wbBuf.discard]
    | false =>
      rw [wbBufFlush_live PtrSize g h dst src s (by omega) hcgo]
      cases hck : g.useCheckmark with
      | true =>
        exact ⟨_, wbBufFlush1_checkmark PtrSize hps g h _ hck hstart hn, rfl, rfl,
          Or.inr hcap, hlen, hb⟩
      | false =>
        obtain ⟨buf, e1, e2, -⟩ := wbBufFlush1_normal PtrSize hps g h
          { s with trace := s.trace ++
            (if g.cgo && dst != 0 then [Event.cgoCheckWriteBarrier dst src] else []) }
          hck hstart hn hlen hb
        exact ⟨_, e1, rfl, rfl, Or.inr hcap, e2, Nat.mod_lt _ (by simp [uint64Mod])⟩

theorem effectiveCapacity_bounds (g : Globals) (b : wbBuf) :
    1 ≤ effectiveCapacity g b ∧ effectiveCapacity g b ≤ wbBufEntries := by
  unfold effectiveCapacity; split <;> simp [wbBufEntries]

theorem BufOp.apply_inv (PtrSize : Nat) (hps : PtrSize = 4 ∨ PtrSize = 8) (h : Heap)
    (s : State) (n : Nat) (op : BufOp) (hinv : BufInv PtrSize s n)
    (hprot : ∀ old new, op = BufOp.putFast old new → s.wbBuf.next ≠ s.wbBuf.end_) :
    ∃ s', op.apply PtrSize h s = Except.ok s' ∧ BufInv PtrSize s' (op.pending n) := by
  obtain ⟨hal, hlen, hb, c, hc1, hc2, hend, hnext, hnc⟩ := hinv
  have hp : 0 < wbBufEntryPointers * PtrSize := by
    rcases hps with rfl | rfl <;> simp [wbBufEntryPointers]
  cases op with
  | reset g =>
    refine ⟨{ s with wbBuf := { s.wbBuf with
        next := s.wbBuf.start
        end_ := s.wbBuf.start + effectiveCapacity g s.wbBuf * (wbBufEntryPointers * PtrSize) } },
      ?_, ?_⟩
    · simp only [BufOp.apply, reset_end PtrSize hps g s.wbBuf hal]
    · unfold BufInv
      exact ⟨hal, hlen, hb, effectiveCapacity g s.wbBuf, (effectiveCapacity_bounds g _).1,
        (effectiveCapacity_bounds g _).2, rfl, by simp [BufOp.pending], Nat.zero_le _⟩
  | putFast old new =>
    have hne := hprot old new rfl
    have hlt : n < c := by
      rcases Nat.lt_or_ge n c with hlt | hge
      · exact hlt
      · exfalso
        apply hne
        rw [hend, hnext, show n = c by omega]
    have hstep := putFast_step PtrSize hps s.wbBuf old new n hal hlen hnext (by omega)
    refine ⟨_, rfl, ?_⟩
    unfold BufInv
    simp only [BufOp.pending]
    rw [hstep]
    exact ⟨hal, by simpa using hlen, hb, c, hc1, hc2, hend, rfl, hlt⟩
  | discard =>
    refine ⟨_, rfl, ?_⟩
    unfold BufInv
    exact ⟨hal, hlen, hb, c, hc1, hc2, hend, by simp [BufOp.pending, wbBuf.discard],
      Nat.zero_le _⟩
  | flush g dst src =>
    have hcount : s.wbBuf.count PtrSize ≤ wbBufEntryPointers * wbBufEntries := by
      rw [count_of_entries PtrSize hps s.wbBuf n hal (by omega) hnext]
      exact Nat.mul_le_mul_left _ (by omega)
    obtain ⟨s', e1, e2, e3, e4, e5, e6⟩ :=
      wbBufFlush_post PtrSize hps g h dst src s hal hlen hcount hb
    refine ⟨s', e1, ?_⟩
    unfold BufInv
    refine ⟨?_, e5, e6, ?_⟩
    · unfold wbBuf.allocated; rw [e2]; exact hal
    · rcases e4 with e4 | e4
      · exact ⟨c, hc1, hc2, by rw [e4, e2, hend], by simp [BufOp.pending, e3, e2],
          Nat.zero_le _⟩
      · exact ⟨effectiveCapacity g s.wbBuf, (effectiveCapacity_bounds g _).1,
          (effectiveCapacity_bounds g _).2, by rw [e4, e2], by simp [BufOp.pending, e3, e2],
          Nat.zero_le _⟩

theorem runOps_inv (PtrSize : Nat) (hps : PtrSize = 4 ∨ PtrSize = 8) (h : Heap)
    (ops : List BufOp) :
    ∀ (s : State) (n : Nat), BufInv PtrSize s n → obeysProtocol PtrSize h s ops = true →
      ∃ s' n', runOps PtrSize h s n ops = Except.ok (s', n') ∧ BufInv PtrSize s' n' := by
  induction ops with
  | nil => intro s n hinv _; exact ⟨s, n, rfl, hinv⟩
  | cons op ops ih =>
    intro s n hinv hob
    simp only [obeysProtocol, Bool.and_eq_true] at hob
    obtain ⟨s1, e1, hinv1⟩ := BufOp.apply_inv PtrSize hps h s n op hinv (by
      intro old new hop
      have := hob.1
      rw [hop] at this
      simpa using this)
    have hob2 := hob.2
    rw [e1] at hob2
    obtain ⟨s', n', e2, hinv2⟩ := ih s1 (op.pending n) hinv1 hob2
    exact ⟨s', n', by simp only [runOps, e1]; exact e2, hinv2⟩

theorem BufInv.empty_iff (PtrSize : Nat) (hps : PtrSize = 4 ∨ PtrSize = 8) (s : State) (n : Nat)
    (hinv : BufInv PtrSize s n) : s.wbBuf.empty = true ↔ n = 0 := by
  obtain ⟨-, -, -, c, -, -, -, hnext, -⟩ := hinv
  have hp : 0 < wbBufEntryPointers * PtrSize := by
    rcases hps with rfl | rfl <;> simp [wbBufEntryPointers]
  simp only [wbBuf.empty, beq_iff_eq, hnext]
  constructor
  · intro he
    have : n * (wbBufEntryPointers * PtrSize) = 0 := by omega
    rcases Nat.mul_eq_zero.mp this with h0 | h0
    · exact h0
    · omega
  · intro he; simp [he]

theorem discard_ptrs (PtrSize : Nat) (b : wbBuf) : b.discard.ptrs PtrSize = [] := by
  have e : usub PtrSize b.start b.start = 0 := by
    unfold usub
    rw [Nat.add_sub_cancel_left]
    exact Nat.mod_self _
  simp [wbBuf.ptrs, wbBuf.count, wbBuf.discard, e]

/-! ## Lemmas on the bulk operations -/

theorem ldiff_mask (x k : Nat) : Nat.ldiff x (2 ^ k - 1) = x - x % 2 ^ k := by
  have e : x - x % 2 ^ k = 2 ^ k * (x / 2 ^ k) := by
    have := Nat.div_add_mod x (2 ^ k)
    omega
  rw [e]
  apply Nat.eq_of_testBit_eq
  intro i
  rw [Nat.testBit_ldiff, Nat.testBit_two_pow_sub_one, Nat.testBit_mul_pow_two,
    ← Nat.shiftRight_eq_div_pow, Nat.testBit_shiftRight]
  by_cases hik : k ≤ i
  · have : ¬ i < k := by omega
    simp [hik, this, Nat.add_sub_cancel' hik]
  · have : i < k := by omega
    simp [hik, this]

theorem frag_eq (PtrSize : Nat) (hps : PtrSize = 4 ∨ PtrSize = 8) (off : Nat)
    (hoff : off < uintptrMod PtrSize) :
    usub PtrSize 0 off &&& (PtrSize - 1) = (PtrSize - off % PtrSize) % PtrSize := by
  rcases hps with rfl | rfl
  · have e := Nat.and_pow_two_sub_one_eq_mod (usub 4 0 off) 2
    norm_num at e
    rw [show (4 : Nat) - 1 = 3 by norm_num, e]
    simp only [usub, uintptrMod] at hoff ⊢
    norm_num at hoff ⊢
    omega
  · have e := Nat.and_pow_two_sub_one_eq_mod (usub 8 0 off) 3
    norm_num at e
    rw [show (8 : Nat) - 1 = 7 by norm_num, e]
    simp only [usub, uintptrMod] at hoff ⊢
    norm_num at hoff ⊢
    omega

theorem ldiff_ptr (PtrSize : Nat) (hps : PtrSize = 4 ∨ PtrSize = 8) (x : Nat) :
    Nat.ldiff x (PtrSize - 1) = x - x % PtrSize := by
  rcases hps with rfl | rfl
  · simpa using ldiff_mask x 2
  · simpa using ldiff_mask x 3

theorem partial_barrier (PtrSize : Nat) (hps : PtrSize = 4 ∨ PtrSize = 8) (g : Globals)
    (typ : _type) (dst src off size : Nat) (hneeded : g.needed = true)
    (hptr : typ.hasPointers = true) (hsize : PtrSize ≤ size)
    (hdst : dst < uintptrMod PtrSize) (hsrc : src < uintptrMod PtrSize)
    (hoff : off < uintptrMod PtrSize) (hsz : size < uintptrMod PtrSize) :
    reflect_typedmemmovepartial PtrSize g typ dst src off size =
      [Call.bulkBarrierPreWrite (uadd PtrSize dst ((PtrSize - off % PtrSize) % PtrSize))
          (uadd PtrSize src ((PtrSize - off % PtrSize) % PtrSize))
          ((size - (PtrSize - off % PtrSize) % PtrSize) -
            (size - (PtrSize - off % PtrSize) % PtrSize) % PtrSize),
        Call.memmove dst src size] ++
      (if g.cgo then [Call.cgoCheckMemmove typ dst src off size] else []) := by
  have hfrag := frag_eq PtrSize hps off hoff
  have hlt : (PtrSize - off % PtrSize) % PtrSize < PtrSize :=
    Nat.mod_lt _ (by rcases hps with rfl | rfl <;> norm_num)
  unfold reflect_typedmemmovepartial
  simp only [hneeded, hptr, hsize, ge_iff_le, decide_True, Bool.and_self, if_true, hfrag,
    ldiff_ptr PtrSize hps]
  by_cases hz : (PtrSize - off % PtrSize) % PtrSize = 0
  · simp only [hz, ne_eq, not_true_eq_false, if_false, Nat.sub_zero]
    have e1 : uadd PtrSize dst 0 = dst := by simpa [uadd] using Nat.mod_eq_of_lt hdst
    have e2 : uadd PtrSize src 0 = src := by simpa [uadd] using Nat.mod_eq_of_lt hsrc
    rw [e1, e2]
    rfl
  · have e3 : usub PtrSize size ((PtrSize - off % PtrSize) % PtrSize) =
        size - (PtrSize - off % PtrSize) % PtrSize := by
      unfold usub
      rw [show size + uintptrMod PtrSize - (PtrSize - off % PtrSize) % PtrSize =
        (size - (PtrSize - off % PtrSize) % PtrSize) + uintptrMod PtrSize by omega,
        Nat.add_mod_right]
      exact Nat.mod_eq_of_lt (by omega)
    simp only [hz, ne_eq, not_false_eq_true, if_true, e3]
    rfl

theorem reflect_typedslicecopy_nopointers (PtrSize : Nat) (bld : Build) (g : Globals)
    (typ : _type) (dst src : slice) (hp : typ.hasPointers = false) :
    ∃ n : Int, n = (if dst.len > src.len then src.len else dst.len) ∧
      reflect_typedslicecopy PtrSize bld g typ dst src =
        if n = 0 then (0, [])
        else (n,
          (if bld.raceenabled then
            [Call.racewriterangepc dst.array (umul PtrSize (uintptrOfInt PtrSize n) typ.size),
              Call.racereadrangepc src.array (umul PtrSize (uintptrOfInt PtrSize n) typ.size)]
          else []) ++
          (if bld.msanenabled then
            [Call.msanwrite dst.array (umul PtrSize (uintptrOfInt PtrSize n) typ.size),
              Call.msanread src.array (umul PtrSize (uintptrOfInt PtrSize n) typ.size)]
          else []) ++
          [Call.memmove dst.array src.array
            (umul PtrSize (uintptrOfInt PtrSize n) typ.size)]) := by
  refine ⟨_, rfl, ?_⟩
  unfold reflect_typedslicecopy
  simp only [hp, Bool.not_false, if_true]

theorem typedslicecopy_eq (PtrSize : Nat) (bld : Build) (g : Globals) (typ : _type)
    (dst src : slice) :
    ∃ n : Int, n = min dst.len src.len ∧
      typedslicecopy PtrSize bld g typ dst src =
        if n = 0 then (0, [])
        else if dst.array = src.array then
          (n,
            (if bld.raceenabled then
              [Call.racewriterangepc dst.array (umul PtrSize (uintptrOfInt PtrSize n) typ.size),
                Call.racereadrangepc src.array (umul PtrSize (uintptrOfInt PtrSize n) typ.size)]
            else []) ++
            (if bld.msanenabled then
              [Call.msanwrite dst.array (umul PtrSize (uintptrOfInt PtrSize n) typ.size),
                Call.msanread src.array (umul PtrSize (uintptrOfInt PtrSize n) typ.size)]
            else []) ++
            (if g.cgo then [Call.cgoCheckSliceCopy typ dst src n] else []))
        else
          (n,
            (if bld.raceenabled then
              [Call.racewriterangepc dst.array (umul PtrSize (uintptrOfInt PtrSize n) typ.size),
                Call.racereadrangepc src.array (umul PtrSize (uintptrOfInt PtrSize n) typ.size)]
            else []) ++
            (if bld.msanenabled then
              [Call.msanwrite dst.array (umul PtrSize (uintptrOfInt PtrSize n) typ.size),
                Call.msanread src.array (umul PtrSize (uintptrOfInt PtrSize n) typ.size)]
            else []) ++
            (if g.cgo then [Call.cgoCheckSliceCopy typ dst src n] else []) ++
            (if g.needed then
              [Call.bulkBarrierPreWrite dst.array src.array
                (umul PtrSize (uintptrOfInt PtrSize n) typ.size)]
            else []) ++
            [Call.memmove dst.array src.array
              (umul PtrSize (uintptrOfInt PtrSize n) typ.size)]) := by
  have hmin : (if dst.len > src.len then src.len else dst.len) = min dst.len src.len := by
    split
    · rename_i hgt; exact (min_eq_right (le_of_lt hgt)).symm
    · rename_i hgt; exact (min_eq_left (not_lt.mp hgt)).symm
  refine ⟨_, rfl, ?_⟩
  unfold typedslicecopy
  simp only [hmin]

theorem loopLog_spec (h : Heap) (n : Nat) :
    ∀ (rem i pos : Nat) (s : State), pos ≤ i → i + rem ≤ n → n ≤ s.wbBuf.buf.length →
      (wbBufFlush1.loopLog h n rem i pos s).map (fun e => e.1) = List.range' i rem ∧
      ∀ e ∈ wbBufFlush1.loopLog h n rem i pos s,
        e.2.1 ≤ e.1 ∧ e.2.2 = s.wbBuf.buf.getD e.1 0 := by
  intro rem
  induction rem with
  | zero => intro i pos s _ _ _; simp [wbBufFlush1.loopLog]
  | succ rem ih =>
    intro i pos s hpi hin hlen
    have key : ∀ (pos' : Nat) (s' : State), pos' ≤ i + 1 →
        s'.wbBuf.buf.length = s.wbBuf.buf.length →
        (∀ j, i + 1 ≤ j → s'.wbBuf.buf.getD j 0 = s.wbBuf.buf.getD j 0) →
        ((i, pos, s.wbBuf.buf.getD i 0) :: wbBufFlush1.loopLog h n rem (i + 1) pos' s').map
            (fun e => e.1) = List.range' i (rem + 1) ∧
        ∀ e ∈ (i, pos, s.wbBuf.buf.getD i 0) :: wbBufFlush1.loopLog h n rem (i + 1) pos' s',
          e.2.1 ≤ e.1 ∧ e.2.2 = s.wbBuf.buf.getD e.1 0 := by
      intro pos' s' hp' hl' hsame
      obtain ⟨h1, h2⟩ := ih (i + 1) pos' s' hp' (by omega) (by omega)
      refine ⟨by simp [h1, List.range'_succ], ?_⟩
      intro e he
      rcases List.mem_cons.mp he with rfl | he
      · exact ⟨hpi, rfl⟩
      · obtain ⟨h3, h4⟩ := h2 e he
        have hi1 : i + 1 ≤ e.1 := by
          have : e.1 ∈ (wbBufFlush1.loopLog h n rem (i + 1) pos' s').map (fun e => e.1) :=
            List.mem_map_of_mem _ he
          rw [h1, List.mem_range'] at this
          obtain ⟨k, _, hk⟩ := this
          omega
        exact ⟨h3, by rw [h4, hsame e.1 hi1]⟩
    unfold wbBufFlush1.loopLog
    simp only []
    by_cases c1 : s.wbBuf.buf.getD i 0 < h.minLegalPointer
    · simp only [c1, if_true]
      exact key pos s (by omega) rfl (fun _ _ => rfl)
    · by_cases c2 : (h.findObject (s.wbBuf.buf.getD i 0)).1 = 0
      · simp only [c1, c2, if_true, if_false]
        exact key pos s (by omega) rfl (fun _ _ => rfl)
      · cases c3 : s.marked (h.findObject (s.wbBuf.buf.getD i 0)).2.1
            (h.findObject (s.wbBuf.buf.getD i 0)).2.2 with
        | true =>
          simp only [c1, c2, if_true, if_false]
          exact key pos s (by omega) rfl (fun _ _ => rfl)
        | false =>
          cases c4 : (h.findObject (s.wbBuf.buf.getD i 0)).2.1.noscan with
          | true =>
            simp only [c1, c2, if_true, if_false, Bool.false_eq_true]
            exact key pos _ (by omega) rfl (fun _ _ => rfl)
          | false =>
            have hpn : ¬ n ≤ pos := by omega
            simp only [c1, c2, hpn, if_false, Bool.false_eq_true]
            refine key (pos + 1) _ (by omega) (by simp) ?_
            intro j hj
            simp only [List.getD_eq_getElem?_getD]
            rw [List.getElem?_set_ne (by omega)]

/-! ## Lemmas on concurrent flushes -/

theorem run_replicate_false (h : Heap) (k : Nat) :
    ∀ t : TwoWorkers, TwoWorkers.run h t (List.replicate k false) =
      { w0 := ((fun p : FlushWorker × SharedHeap => p.1.step h p.2)^[k] (t.w0, t.shared)).1,
        w1 := t.w1,
        shared := ((fun p : FlushWorker × SharedHeap => p.1.step h p.2)^[k] (t.w0, t.shared)).2 } := by
  induction k with
  | zero => intro t; rfl
  | succ k ih =>
    intro t
    rw [List.replicate_succ, TwoWorkers.run, ih, Function.iterate_succ_apply]
    simp [TwoWorkers.step]

theorem run_replicate_true (h : Heap) (k : Nat) :
    ∀ t : TwoWorkers, TwoWorkers.run h t (List.replicate k true) =
      { w0 := t.w0,
        w1 := ((fun p : FlushWorker × SharedHeap => p.1.step h p.2)^[k] (t.w1, t.shared)).1,
        shared := ((fun p : FlushWorker × SharedHeap => p.1.step h p.2)^[k] (t.w1, t.shared)).2 } := by
  induction k with
  | zero => intro t; rfl
  | succ k ih =>
    intro t
    rw [List.replicate_succ, TwoWorkers.run, ih, Function.iterate_succ_apply]
    simp [TwoWorkers.step]

theorem run_append (h : Heap) (s1 s2 : List Bool) :
    ∀ t : TwoWorkers, TwoWorkers.run h t (s1 ++ s2) =
      TwoWorkers.run h (TwoWorkers.run h t s1) s2 := by
  induction s1 with
  | nil => intro t; rfl
  | cons a s1 ih =>
    intro t
    show TwoWorkers.run h (t.step h a) (s1 ++ s2) = _
    rw [ih]
    rfl

theorem iter_done (h : Heap) (k : Nat) :
    ∀ (w : FlushWorker) (sh : SharedHeap), w.pc = FlushPc.done →
      (fun p : FlushWorker × SharedHeap => p.1.step h p.2)^[k] (w, sh) = (w, sh) := by
  induction k with
  | zero => intro w sh _; rfl
  | succ k ih =>
    intro w sh hd
    rw [Function.iterate_succ_apply]
    have e : w.step h sh = (w, sh) := by simp [FlushWorker.step, hd]
    simp only [e]
    exact ih w sh hd

theorem worker_alone (h : Heap) (l : List Nat) :
    ∀ (k : Nat) (b : List Nat) (by0 : Nat) (sh : SharedHeap), 2 * l.length + 1 ≤ k →
      ∃ by1,
        (fun p : FlushWorker × SharedHeap => p.1.step h p.2)^[k]
            ({ ptrs := l, pc := FlushPc.top, batch := b, bytesMarked := by0 }, sh) =
          ({ ptrs := [], pc := FlushPc.done, batch := b ++ retained h sh.marked l,
             bytesMarked := by1 },
            { marked := marksAfter h sh.marked l,
              queue := sh.queue ++ [b ++ retained h sh.marked l] }) := by
  induction l with
  | nil =>
    intro k b by0 sh hk
    obtain ⟨k, rfl⟩ : ∃ k', k = k' + 1 := ⟨k - 1, by omega⟩
    refine ⟨by0, ?_⟩
    rw [Function.iterate_succ_apply]
    simp only [FlushWorker.step, retained, marksAfter, List.append_nil]
    exact iter_done h k _ _ rfl
  | cons p l ih =>
    intro k b by0 sh hk
    simp only [List.length_cons] at hk
    obtain ⟨k, rfl⟩ : ∃ k', k = k' + 1 := ⟨k - 1, by omega⟩
    rw [Function.iterate_succ_apply]
    cases hg : h.greys sh.marked p with
    | false =>
      rw [retained_cons_skip h _ _ _ hg, marksAfter_cons_skip h _ _ _ hg]
      have hg2 := (greys_iff h sh.marked p).not.mp (by rw [hg]; simp)
      have e : (FlushWorker.step h
          { ptrs := p :: l, pc := FlushPc.top, batch := b, bytesMarked := by0 } sh) =
          ({ ptrs := l, pc := FlushPc.top, batch := b, bytesMarked := by0 }, sh) := by
        by_cases c1 : p < h.minLegalPointer
        · simp [FlushWorker.step, c1]
        · by_cases c2 : (h.findObject p).1 = 0
          · simp [FlushWorker.step, c1, c2]
          · have c3 : sh.marked (h.findObject p).2.1 (h.findObject p).2.2 = true := by
              by_contra hc
              exact hg2 ⟨c1, c2, by simpa using hc⟩
            simp [FlushWorker.step, c1, c2, c3]
      simp only [e]
      exact ih k b by0 sh (by omega)
    | true =>
      obtain ⟨c1, c2, c3⟩ := (greys_iff h sh.marked p).mp hg
      rw [retained_cons_grey h _ _ _ hg, marksAfter_cons_grey h _ _ _ hg]
      have e : (FlushWorker.step h
          { ptrs := p :: l, pc := FlushPc.top, batch := b, bytesMarked := by0 } sh) =
          ({ ptrs := l, pc := FlushPc.tested (h.findObject p).1 (h.findObject p).2.1
              (h.findObject p).2.2, batch := b, bytesMarked := by0 }, sh) := by
        simp [FlushWorker.step, c1, c2, c3]
      simp only [e]
      obtain ⟨k, rfl⟩ : ∃ k', k = k' + 1 := ⟨k - 1, by omega⟩
      rw [Function.iterate_succ_apply]
      cases hn : (h.findObject p).2.1.noscan with
      | true =>
        have e2 : (FlushWorker.step h
            { ptrs := l, pc := FlushPc.tested (h.findObject p).1 (h.findObject p).2.1
                (h.findObject p).2.2, batch := b, bytesMarked := by0 } sh) =
            ({ ptrs := l, pc := FlushPc.top, batch := b,
               bytesMarked := (by0 + (h.findObject p).2.1.elemsize) % uint64Mod },
              { sh with
                marked := (setMarked sh.marked (h.findObject p).2.1 (h.findObject p).2.2) }) := by
          simp [FlushWorker.step, hn]
        simp only [e2]
        obtain ⟨by1, e3⟩ := ih k b ((by0 + (h.findObject p).2.1.elemsize) % uint64Mod)
          { sh with marked := setMarked sh.marked (h.findObject p).2.1 (h.findObject p).2.2 }
          (by omega)
        exact ⟨by1, by simpa using e3⟩
      | false =>
        have e2 : (FlushWorker.step h
            { ptrs := l, pc := FlushPc.tested (h.findObject p).1 (h.findObject p).2.1
                (h.findObject p).2.2, batch := b, bytesMarked := by0 } sh) =
            ({ ptrs := l, pc := FlushPc.top, batch := b ++ [(h.findObject p).1],
               bytesMarked := by0 },
              { sh with
                marked := (setMarked sh.marked (h.findObject p).2.1 (h.findObject p).2.2) }) := by
          simp [FlushWorker.step, hn]
        simp only [e2]
        obtain ⟨by1, e3⟩ := ih k (b ++ [(h.findObject p).1]) by0
          { sh with marked := setMarked sh.marked (h.findObject p).2.1 (h.findObject p).2.2 }
          (by omega)
        exact ⟨by1, by simpa using e3⟩

theorem retained_mem (h : Heap) (hco : h.coherent) (l : List Nat) :
    ∀ (m : mspan → Nat → Bool) (v : Nat), v ∈ l → h.minLegalPointer ≤ v →
      (h.findObject v).1 ≠ 0 → m (h.findObject v).2.1 (h.findObject v).2.2 = false →
      (h.findObject v).2.1.noscan = false → (h.findObject v).1 ∈ retained h m l := by
  induction l with
  | nil => intro m v hv; simp at hv
  | cons p l ih =>
    intro m v hv h1 h2 h3 h4
    cases hg : h.greys m p with
    | false =>
      rw [retained_cons_skip h _ _ _ hg]
      rcases List.mem_cons.mp hv with rfl | hv
      · have : h.greys m v = true := (greys_iff h m v).mpr ⟨by omega, h2, h3⟩
        rw [this] at hg
        exact absurd hg (by simp)
      · exact ih m v hv h1 h2 h3 h4
    | true =>
      obtain ⟨c1, c2, c3⟩ := (greys_iff h m p).mp hg
      rw [retained_cons_grey h _ _ _ hg]
      by_cases hbit : (h.findObject p).2 = (h.findObject v).2
      · have hobj : (h.findObject p).1 = (h.findObject v).1 := (hco p v c2 h2).mpr hbit
        rw [hbit, h4, ← hobj]
        simp
      · have hv2 : v ∈ l := by
          rcases List.mem_cons.mp hv with rfl | hv
          · exact absurd rfl hbit
          · exact hv
        apply List.mem_append_right
        apply ih _ v hv2 h1 h2 _ h4
        unfold setMarked
        split
        · rename_i hx
          exact absurd (Prod.ext hx.1.symm hx.2.symm) hbit
        · exact h3

theorem count_flatten_le (L : List (List Nat)) (o : Nat) (hL : ∀ b ∈ L, b.Nodup) :
    L.flatten.count o ≤ L.length := by
  induction L with
  | nil => simp
  | cons b L ih =>
    rw [List.flatten_cons, List.count_append, List.length_cons]
    have h1 : b.count o ≤ 1 := List.nodup_iff_count_le_one.mp (hL b (List.mem_cons_self _ _)) o
    have h2 := ih (fun b' hb' => hL b' (List.mem_cons_of_mem _ hb'))
    omega

theorem FlushWorker.inv_frame (h : Heap) (w : FlushWorker) (sh sh' : SharedHeap)
    (hinv : w.inv h sh) (hmono : ∀ x i, sh.marked x i = true → sh'.marked x i = true) :
    w.inv h sh' :=
  ⟨hinv.1, fun o ho q hq => hmono _ _ (hinv.2.1 o ho q hq), hinv.2.2⟩

theorem FlushWorker.worker_step_inv (h : Heap) (hco : h.coherent) (w : FlushWorker) (sh : SharedHeap)
    (hinv : w.inv h sh) :
    (w.step h sh).1.inv h (w.step h sh).2 ∧
    (∀ x i, sh.marked x i = true → (w.step h sh).2.marked x i = true) ∧
    (w.pc = FlushPc.done → w.step h sh = (w, sh)) ∧
    (w.pc ≠ FlushPc.done → (w.step h sh).1.pc = FlushPc.done →
      (w.step h sh).2.queue = sh.queue ++ [w.batch]) ∧
    (w.pc ≠ FlushPc.done → (w.step h sh).1.pc ≠ FlushPc.done →
      (w.step h sh).2.queue = sh.queue) := by
  obtain ⟨i1, i2, i3⟩ := hinv
  cases hpc : w.pc with
  | done =>
    have e : w.step h sh = (w, sh) := by simp [FlushWorker.step, hpc]
    rw [e]
    exact ⟨⟨i1, i2, i3⟩, fun _ _ hm => hm, fun _ => rfl, fun hne => absurd rfl hne,
      fun hne => absurd rfl hne⟩
  | tested obj span objIndex =>
    obtain ⟨j1, j2, q0, hq0⟩ := i3 obj span objIndex hpc
    have hmono : ∀ x i, sh.marked x i = true →
        setMarked sh.marked span objIndex x i = true :=
      fun x i hm => setMarked_mono _ _ _ x i hm
    cases hn : span.noscan with
    | true =>
      have e : w.step h sh =
          ({ w with pc := FlushPc.top,
                    bytesMarked := (w.bytesMarked + span.elemsize) % uint64Mod },
            { sh with marked := (setMarked sh.marked span objIndex) }) := by
        simp [FlushWorker.step, hpc, hn]
      rw [e]
      refine ⟨⟨i1, fun o ho q hq => hmono _ _ (i2 o ho q hq), ?_⟩, hmono, ?_, ?_, ?_⟩
      · intro _ _ _ hc; simp at hc
      · intro hc; simp at hc
      · intro _ hc; simp at hc
      · intro _ _; rfl
    | false =>
      have e : w.step h sh =
          ({ w with pc := FlushPc.top, batch := w.batch ++ [obj] },
            { sh with marked := (setMarked sh.marked span objIndex) }) := by
        simp [FlushWorker.step, hpc, hn]
      rw [e]
      refine ⟨⟨?_, ?_, ?_⟩, hmono, ?_, ?_, ?_⟩
      · exact List.Nodup.append i1 (List.nodup_singleton _) (by simpa using j1)
      · intro o ho q hq
        rcases List.mem_append.mp ho with ho | ho
        · exact hmono _ _ (i2 o ho q hq)
        · simp only [List.mem_singleton] at ho
          subst ho
          have hbit : (h.findObject q0).2 = (h.findObject q).2 :=
            (hco q0 q (by rw [hq0]; exact j2) (by rw [hq]; exact j2)).mp (by rw [hq0, hq])
          rw [← hbit, hq0]
          exact setMarked_self _ _ _
      · intro _ _ _ hc; simp at hc
      · intro hc; simp at hc
      · intro _ hc; simp at hc
      · intro _ _; rfl
  | top =>
    cases hp : w.ptrs with
    | nil =>
      have e : w.step h sh =
          ({ w with pc := FlushPc.done }, { sh with queue := sh.queue ++ [w.batch] }) := by
        simp [FlushWorker.step, hpc, hp]
      rw [e]
      refine ⟨⟨i1, i2, ?_⟩, fun _ _ hm => hm, ?_, ?_, ?_⟩
      · intro _ _ _ hc; simp at hc
      · intro hc; simp at hc
      · intro _ _; rfl
      · intro _ hc; simp at hc
    | cons p rest =>
      have hskip : (w.step h sh = ({ w with ptrs := rest }, sh)) →
          (w.step h sh).1.inv h (w.step h sh).2 ∧
          (∀ x i, sh.marked x i = true → (w.step h sh).2.marked x i = true) ∧
          (FlushPc.top = FlushPc.done → w.step h sh = (w, sh)) ∧
          (FlushPc.top ≠ FlushPc.done → (w.step h sh).1.pc = FlushPc.done →
            (w.step h sh).2.queue = sh.queue ++ [w.batch]) ∧
          (FlushPc.top ≠ FlushPc.done → (w.step h sh).1.pc ≠ FlushPc.done →
            (w.step h sh).2.queue = sh.queue) := by
        intro e
        rw [e]
        refine ⟨⟨i1, i2, ?_⟩, fun _ _ hm => hm, ?_, ?_, ?_⟩
        · intro a b c hc
          simp only [hpc] at hc
          exact absurd hc (by simp)
        · intro hc; simp at hc
        · intro _ hc
          simp only [hpc] at hc
          exact absurd hc (by simp)
        · intro _ _; rfl
      by_cases c1 : p < h.minLegalPointer
      · exact hskip (by simp [FlushWorker.step, hpc, hp, c1])
      · by_cases c2 : (h.findObject p).1 = 0
        · exact hskip (by simp [FlushWorker.step, hpc, hp, c1, c2])
        · cases c3 : sh.marked (h.findObject p).2.1 (h.findObject p).2.2 with
          | true => exact hskip (by simp [FlushWorker.step, hpc, hp, c1, c2, c3])
          | false =>
            have e : w.step h sh =
                ({ w with ptrs := rest,
                          pc := FlushPc.tested (h.findObject p).1 (h.findObject p).2.1
                            (h.findObject p).2.2 }, sh) := by
              simp [FlushWorker.step, hpc, hp, c1, c2, c3]
            rw [e]
            refine ⟨⟨i1, i2, ?_⟩, fun _ _ hm => hm, ?_, ?_, ?_⟩
            · intro a b c hc
              simp only [FlushPc.tested.injEq] at hc
              obtain ⟨rfl, rfl, rfl⟩ := hc
              refine ⟨?_, c2, p, rfl⟩
              intro hmem
              have := i2 _ hmem p rfl
              rw [c3] at this
              exact absurd this (by simp)
            · intro hc; simp at hc
            · intro _ hc; simp at hc
            · intro _ _; rfl

theorem TwoWorkers.system_step_inv (h : Heap) (hco : h.coherent) (t : TwoWorkers) (who : Bool)
    (hinv : t.inv h) : (t.step h who).inv h := by
  obtain ⟨a0, a1, a2, a3⟩ := hinv
  cases who with
  | false =>
    obtain ⟨b1, b2, b3, b4, b5⟩ := FlushWorker.worker_step_inv h hco t.w0 t.shared a0
    have e : t.step h false =
        { t with w0 := (t.w0.step h t.shared).1, shared := (t.w0.step h t.shared).2 } := by
      simp [TwoWorkers.step]
    rw [e]
    refine ⟨b1, FlushWorker.inv_frame h t.w1 _ _ a1 b2, ?_, ?_⟩
    · by_cases hd : t.w0.pc = FlushPc.done
      · rw [b3 hd]; exact a2
      · by_cases hd' : (t.w0.step h t.shared).1.pc = FlushPc.done
        · show ∀ b ∈ (t.w0.step h t.shared).2.queue, b.Nodup
          rw [b4 hd hd']
          intro b hb
          rcases List.mem_append.mp hb with hb | hb
          · exact a2 b hb
          · simp only [List.mem_singleton] at hb
            rw [hb]; exact a0.1
        · show ∀ b ∈ (t.w0.step h t.shared).2.queue, b.Nodup
          rw [b5 hd hd']; exact a2
    · show (t.w0.step h t.shared).2.queue.length = _
      by_cases hd : t.w0.pc = FlushPc.done
      · rw [b3 hd]; exact a3
      · by_cases hd' : (t.w0.step h t.shared).1.pc = FlushPc.done
        · rw [b4 hd hd', List.length_append, a3]
          simp [hd, hd']
          omega
        · rw [b5 hd hd', a3]
          simp [hd, hd']
  | true =>
    obtain ⟨b1, b2, b3, b4, b5⟩ := FlushWorker.worker_step_inv h hco t.w1 t.shared a1
    have e : t.step h true =
        { t with w1 := (t.w1.step h t.shared).1, shared := (t.w1.step h t.shared).2 } := by
      simp [TwoWorkers.step]
    rw [e]
    refine ⟨FlushWorker.inv_frame h t.w0 _ _ a0 b2, b1, ?_, ?_⟩
    · by_cases hd : t.w1.pc = FlushPc.done
      · rw [b3 hd]; exact a2
      · by_cases hd' : (t.w1.step h t.shared).1.pc = FlushPc.done
        · show ∀ b ∈ (t.w1.step h t.shared).2.queue, b.Nodup
          rw [b4 hd hd']
          intro b hb
          rcases List.mem_append.mp hb with hb | hb
          · exact a2 b hb
          · simp only [List.mem_singleton] at hb
            rw [hb]; exact a1.1
        · show ∀ b ∈ (t.w1.step h t.shared).2.queue, b.Nodup
          rw [b5 hd hd']; exact a2
    · show (t.w1.step h t.shared).2.queue.length = _
      by_cases hd : t.w1.pc = FlushPc.done
      · rw [b3 hd]; exact a3
      · by_cases hd' : (t.w1.step h t.shared).1.pc = FlushPc.done
        · rw [b4 hd hd', List.length_append, a3]
          simp [hd, hd']
        · rw [b5 hd hd', a3]
          simp [hd, hd']

theorem TwoWorkers.run_inv (h : Heap) (hco : h.coherent) (sched : List Bool) :
    ∀ t : TwoWorkers, t.inv h → (TwoWorkers.run h t sched).inv h := by
  induction sched with
  | nil => intro t ht; exact ht
  | cons who sched ih =>
    intro t ht
    exact ih _ (TwoWorkers.system_step_inv h hco t who ht)

theorem TwoWorkers.init_inv (h : Heap) (m : mspan → Nat → Bool) (ptrs0 ptrs1 : List Nat) :
    (TwoWorkers.init m ptrs0 ptrs1).inv h := by
  refine ⟨⟨List.nodup_nil, ?_, ?_⟩, ⟨List.nodup_nil, ?_, ?_⟩, ?_, ?_⟩
  · intro o ho; simp [TwoWorkers.init] at ho
  · intro _ _ _ hc; simp [TwoWorkers.init] at hc
  · intro o ho; simp [TwoWorkers.init] at ho
  · intro _ _ _ hc; simp [TwoWorkers.init] at hc
  · intro b hb; simp [TwoWorkers.init] at hb
  · simp [TwoWorkers.init]

theorem noscanEntry_iff (h : Heap) (S : Nat) (m0 : mspan → Nat → Bool) (p : Nat) :
    h.noscanEntry S m0 p = true ↔
      h.minLegalPointer ≤ p ∧ (h.findObject p).1 ≠ 0 ∧
        (h.findObject p).2.1.noscan = true ∧ (h.findObject p).2.1.elemsize = S ∧
        m0 (h.findObject p).2.1 (h.findObject p).2.2 = false := by
  simp [Heap.noscanEntry, and_assoc]

theorem setMarked_comm (m : mspan → Nat → Bool) (a : mspan) (i : Nat) (b : mspan) (j : Nat) :
    setMarked (setMarked m a i) b j = setMarked (setMarked m b j) a i := by
  funext x k
  unfold setMarked
  by_cases h1 : x = b ∧ k = j <;> by_cases h2 : x = a ∧ k = i <;> simp [h1, h2]

theorem setMarked_other (m : mspan → Nat → Bool) (a : mspan) (i : Nat) (x : mspan) (k : Nat)
    (hne : (x, k) ≠ (a, i)) : setMarked m a i x k = m x k := by
  unfold setMarked
  split
  · rename_i hx
    exact absurd (Prod.ext hx.1 hx.2) hne
  · rfl

theorem noscanBytes_setMarked (h : Heap) (sp : mspan) (i : Nat) (l : List Nat) :
    ∀ (m : mspan → Nat → Bool),
      (∀ q ∈ l, h.minLegalPointer ≤ q → (h.findObject q).1 ≠ 0 →
        (h.findObject q).2 ≠ (sp, i)) →
      noscanBytes h (setMarked m sp i) l = noscanBytes h m l := by
  induction l with
  | nil => intro m _; rfl
  | cons p l ih =>
    intro m hall
    have htail : ∀ q ∈ l, h.minLegalPointer ≤ q → (h.findObject q).1 ≠ 0 →
        (h.findObject q).2 ≠ (sp, i) := fun q hq => hall q (List.mem_cons_of_mem _ hq)
    by_cases hleg : h.minLegalPointer ≤ p ∧ (h.findObject p).1 ≠ 0
    · have hne := hall p (List.mem_cons_self _ _) hleg.1 hleg.2
      have hsame : setMarked m sp i (h.findObject p).2.1 (h.findObject p).2.2 =
          m (h.findObject p).2.1 (h.findObject p).2.2 := setMarked_other m sp i _ _ hne
      cases hg : h.greys m p with
      | true =>
        have hg' : h.greys (setMarked m sp i) p = true := by
          rw [greys_iff] at hg ⊢
          exact ⟨hg.1, hg.2.1, by rw [hsame]; exact hg.2.2⟩
        rw [noscanBytes_cons_grey h _ _ _ hg, noscanBytes_cons_grey h _ _ _ hg',
          setMarked_comm, ih _ htail]
      | false =>
        have hg' : h.greys (setMarked m sp i) p = false := by
          cases hx : h.greys (setMarked m sp i) p with
          | false => rfl
          | true =>
            rw [greys_iff] at hx
            have : h.greys m p = true :=
              (greys_iff h m p).mpr ⟨hx.1, hx.2.1, by rw [← hsame]; exact hx.2.2⟩
            rw [this] at hg
            exact absurd hg (by simp)
        rw [noscanBytes_cons_skip h _ _ _ hg, noscanBytes_cons_skip h _ _ _ hg', ih _ htail]
    · have hg : h.greys m p = false := by
        cases hx : h.greys m p with
        | false => rfl
        | true => exact absurd ⟨by have := ((greys_iff h m p).mp hx).1; omega,
            ((greys_iff h m p).mp hx).2.1⟩ hleg
      have hg' : h.greys (setMarked m sp i) p = false := by
        cases hx : h.greys (setMarked m sp i) p with
        | false => rfl
        | true => exact absurd ⟨by have := ((greys_iff h _ p).mp hx).1; omega,
            ((greys_iff h _ p).mp hx).2.1⟩ hleg
      rw [noscanBytes_cons_skip h _ _ _ hg, noscanBytes_cons_skip h _ _ _ hg', ih _ htail]

theorem noscanBytes_zero (h : Heap) (l : List Nat) :
    ∀ (m : mspan → Nat → Bool),
      (∀ p ∈ l, p < h.minLegalPointer ∨ (h.findObject p).1 = 0 ∨
        m (h.findObject p).2.1 (h.findObject p).2.2 = true ∨
        (h.findObject p).2.1.noscan = false) →
      noscanBytes h m l = 0 := by
  induction l with
  | nil => intro m _; rfl
  | cons p l ih =>
    intro m hall
    cases hg : h.greys m p with
    | false =>
      rw [noscanBytes_cons_skip h _ _ _ hg]
      exact ih m (fun q hq => hall q (List.mem_cons_of_mem _ hq))
    | true =>
      obtain ⟨c1, c2, c3⟩ := (greys_iff h m p).mp hg
      rw [noscanBytes_cons_grey h _ _ _ hg]
      have hns : (h.findObject p).2.1.noscan = false := by
        rcases hall p (List.mem_cons_self _ _) with h1 | h1 | h1 | h1
        · exact absurd h1 c1
        · exact absurd h1 c2
        · rw [c3] at h1; exact absurd h1 (by simp)
        · exact h1
      rw [ih _ (fun q hq => by
        rcases hall q (List.mem_cons_of_mem _ hq) with h1 | h1 | h1 | h1
        · exact Or.inl h1
        · exact Or.inr (Or.inl h1)
        · exact Or.inr (Or.inr (Or.inl (setMarked_mono m _ _ _ _ h1)))
        · exact Or.inr (Or.inr (Or.inr h1)))]
      simp [hns]

theorem noscan_mixed (h : Heap) (hco : h.coherent) (S : Nat) (m0 : mspan → Nat → Bool)
    (l : List Nat) :
    ∀ (m : mspan → Nat → Bool),
      (∀ p ∈ l, h.noscanEntry S m0 p = true →
        m (h.findObject p).2.1 (h.findObject p).2.2 = false) →
      ((l.filter (h.noscanEntry S m0)).map (fun p => (h.findObject p).1)).Nodup →
      noscanBytes h m l =
        (l.filter (h.noscanEntry S m0)).length * S +
          noscanBytes h m (l.filter (fun p => !h.noscanEntry S m0 p)) ∧
      ∀ p ∈ l, h.noscanEntry S m0 p = true → (h.findObject p).1 ∉ retained h m l := by
  induction l with
  | nil => intro m _ _; simp [noscanBytes]
  | cons p l ih =>
    intro m hfresh hnd
    have hfresh_tail : ∀ q ∈ l, h.noscanEntry S m0 q = true →
        m (h.findObject q).2.1 (h.findObject q).2.2 = false :=
      fun q hq => hfresh q (List.mem_cons_of_mem _ hq)
    cases hk : h.noscanEntry S m0 p with
    | true =>
      obtain ⟨k1, k2, k3, k4, k5⟩ := (noscanEntry_iff h S m0 p).mp hk
      have hm := hfresh p (List.mem_cons_self _ _) hk
      have hg : h.greys m p = true := (greys_iff h m p).mpr ⟨by omega, k2, hm⟩
      simp only [List.filter_cons, hk, if_true, Bool.not_true, Bool.false_eq_true, if_false,
        List.map_cons, List.nodup_cons, List.length_cons] at hnd ⊢
      have hbit : ∀ q ∈ l, h.noscanEntry S m0 q = true →
          (h.findObject q).2 ≠ (h.findObject p).2 := by
        intro q hq hkq hb
        obtain ⟨q1, q2, -, -, -⟩ := (noscanEntry_iff h S m0 q).mp hkq
        have hobj : (h.findObject q).1 = (h.findObject p).1 := (hco q p q2 k2).mpr hb
        apply hnd.1
        rw [← hobj]
        exact List.mem_map_of_mem _ (List.mem_filter.mpr ⟨hq, hkq⟩)
      obtain ⟨i1, i2⟩ := ih (setMarked m (h.findObject p).2.1 (h.findObject p).2.2)
        (fun q hq hkq => by
          rw [setMarked_other _ _ _ _ _ (hbit q hq hkq)]
          exact hfresh_tail q hq hkq)
        hnd.2
      have i3 := noscanBytes_setMarked h (h.findObject p).2.1 (h.findObject p).2.2
        (l.filter (fun p => !h.noscanEntry S m0 p)) m (by
          intro q hq hq1 hq2 hb
          have hnk := (List.mem_filter.mp hq).2
          have : h.noscanEntry S m0 q = true :=
            (noscanEntry_iff h S m0 q).mpr ⟨hq1, hq2, by rw [hb]; exact k3, by rw [hb]; exact k4,
              by rw [hb]; exact k5⟩
          rw [this] at hnk
          exact absurd hnk (by simp))
      refine ⟨?_, ?_⟩
      · rw [noscanBytes_cons_grey h _ _ _ hg, i1, i3]
        simp only [k3, k4, if_true]
        ring
      · intro q hq hkq
        rw [retained_cons_grey h _ _ _ hg]
        simp only [k3, if_true, List.nil_append]
        rcases List.mem_cons.mp hq with rfl | hq
        · intro hmem
          have := ((retained_sound h hco l _ _ hmem).2.2 q rfl).1
          rw [setMarked_self] at this
          exact absurd this (by simp)
        · exact i2 q hq hkq
    | false =>
      simp only [List.filter_cons, hk, Bool.false_eq_true, if_false, Bool.not_false,
        if_true] at hnd ⊢
      cases hg : h.greys m p with
      | false =>
        obtain ⟨i1, i2⟩ := ih m hfresh_tail hnd
        refine ⟨?_, ?_⟩
        · rw [noscanBytes_cons_skip h _ _ _ hg, noscanBytes_cons_skip h _ _ _ hg, i1]
        · intro q hq hkq
          rw [retained_cons_skip h _ _ _ hg]
          rcases List.mem_cons.mp hq with rfl | hq
          · rw [hk] at hkq; exact absurd hkq (by simp)
          · exact i2 q hq hkq
      | true =>
        obtain ⟨c1, c2, c3⟩ := (greys_iff h m p).mp hg
        have hbit : ∀ q, h.noscanEntry S m0 q = true →
            (h.findObject q).2 ≠ (h.findObject p).2 := by
          intro q hkq hb
          obtain ⟨-, -, q3, q4, q5⟩ := (noscanEntry_iff h S m0 q).mp hkq
          have : h.noscanEntry S m0 p = true :=
            (noscanEntry_iff h S m0 p).mpr ⟨by omega, c2, by rw [← hb]; exact q3,
              by rw [← hb]; exact q4, by rw [← hb]; exact q5⟩
          rw [this] at hk
          exact absurd hk (by simp)
        obtain ⟨i1, i2⟩ := ih (setMarked m (h.findObject p).2.1 (h.findObject p).2.2)
          (fun q hq hkq => by
            rw [setMarked_other _ _ _ _ _ (hbit q hkq)]
            exact hfresh_tail q hq hkq)
          hnd
        refine ⟨?_, ?_⟩
        · rw [noscanBytes_cons_grey h _ _ _ hg, noscanBytes_cons_grey h _ _ _ hg, i1]
          omega
        · intro q hq hkq
          rw [retained_cons_grey h _ _ _ hg]
          rcases List.mem_cons.mp hq with rfl | hq
          · rw [hk] at hkq; exact absurd hkq (by simp)
          · intro hmem
            rcases List.mem_append.mp hmem with hm1 | hm2
            · have hobj : (h.findObject p).1 = (h.findObject q).1 := by
                split at hm1
                · simp at hm1
                · exact (List.mem_singleton.mp hm1).symm
              obtain ⟨-, q2, -, -, -⟩ := (noscanEntry_iff h S m0 q).mp hkq
              exact hbit q hkq ((hco q p q2 c2).mp hobj.symm)
            · exact i2 q hq hkq hm2

theorem racy_schedule (h : Heap) (hco : h.coherent) (m : mspan → Nat → Bool) (p0 p1 : Nat)
    (hl0 : h.minLegalPointer ≤ p0) (hl1 : h.minLegalPointer ≤ p1)
    (hobj : (h.findObject p0).1 ≠ 0) (hsame : (h.findObject p0).1 = (h.findObject p1).1)
    (hm : m (h.findObject p0).2.1 (h.findObject p0).2.2 = false)
    (hns : (h.findObject p0).2.1.noscan = false) :
    (TwoWorkers.run h (TwoWorkers.init m [p0] [p1])
      [false, true, false, true, false, true]).shared.queue =
      [[(h.findObject p0).1], [(h.findObject p0).1]] := by
  have hobj1 : (h.findObject p1).1 ≠ 0 := by rw [← hsame]; exact hobj
  have hbit : (h.findObject p0).2 = (h.findObject p1).2 := (hco p0 p1 hobj hobj1).mp hsame
  have hm1 : m (h.findObject p1).2.1 (h.findObject p1).2.2 = false := by rw [← hbit]; exact hm
  have hns1 : (h.findObject p1).2.1.noscan = false := by rw [← hbit]; exact hns
  have c0 : ¬ p0 < h.minLegalPointer := by omega
  have c1 : ¬ p1 < h.minLegalPointer := by omega
  simp [TwoWorkers.run, TwoWorkers.step, TwoWorkers.init, FlushWorker.step, c0, c1, hobj,
    hobj1, hm, hm1, hns, hns1, hsame]

/-! ## Claims -/

set_option maxRecDepth 20000

/-- C1: in normal mode (`useCheckmark` false) `wbBufFlush1` returns, and the one call it makes
outside the file is `putBatch` with, in buffer order, the object bases of exactly the
buffered addresses that are at least `minLegalPointer`, resolve to a non-zero object, have a
clear mark bit when they are processed (bits set earlier in the flush counted) and whose span
is not noscan. -/
theorem wbBufFlush1_batch (PtrSize : Nat) (hps : PtrSize = 4 ∨ PtrSize = 8) (g : Globals)
    (h : Heap) (s : State) (hck : g.useCheckmark = false) (hwt : s.wellTyped PtrSize)
    (hn : s.wbBuf.count PtrSize ≤ wbBufEntryPointers * wbBufEntries) :
    ∃ s', wbBufFlush1 PtrSize g h s = Except.ok s' ∧
      s'.trace = s.trace ++ [Event.putBatch (retained h s.marked (s.wbBuf.ptrs PtrSize))] := by
  obtain ⟨buf, h1, -⟩ := wbBufFlush1_normal PtrSize hps g h s hck hwt.1.1 hn hwt.1.2.2.2 hwt.2
  exact ⟨_, h1, rfl⟩

/-- Witness of C1 on the three-entry buffer: the batch is the single object 2 of span X. -/
theorem wbBufFlush1_batch_witness :
    ∃ s', wbBufFlush1 8 demoGlobals demoHeap demoState = Except.ok s' ∧
      s'.trace = [Event.putBatch [8224]] := by
  have hr : retained demoHeap demoState.marked (demoState.wbBuf.ptrs 8) = [8224] := by decide
  have := wbBufFlush1_batch 8 (Or.inr rfl) demoGlobals demoHeap demoState rfl
    (by decide) (by decide)
  rw [hr] at this
  exact this

/-- C2: on a heap where an object base and its mark bit determine each other, the batch of
one normal-mode `wbBufFlush1` has no object twice and no object whose mark bit was set before
the flush; and over a sequence of flushes sharing the mark bitmap, all batches together hold
no object twice and no object that was marked before the first flush. -/
theorem at_most_once_marking (PtrSize : Nat) (hps : PtrSize = 4 ∨ PtrSize = 8) (g : Globals)
    (h : Heap) (hco : h.coherent) (hck : g.useCheckmark = false) (s : State) (bs : List wbBuf)
    (hs : s.wbBuf.flushable PtrSize) (hb : s.bytesMarked < uint64Mod)
    (hbs : ∀ b ∈ bs, b.flushable PtrSize) :
    (∃ (s' : State) (batch : List Nat),
      wbBufFlush1 PtrSize g h s = Except.ok s' ∧
      s'.trace = s.trace ++ [Event.putBatch batch] ∧
      batch.Nodup ∧
      ∀ obj ∈ batch, ∀ q, (h.findObject q).1 = obj →
        s.marked (h.findObject q).2.1 (h.findObject q).2.2 = false) ∧
    (∃ (s' : State) (batches : List (List Nat)),
      flushSeq PtrSize g h s bs = Except.ok s' ∧
      s'.trace = s.trace ++ batches.map Event.putBatch ∧
      batches.length = bs.length ∧
      batches.flatten.Nodup ∧
      ∀ obj ∈ batches.flatten, ∀ q, (h.findObject q).1 = obj →
        s.marked (h.findObject q).2.1 (h.findObject q).2.2 = false) := by
  constructor
  · obtain ⟨buf, h1, -⟩ := wbBufFlush1_normal PtrSize hps g h s hck hs.1.1 hs.2 hs.1.2.2.2 hb
    exact ⟨_, _, h1, rfl, retained_nodup h hco _ _,
      fun obj ho q hq => ((retained_sound h hco _ _ obj ho).2.2 q hq).1⟩
  · obtain ⟨s', batches, e1, e2, e3, e4, e5, -⟩ := flushSeq_spec PtrSize hps g h hco hck bs s hb hbs
    exact ⟨s', batches, e1, e2, e3, e4, fun obj ho => (e5 obj ho).2⟩

/-- Witness of C2: the three-entry buffer, whose entries (a) and (b) resolve to the same
object, flushed on its own and then twice in a row. -/
theorem at_most_once_marking_witness :
    (∃ (s' : State) (batch : List Nat),
      wbBufFlush1 8 demoGlobals demoHeap demoState = Except.ok s' ∧
      s'.trace = demoState.trace ++ [Event.putBatch batch] ∧
      batch.Nodup ∧
      ∀ obj ∈ batch, ∀ q, (demoHeap.findObject q).1 = obj →
        demoState.marked (demoHeap.findObject q).2.1 (demoHeap.findObject q).2.2 = false) ∧
    (∃ (s' : State) (batches : List (List Nat)),
      flushSeq 8 demoGlobals demoHeap demoState [demoBuf, demoBuf] = Except.ok s' ∧
      s'.trace = demoState.trace ++ batches.map Event.putBatch ∧
      batches.length = [demoBuf, demoBuf].length ∧
      batches.flatten.Nodup ∧
      ∀ obj ∈ batches.flatten, ∀ q, (demoHeap.findObject q).1 = obj →
        demoState.marked (demoHeap.findObject q).2.1 (demoHeap.findObject q).2.2 = false) :=
  at_most_once_marking 8 (Or.inr rfl) demoGlobals demoHeap demoHeap_coherent rfl demoState
    [demoBuf, demoBuf] (by decide) (by decide) (by decide)

/-- C3: whatever the buffer held and whatever the flags are, `reset` returns (the throw is
not reached) with `next` at the address of `buf[0]` and `end - next` a positive multiple of
one entry (`wbBufEntryPointers` words) that does not exceed the size of `buf`. -/
theorem reset_bounds (PtrSize : Nat) (hps : PtrSize = 4 ∨ PtrSize = 8) (g : Globals) (b : wbBuf)
    (hstart : b.start < uintptrMod PtrSize) :
    ∃ b', b.reset PtrSize g = Except.ok b' ∧ b'.start = b.start ∧ b'.next = b.start ∧
      ∃ k, 0 < k ∧ usub PtrSize b'.end_ b'.next = k * (wbBufEntryPointers * PtrSize) ∧
        usub PtrSize b'.end_ b'.next ≤ (wbBufEntryPointers * wbBufEntries) * PtrSize := by
  refine ⟨_, reset_eq PtrSize hps g b hstart, rfl, rfl, effectiveCapacity g b, ?_, ?_, ?_⟩
  · unfold effectiveCapacity; split <;> simp [wbBufEntries]
  · rcases hps with rfl | rfl <;>
    · simp only [uintptrMod] at hstart
      simp only [effectiveCapacity, uadd, usub, uintptrMod, wbBufEntries, wbBufEntryPointers]
      split <;> norm_num <;> omega
  · rcases hps with rfl | rfl <;>
    · simp only [uintptrMod] at hstart
      simp only [effectiveCapacity, uadd, usub, uintptrMod, wbBufEntries, wbBufEntryPointers]
      split <;> norm_num <;> omega

/-- Witness of C3: a reset with `writeBarrier.cgo` set, on a buffer holding three entries. -/
theorem reset_bounds_witness :
    ∃ b', demoBuf.reset 8 { demoGlobals with cgo := true } = Except.ok b' ∧
      b'.start = demoBuf.start ∧ b'.next = demoBuf.start ∧
      ∃ k, 0 < k ∧ usub 8 b'.end_ b'.next = k * (wbBufEntryPointers * 8) ∧
        usub 8 b'.end_ b'.next ≤ (wbBufEntryPointers * wbBufEntries) * 8 :=
  reset_bounds 8 (Or.inr rfl) { demoGlobals with cgo := true } demoBuf (by decide)

/-- C4: on a buffer with `next < end` and `end - next` a multiple of one entry (wherever
`start` is),
`putFast` advances `next` by one entry without passing `end`, returns true exactly when room
for one more full entry is left, and returns false exactly when `next` has reached `end`. -/
theorem putFast_reports_room (PtrSize : Nat) (hps : PtrSize = 4 ∨ PtrSize = 8) (b : wbBuf)
    (old new : Nat) (hend : b.end_ < uintptrMod PtrSize)
    (h2 : b.next < b.end_) (h3 : (b.end_ - b.next) % (wbBufEntryPointers * PtrSize) = 0) :
    (b.putFast PtrSize old new).1.end_ = b.end_ ∧
    (b.putFast PtrSize old new).1.next = b.next + wbBufEntryPointers * PtrSize ∧
    (b.putFast PtrSize old new).1.next ≤ (b.putFast PtrSize old new).1.end_ ∧
    ((b.putFast PtrSize old new).2 = true ↔
      wbBufEntryPointers * PtrSize ≤
        (b.putFast PtrSize old new).1.end_ - (b.putFast PtrSize old new).1.next) ∧
    ((b.putFast PtrSize old new).2 = false ↔
      (b.putFast PtrSize old new).1.next = (b.putFast PtrSize old new).1.end_) := by
  rw [putFast_end, putFast_next, putFast_flag]
  rcases hps with rfl | rfl <;>
  · simp only [uintptrMod] at hend
    simp only [uadd, uintptrMod, wbBufEntryPointers] at h3 ⊢
    norm_num at h3 hend ⊢
    omega

/-- Witness of C4: the buffer holding three entries out of 256. -/
theorem putFast_reports_room_witness :
    (demoBuf.putFast 8 7 9).1.end_ = demoBuf.end_ ∧
    (demoBuf.putFast 8 7 9).1.next = demoBuf.next + wbBufEntryPointers * 8 ∧
    (demoBuf.putFast 8 7 9).1.next ≤ (demoBuf.putFast 8 7 9).1.end_ ∧
    ((demoBuf.putFast 8 7 9).2 = true ↔
      wbBufEntryPointers * 8 ≤ (demoBuf.putFast 8 7 9).1.end_ - (demoBuf.putFast 8 7 9).1.next) ∧
    ((demoBuf.putFast 8 7 9).2 = false ↔
      (demoBuf.putFast 8 7 9).1.next = (demoBuf.putFast 8 7 9).1.end_) :=
  putFast_reports_room 8 (Or.inr rfl) demoBuf 7 9 (by decide) (by decide) (by decide)

/-- C7: when the worker is dying, `wbBufFlush` returns having only set `next` to the address
of `buf[0]`: the trace is unchanged (no `shade`, no `putBatch`, no cgo check), as are the mark
bits, the `bytesMarked` tally, `end` and the slots of `buf`; the buffer is empty. -/
theorem wbBufFlush_dying (PtrSize : Nat) (g : Globals) (h : Heap) (dst src : Nat) (s : State)
    (hd : s.dying > 0) :
    wbBufFlush PtrSize g h dst src s =
        Except.ok { s with wbBuf := { s.wbBuf with next := s.wbBuf.start } } ∧
      ∀ s', wbBufFlush PtrSize g h dst src s = Except.ok s' →
        s'.trace = s.trace ∧ s'.marked = s.marked ∧ s'.bytesMarked = s.bytesMarked ∧
        s'.wbBuf.next = s.wbBuf.start ∧ s'.wbBuf.end_ = s.wbBuf.end_ ∧
        s'.wbBuf.buf = s.wbBuf.buf ∧ s'.wbBuf.empty = true := by
  have e : wbBufFlush PtrSize g h dst src s =
      Except.ok { s with wbBuf := { s.wbBuf with next := s.wbBuf.start } } := by
    simp [wbBufFlush, hd, wbBuf.discard]
  refine ⟨e, ?_⟩
  intro s' hs'
  rw [e] at hs'
  cases hs'
  simp [wbBuf.empty]

/-- Witness of C7: the three-entry buffer on a dying worker, with the cgo check enabled. -/
theorem wbBufFlush_dying_witness :
    wbBufFlush 8 { demoGlobals with cgo := true } demoHeap 49000 8224
        { demoState with dying := 1 } =
        Except.ok { { demoState with dying := 1 } with
          wbBuf := { demoBuf with next := demoBuf.start } } ∧
      ∀ s', wbBufFlush 8 { demoGlobals with cgo := true } demoHeap 49000 8224
          { demoState with dying := 1 } = Except.ok s' →
        s'.trace = demoState.trace ∧ s'.marked = demoState.marked ∧
        s'.bytesMarked = demoState.bytesMarked ∧
        s'.wbBuf.next = demoBuf.start ∧ s'.wbBuf.end_ = demoBuf.end_ ∧
        s'.wbBuf.buf = demoBuf.buf ∧ s'.wbBuf.empty = true :=
  wbBufFlush_dying 8 { demoGlobals with cgo := true } demoHeap 49000 8224
    { demoState with dying := 1 } (by decide)

/-- C8: whatever the flags and the arguments (worker dying; called only for the cgo check;
checkmark mode; normal mode), `wbBufFlush` returns with `next` at the address of `buf[0]`:
the buffer is empty, `next < end`, `next` is not the poison value 0, and the following
`putFast` stores its pair in slots 0 and 1 of `buf`. -/
theorem wbBufFlush_resets_next (PtrSize : Nat) (hps : PtrSize = 4 ∨ PtrSize = 8) (g : Globals)
    (h : Heap) (dst src : Nat) (s : State) (hwt : s.wellTyped PtrSize)
    (hal : s.wbBuf.allocated PtrSize)
    (hn : s.wbBuf.count PtrSize ≤ wbBufEntryPointers * wbBufEntries)
    (hend : s.wbBuf.start < s.wbBuf.end_) :
    ∃ s', wbBufFlush PtrSize g h dst src s = Except.ok s' ∧
      s'.wbBuf.start = s.wbBuf.start ∧ s'.wbBuf.next = s.wbBuf.start ∧
      s'.wbBuf.empty = true ∧ s'.wbBuf.next < s'.wbBuf.end_ ∧ s'.wbBuf.next ≠ 0 ∧
      ∀ old new, (s'.wbBuf.putFast PtrSize old new).1.buf = (s'.wbBuf.buf.set 0 old).set 1 new ∧
        (s'.wbBuf.putFast PtrSize old new).1.wild = s'.wbBuf.wild := by
  obtain ⟨⟨hstart, hnext, hendt, hlen⟩, hb⟩ := hwt
  have hcap : s.wbBuf.start <
      uadd PtrSize s.wbBuf.start (effectiveCapacity g s.wbBuf * (wbBufEntryPointers * PtrSize)) := by
    obtain ⟨h0, h1⟩ := hal
    rcases hps with rfl | rfl <;>
    · simp only [uintptrMod, wbBufEntryPointers, wbBufEntries] at h1
      simp only [effectiveCapacity, uadd, uintptrMod, wbBufEntries, wbBufEntryPointers]
      split <;> norm_num <;> omega
  have key : ∀ s' : State, s'.wbBuf.start = s.wbBuf.start → s'.wbBuf.next = s.wbBuf.start →
      s.wbBuf.start < s'.wbBuf.end_ → s'.wbBuf.buf.length = wbBufEntryPointers * wbBufEntries →
      s'.wbBuf.start = s.wbBuf.start ∧ s'.wbBuf.next = s.wbBuf.start ∧
      s'.wbBuf.empty = true ∧ s'.wbBuf.next < s'.wbBuf.end_ ∧ s'.wbBuf.next ≠ 0 ∧
      ∀ old new, (s'.wbBuf.putFast PtrSize old new).1.buf = (s'.wbBuf.buf.set 0 old).set 1 new ∧
        (s'.wbBuf.putFast PtrSize old new).1.wild = s'.wbBuf.wild := by
    intro s' e1 e2 e3 e4
    refine ⟨e1, e2, by simp [wbBuf.empty, e1, e2], by rw [e2]; exact e3, ?_, ?_⟩
    · rw [e2]; exact Nat.pos_iff_ne_zero.mp hal.1
    · intro old new
      exact putFast_at_start PtrSize hps s'.wbBuf old new
        (by unfold wbBuf.allocated; rw [e1]; exact hal) e4 (by rw [e1, e2])
  by_cases hd : s.dying > 0
  · exact ⟨_, (wbBufFlush_dying_eq PtrSize g h dst src s hd), key _ rfl rfl hend hlen⟩
  · cases hcgo : (g.cgo && dst != 0 && !g.needed) with
    | true =>
      refine ⟨{ s with
          trace := s.trace ++ [Event.cgoCheckWriteBarrier dst src]
          wbBuf := { s.wbBuf with next := s.wbBuf.start } }, ?_, key _ rfl rfl hend hlen⟩
      have hc1 : (g.cgo && dst != 0) = true := by
        revert hcgo; cases (g.cgo && dst != 0) <;> simp
      have hc2 : (true && !g.needed) = true := by rw [hc1] at hcgo; exact hcgo
      unfold wbBufFlush
      simp only [hd, if_false, hc1, if_true, hc2, wbBuf.discard]
    | false =>
      rw [wbBufFlush_live PtrSize g h dst src s (by omega) hcgo]
      cases hck : g.useCheckmark with
      | true =>
        exact ⟨_, wbBufFlush1_checkmark PtrSize hps g h _ hck hstart hn, key _ rfl rfl hcap hlen⟩
      | false =>
        obtain ⟨buf, e1, e2, -⟩ := wbBufFlush1_normal PtrSize hps g h
          { s with trace := s.trace ++
            (if g.cgo && dst != 0 then [Event.cgoCheckWriteBarrier dst src] else []) }
          hck hstart hn hlen hb
        exact ⟨_, e1, key _ rfl rfl hcap e2⟩

/-- Witness of C8: a normal-mode flush of the three-entry buffer. -/
theorem wbBufFlush_resets_next_witness :
    ∃ s', wbBufFlush 8 demoGlobals demoHeap 0 0 demoState = Except.ok s' ∧
      s'.wbBuf.start = demoState.wbBuf.start ∧ s'.wbBuf.next = demoState.wbBuf.start ∧
      s'.wbBuf.empty = true ∧ s'.wbBuf.next < s'.wbBuf.end_ ∧ s'.wbBuf.next ≠ 0 ∧
      ∀ old new, (s'.wbBuf.putFast 8 old new).1.buf = (s'.wbBuf.buf.set 0 old).set 1 new ∧
        (s'.wbBuf.putFast 8 old new).1.wild = s'.wbBuf.wild :=
  wbBufFlush_resets_next 8 (Or.inr rfl) demoGlobals demoHeap 0 0 demoState (by decide)
    (by decide) (by decide) (by decide)

/-- C9: after `reset`, the `putFast` calls up to and including the first that returns false
number the effective capacity: when `writeBarrier.cgo` is clear and the debug condition
(`debugCachedWork` and (`throwOnGCWork` or `debugGen == gcWorkPauseGen`)) does not hold, the
first 255 calls return true and the 256th returns false; when `writeBarrier.cgo` is set, or
the debug condition holds, the first call already returns false. -/
theorem capacity_after_reset (PtrSize : Nat) (hps : PtrSize = 4 ∨ PtrSize = 8) (g : Globals)
    (b : wbBuf) (hwt : b.wellTyped PtrSize) (hal : b.allocated PtrSize) :
    ∃ b0, b.reset PtrSize g = Except.ok b0 ∧
      (g.cgo = false →
        (g.debugCachedWork = false ∨
          (g.throwOnGCWork = false ∧ b.debugGen ≠ g.gcWorkPauseGen)) →
        ∀ ws : List (Nat × Nat), ws.length = 256 →
          (putFastAll PtrSize b0 ws).2 = List.replicate 255 true ++ [false]) ∧
      (g.cgo = true ∨
          (g.debugCachedWork = true ∧
            (g.throwOnGCWork = true ∨ b.debugGen = g.gcWorkPauseGen)) →
        ∀ old new, (b0.putFast PtrSize old new).2 = false) := by
  refine ⟨_, reset_end PtrSize hps g b hal, ?_, ?_⟩
  · intro hcgo hdbg ws hws
    have hf : forceEager g b = false := by
      unfold forceEager
      rcases hdbg with hd | ⟨ht, hne⟩
      · simp [hcgo, hd]
      · simp [hcgo, ht, hne]
    have hcap : effectiveCapacity g b = wbBufEntries := by simp [effectiveCapacity, hf]
    obtain ⟨b0, e0, -, -, -, -, -, -, -, e7⟩ :=
      putFastAll_after_reset PtrSize hps g b hwt hal ws (by rw [hcap, hws]; decide)
    rw [reset_end PtrSize hps g b hal] at e0
    cases e0
    rw [e7, hws, hcap]
    decide
  · intro hcond old new
    have hf : forceEager g b = true := by
      unfold forceEager
      rcases hcond with hc | ⟨hd, ht | he⟩
      · simp [hc]
      · simp [hd, ht]
      · simp [hd, he]
    have hcap : effectiveCapacity g b = 1 := by simp [effectiveCapacity, hf]
    obtain ⟨b0, e0, -, -, -, -, -, -, -, e7⟩ :=
      putFastAll_after_reset PtrSize hps g b hwt hal [(old, new)] (by simp [hcap])
    rw [reset_end PtrSize hps g b hal] at e0
    cases e0
    have e8 : (List.range 1).map (fun k => decide (k + 1 ≠ 1)) = [false] := by decide
    rw [hcap, List.length_singleton, e8] at e7
    rw [hcap]
    exact (List.cons.inj e7).1

/-- Witness of C9: the three-entry buffer reset under the ordinary flags, then with
`writeBarrier.cgo` set, then under the debug condition. -/
theorem capacity_after_reset_witness :
    (∃ b0, demoBuf.reset 8 demoGlobals = Except.ok b0 ∧
      (putFastAll 8 b0 (List.replicate 256 (0, 8224))).2 =
        List.replicate 255 true ++ [false]) ∧
    (∃ b0, demoBuf.reset 8 { demoGlobals with cgo := true } = Except.ok b0 ∧
      (b0.putFast 8 0 8224).2 = false) ∧
    (∃ b0, demoBuf.reset 8 { demoGlobals with debugCachedWork := true } = Except.ok b0 ∧
      (b0.putFast 8 0 8224).2 = false) := by
  obtain ⟨b0, e0, n0, -⟩ := capacity_after_reset 8 (Or.inr rfl) demoGlobals demoBuf
    (by decide) (by decide)
  obtain ⟨b1, e1, -, c1⟩ := capacity_after_reset 8 (Or.inr rfl) { demoGlobals with cgo := true }
    demoBuf (by decide) (by decide)
  obtain ⟨b2, e2, -, c2⟩ := capacity_after_reset 8 (Or.inr rfl)
    { demoGlobals with debugCachedWork := true } demoBuf (by decide) (by decide)
  exact ⟨⟨b0, e0, n0 rfl (Or.inl rfl) _ (by simp)⟩, ⟨b1, e1, c1 (Or.inl rfl) 0 8224⟩,
    ⟨b2, e2, c2 (Or.inr ⟨rfl, Or.inr rfl⟩) 0 8224⟩⟩

/-- C10: for every number of `putFast` calls up to the effective capacity, after `reset` and
those calls `next` is `start` plus that many entries and does not pass `end`, `end - next` is
a multiple of one entry, `end` does not pass the end of `buf`, and every store of the calls
landed on a slot of `buf` (no wild store was added). -/
theorem bound_invariant_after_appends (PtrSize : Nat) (hps : PtrSize = 4 ∨ PtrSize = 8)
    (g : Globals) (b : wbBuf) (ws : List (Nat × Nat)) (hwt : b.wellTyped PtrSize)
    (hal : b.allocated PtrSize) (hk : ws.length ≤ effectiveCapacity g b) :
    ∃ b0, b.reset PtrSize g = Except.ok b0 ∧
      (putFastAll PtrSize b0 ws).1.next =
        b.start + ws.length * (wbBufEntryPointers * PtrSize) ∧
      (putFastAll PtrSize b0 ws).1.next ≤ (putFastAll PtrSize b0 ws).1.end_ ∧
      ((putFastAll PtrSize b0 ws).1.end_ - (putFastAll PtrSize b0 ws).1.next)
        % (wbBufEntryPointers * PtrSize) = 0 ∧
      (putFastAll PtrSize b0 ws).1.end_ ≤
        b.start + (wbBufEntryPointers * wbBufEntries) * PtrSize ∧
      (putFastAll PtrSize b0 ws).1.wild = b.wild ∧
      (putFastAll PtrSize b0 ws).1.buf.length = wbBufEntryPointers * wbBufEntries := by
  obtain ⟨b0, e0, e1, -, e3, e4, e5, -, e7, -⟩ :=
    putFastAll_after_reset PtrSize hps g b hwt hal ws hk
  have hc : effectiveCapacity g b ≤ wbBufEntries := by
    unfold effectiveCapacity; split <;> simp [wbBufEntries]
  refine ⟨b0, e0, e3, ?_, ?_, ?_, e5, e7⟩
  · rw [e3, e4, e1]
    exact Nat.add_le_add_left (Nat.mul_le_mul_right _ hk) _
  · rw [e3, e4, e1, Nat.add_sub_add_left, ← Nat.sub_mul]
    exact Nat.mul_mod_left _ _
  · rw [e4, e1]
    calc b.start + effectiveCapacity g b * (wbBufEntryPointers * PtrSize)
        ≤ b.start + wbBufEntries * (wbBufEntryPointers * PtrSize) :=
          Nat.add_le_add_left (Nat.mul_le_mul_right _ hc) _
      _ = b.start + wbBufEntryPointers * wbBufEntries * PtrSize := by ring

/-- Witness of C10: three appends after resetting the three-entry buffer. -/
theorem bound_invariant_after_appends_witness :
    ∃ b0, demoBuf.reset 8 demoGlobals = Except.ok b0 ∧
      (putFastAll 8 b0 [(0, 8224), (8232, 0), (16384, 0)]).1.next =
        demoBuf.start + [(0, 8224), (8232, 0), (16384, 0)].length * (wbBufEntryPointers * 8) ∧
      (putFastAll 8 b0 [(0, 8224), (8232, 0), (16384, 0)]).1.next ≤
        (putFastAll 8 b0 [(0, 8224), (8232, 0), (16384, 0)]).1.end_ ∧
      ((putFastAll 8 b0 [(0, 8224), (8232, 0), (16384, 0)]).1.end_ -
        (putFastAll 8 b0 [(0, 8224), (8232, 0), (16384, 0)]).1.next)
          % (wbBufEntryPointers * 8) = 0 ∧
      (putFastAll 8 b0 [(0, 8224), (8232, 0), (16384, 0)]).1.end_ ≤
        demoBuf.start + (wbBufEntryPointers * wbBufEntries) * 8 ∧
      (putFastAll 8 b0 [(0, 8224), (8232, 0), (16384, 0)]).1.wild = demoBuf.wild ∧
      (putFastAll 8 b0 [(0, 8224), (8232, 0), (16384, 0)]).1.buf.length =
        wbBufEntryPointers * wbBufEntries :=
  bound_invariant_after_appends 8 (Or.inr rfl) demoGlobals demoBuf
    [(0, 8224), (8232, 0), (16384, 0)] (by decide) (by decide) (by decide)

/-- C5: after `putFast(old, new)` on a buffer holding fewer than `wbBufEntries` entries, a
normal-mode `wbBufFlush` (worker alive, write barrier needed, no checkmark) returns with the
mark bit set of every object `old` or `new` resolves to, whatever the slot and the stacks are;
the flush clears no mark bit, and every bit it sets is the bit of an object some buffered
address resolves to. -/
theorem both_sides_shaded (PtrSize : Nat) (hps : PtrSize = 4 ∨ PtrSize = 8) (g : Globals)
    (h : Heap) (dst src old new j : Nat) (s : State) (hwt : s.wellTyped PtrSize)
    (hal : s.wbBuf.allocated PtrSize)
    (hnext : s.wbBuf.next = s.wbBuf.start + j * (wbBufEntryPointers * PtrSize))
    (hj : j < wbBufEntries) (hlive : s.dying ≤ 0) (hneeded : g.needed = true)
    (hck : g.useCheckmark = false) :
    ∃ s', wbBufFlush PtrSize g h dst src
        { s with wbBuf := (s.wbBuf.putFast PtrSize old new).1 } = Except.ok s' ∧
      (∀ v, v = old ∨ v = new → h.minLegalPointer ≤ v → (h.findObject v).1 ≠ 0 →
        s'.marked (h.findObject v).2.1 (h.findObject v).2.2 = true) ∧
      (∀ x i, s.marked x i = true → s'.marked x i = true) ∧
      (∀ x i, s'.marked x i = true → s.marked x i = true ∨
        ∃ v ∈ (s.wbBuf.putFast PtrSize old new).1.ptrs PtrSize,
          h.minLegalPointer ≤ v ∧ (h.findObject v).1 ≠ 0 ∧ (h.findObject v).2 = (x, i)) := by
  obtain ⟨⟨hstart, -, -, hlen⟩, hb⟩ := hwt
  obtain ⟨hc, hold, hnew⟩ := putFast_ptrs PtrSize hps s.wbBuf old new j hal hlen hnext hj
  rw [wbBufFlush_live PtrSize g h dst src
    { s with wbBuf := (s.wbBuf.putFast PtrSize old new).1 } hlive (by simp [hneeded])]
  obtain ⟨buf, e1, -⟩ := wbBufFlush1_normal PtrSize hps g h
    { s with
      wbBuf := (s.wbBuf.putFast PtrSize old new).1
      trace := s.trace ++ (if g.cgo && dst != 0 then [Event.cgoCheckWriteBarrier dst src] else []) }
    hck (by rw [putFast_start]; exact hstart)
    (by rw [hc]; simp only [wbBufEntryPointers, wbBufEntries] at hj ⊢; omega)
    (by rw [putFast_length]; exact hlen) hb
  refine ⟨_, e1, ?_, ?_, ?_⟩
  · intro v hv h1 h2
    rcases hv with rfl | rfl
    · exact marksAfter_marks h _ s.marked _ hold h1 h2
    · exact marksAfter_marks h _ s.marked _ hnew h1 h2
  · intro x i hm
    exact marksAfter_mono h _ s.marked x i hm
  · intro x i hm
    exact marksAfter_only h _ s.marked x i hm

/-- Witness of C5: the write (8232, 16416) appended to the three-entry buffer and flushed. -/
theorem both_sides_shaded_witness :
    ∃ s', wbBufFlush 8 demoGlobals demoHeap 0 0
        { demoState with wbBuf := (demoState.wbBuf.putFast 8 8232 16416).1 } = Except.ok s' ∧
      (∀ v, v = 8232 ∨ v = 16416 → demoHeap.minLegalPointer ≤ v →
        (demoHeap.findObject v).1 ≠ 0 →
        s'.marked (demoHeap.findObject v).2.1 (demoHeap.findObject v).2.2 = true) ∧
      (∀ x i, demoState.marked x i = true → s'.marked x i = true) ∧
      (∀ x i, s'.marked x i = true → demoState.marked x i = true ∨
        ∃ v ∈ (demoState.wbBuf.putFast 8 8232 16416).1.ptrs 8,
          demoHeap.minLegalPointer ≤ v ∧ (demoHeap.findObject v).1 ≠ 0 ∧
            (demoHeap.findObject v).2 = (x, i)) :=
  both_sides_shaded 8 (Or.inr rfl) demoGlobals demoHeap 0 0 8232 16416 3 demoState
    (by decide) (by decide) (by decide) (by decide) (by decide) rfl rfl

/-- C6, as stated, fails when a buffered no-scan object is already marked: the buffer holds
K = 2 addresses resolving to the distinct objects 0 and 1 of the noscan span Z (element size
8), object 0 being marked before the flush; the tally grows by 8, not by 2 x 8. -/
theorem noscan_accounting_counterexample :
    demoNoscanState.wbBuf.ptrs 8 = [32768, 32776] ∧
    (∀ p ∈ demoNoscanState.wbBuf.ptrs 8,
      (demoHeap.findObject p).1 ≠ 0 ∧ (demoHeap.findObject p).2.1 = demoSpanZ) ∧
    demoSpanZ.noscan = true ∧ demoSpanZ.elemsize = 8 ∧
    ((demoNoscanState.wbBuf.ptrs 8).map (fun p => (demoHeap.findObject p).1)).Nodup ∧
    ∃ s', wbBufFlush1 8 demoGlobals demoHeap demoNoscanState = Except.ok s' ∧
      s'.bytesMarked = demoNoscanState.bytesMarked + 8 ∧
      s'.bytesMarked ≠ demoNoscanState.bytesMarked + 2 * 8 := by
  refine ⟨by decide, by decide, rfl, rfl, by decide, ?_⟩
  obtain ⟨buf, e1, -⟩ := wbBufFlush1_normal 8 (Or.inr rfl) demoGlobals demoHeap demoNoscanState
    rfl (by decide) (by decide) (by decide) (by decide)
  have hn : noscanBytes demoHeap demoNoscanState.marked (demoNoscanState.wbBuf.ptrs 8) = 8 := by
    decide
  rw [hn] at e1
  refine ⟨_, e1, ?_, ?_⟩
  · show (100 + 8) % uint64Mod = 100 + 8
    decide
  · show (100 + 8) % uint64Mod ≠ 100 + 2 * 8
    decide

/-- C6 amended: let K be the number of buffered addresses that are legal pointers resolving
to objects of noscan spans of element size S that are unmarked before the flush; when these
K objects are pairwise distinct, a normal-mode `wbBufFlush1` adds K x S to `bytesMarked` on
top of what the other buffered addresses add (in `uint64` arithmetic), and none of the K
objects is in the batch passed to `putBatch`. When every other buffered address is below
`minLegalPointer`, unresolved, already marked or an object with pointers, the tally grows by
exactly K x S. -/
theorem noscan_accounting (PtrSize : Nat) (hps : PtrSize = 4 ∨ PtrSize = 8) (g : Globals)
    (h : Heap) (hco : h.coherent) (S : Nat) (s : State) (hck : g.useCheckmark = false)
    (hfl : s.wbBuf.flushable PtrSize) (hb : s.bytesMarked < uint64Mod)
    (hdist : (((s.wbBuf.ptrs PtrSize).filter (h.noscanEntry S s.marked)).map
      (fun p => (h.findObject p).1)).Nodup) :
    ∃ s' batch, wbBufFlush1 PtrSize g h s = Except.ok s' ∧
      s'.trace = s.trace ++ [Event.putBatch batch] ∧
      s'.bytesMarked =
        (s.bytesMarked +
          ((s.wbBuf.ptrs PtrSize).filter (h.noscanEntry S s.marked)).length * S +
          noscanBytes h s.marked
            ((s.wbBuf.ptrs PtrSize).filter (fun p => !h.noscanEntry S s.marked p)))
          % uint64Mod ∧
      ((∀ p ∈ s.wbBuf.ptrs PtrSize, h.noscanEntry S s.marked p = false →
          p < h.minLegalPointer ∨ (h.findObject p).1 = 0 ∨
          s.marked (h.findObject p).2.1 (h.findObject p).2.2 = true ∨
          (h.findObject p).2.1.noscan = false) →
        s'.bytesMarked =
          (s.bytesMarked +
            ((s.wbBuf.ptrs PtrSize).filter (h.noscanEntry S s.marked)).length * S)
            % uint64Mod ∧
        (s.bytesMarked + ((s.wbBuf.ptrs PtrSize).filter (h.noscanEntry S s.marked)).length * S
            < uint64Mod →
          s'.bytesMarked =
            s.bytesMarked +
              ((s.wbBuf.ptrs PtrSize).filter (h.noscanEntry S s.marked)).length * S)) ∧
      (∀ p ∈ s.wbBuf.ptrs PtrSize, h.noscanEntry S s.marked p = true →
        (h.findObject p).1 ∉ batch) := by
  obtain ⟨buf, e1, -⟩ := wbBufFlush1_normal PtrSize hps g h s hck hfl.1.1 hfl.2 hfl.1.2.2.2 hb
  obtain ⟨i1, i2⟩ := noscan_mixed h hco S s.marked _ s.marked
    (fun p _ hk => ((noscanEntry_iff h S s.marked p).mp hk).2.2.2.2) hdist
  refine ⟨_, _, e1, rfl, ?_, ?_, i2⟩
  · show (s.bytesMarked + noscanBytes h s.marked (s.wbBuf.ptrs PtrSize)) % uint64Mod = _
    rw [i1, Nat.add_assoc]
  · intro hother
    have hz : noscanBytes h s.marked
        ((s.wbBuf.ptrs PtrSize).filter (fun p => !h.noscanEntry S s.marked p)) = 0 := by
      apply noscanBytes_zero
      intro p hp
      obtain ⟨hp1, hp2⟩ := List.mem_filter.mp hp
      exact hother p hp1 (by simpa using hp2)
    have e2 : (s.bytesMarked + noscanBytes h s.marked (s.wbBuf.ptrs PtrSize)) % uint64Mod =
        (s.bytesMarked +
          ((s.wbBuf.ptrs PtrSize).filter (h.noscanEntry S s.marked)).length * S)
          % uint64Mod := by
      rw [i1, hz, Nat.add_zero]
    exact ⟨e2, fun hlt => by
      show (s.bytesMarked + noscanBytes h s.marked (s.wbBuf.ptrs PtrSize)) % uint64Mod = _
      rw [e2]; exact Nat.mod_eq_of_lt hlt⟩

/-- Witness of C6 amended: entries (nil, object 0 of Z), (nil, object 1 of Z) and (object 2 of
Z, already marked; object 2 of X, with pointers): K = 2, the tally grows by 16 and neither
of the two objects is in the batch. -/
theorem noscan_accounting_witness :
    ∃ s' batch, wbBufFlush1 8 demoGlobals demoHeap demoNoscanMixed = Except.ok s' ∧
      s'.trace = demoNoscanMixed.trace ++ [Event.putBatch batch] ∧
      s'.bytesMarked = demoNoscanMixed.bytesMarked + 2 * 8 ∧
      (∀ p ∈ demoNoscanMixed.wbBuf.ptrs 8,
        demoHeap.noscanEntry 8 demoNoscanMixed.marked p = true →
        (demoHeap.findObject p).1 ∉ batch) := by
  obtain ⟨s', batch, e1, e2, -, e4, e5⟩ :=
    noscan_accounting 8 (Or.inr rfl) demoGlobals demoHeap demoHeap_coherent 8 demoNoscanMixed
      rfl (by decide) (by decide) (by decide)
  have hK : ((demoNoscanMixed.wbBuf.ptrs 8).filter
      (demoHeap.noscanEntry 8 demoNoscanMixed.marked)).length = 2 := by
    decide
  have e6 := (e4 (by decide)).2
  rw [hK] at e6
  exact ⟨s', batch, e1, e2, e6 (by decide), e5⟩

/-- C11: on a buffer holding `k` entries with `next < end` and `end` inside `buf`, `putFast`
stores `old` in slot `2k` and `new` in slot `2k+1`, advances `next` by one entry, and leaves
`end`, `debugGen`, `start` and every other slot unchanged, with no store outside `buf`;
and after `reset` followed by appends, the slots before `next` hold the appended pairs in
call order. -/
theorem putFast_frame (PtrSize : Nat) (hps : PtrSize = 4 ∨ PtrSize = 8) (b : wbBuf)
    (hal : b.allocated PtrSize) (hlen : b.buf.length = wbBufEntryPointers * wbBufEntries) :
    (∀ old new k : Nat, b.next = b.start + k * (wbBufEntryPointers * PtrSize) →
      b.next < b.end_ → b.end_ ≤ b.start + (wbBufEntryPointers * wbBufEntries) * PtrSize →
      (b.putFast PtrSize old new).1.buf[wbBufEntryPointers * k]? = some old ∧
      (b.putFast PtrSize old new).1.buf[wbBufEntryPointers * k + 1]? = some new ∧
      (b.putFast PtrSize old new).1.next = b.next + wbBufEntryPointers * PtrSize ∧
      (b.putFast PtrSize old new).1.end_ = b.end_ ∧
      (b.putFast PtrSize old new).1.debugGen = b.debugGen ∧
      (b.putFast PtrSize old new).1.start = b.start ∧
      (b.putFast PtrSize old new).1.wild = b.wild ∧
      ∀ i, i ≠ wbBufEntryPointers * k → i ≠ wbBufEntryPointers * k + 1 →
        (b.putFast PtrSize old new).1.buf[i]? = b.buf[i]?) ∧
    (∀ (g : Globals) (ws : List (Nat × Nat)), ws.length ≤ effectiveCapacity g b →
      ∃ b0, b.reset PtrSize g = Except.ok b0 ∧
        (putFastAll PtrSize b0 ws).1.next =
          b.start + ws.length * (wbBufEntryPointers * PtrSize) ∧
        (putFastAll PtrSize b0 ws).1.buf.take (wbBufEntryPointers * ws.length) =
          ws.flatMap (fun w => [w.1, w.2])) := by
  constructor
  · intro old new k hnext hlt hend
    have hk : k < wbBufEntries := by
      rcases hps with rfl | rfl <;>
      · simp only [wbBufEntryPointers, wbBufEntries] at hnext hend ⊢
        omega
    have hstep := putFast_step PtrSize hps b old new k hal hlen hnext hk
    rw [hstep]
    simp only [wbBufEntryPointers, wbBufEntries] at hlen hk hnext
    refine ⟨?_, ?_, ?_, rfl, rfl, rfl, rfl, ?_⟩
    · simp only [wbBufEntryPointers]
      rw [List.getElem?_set_ne (by omega), List.getElem?_set_self (by omega)]
    · simp only [wbBufEntryPointers]
      rw [List.getElem?_set_self (by simp; omega)]
    · simp only [wbBufEntryPointers]
      rw [hnext]; ring
    · intro i h1 h2
      simp only [wbBufEntryPointers] at h1 h2 ⊢
      rw [List.getElem?_set_ne (by omega), List.getElem?_set_ne (by omega)]
  · intro g ws hk
    have hc : effectiveCapacity g b ≤ wbBufEntries := by
      unfold effectiveCapacity; split <;> simp [wbBufEntries]
    refine ⟨_, reset_end PtrSize hps g b hal, ?_, ?_⟩
    · have h2 := putFastAll_spec PtrSize hps ws
        { b with
          next := b.start
          end_ := b.start + effectiveCapacity g b * (wbBufEntryPointers * PtrSize) }
        0 (effectiveCapacity g b) hal hlen (by simp) rfl (by omega) hc
      rw [h2.2.1]; simp
    · have h1 := putFastAll_buf PtrSize hps ws
        { b with
          next := b.start
          end_ := b.start + effectiveCapacity g b * (wbBufEntryPointers * PtrSize) }
        0 hal hlen (by simp) (by omega)
      simpa using h1

/-- Witness of C11: a fourth entry appended to the three-entry buffer, and three appends
after a reset. -/
theorem putFast_frame_witness :
    ((demoBuf.putFast 8 7 9).1.buf[wbBufEntryPointers * 3]? = some 7 ∧
      (demoBuf.putFast 8 7 9).1.buf[wbBufEntryPointers * 3 + 1]? = some 9 ∧
      (demoBuf.putFast 8 7 9).1.next = demoBuf.next + wbBufEntryPointers * 8 ∧
      (demoBuf.putFast 8 7 9).1.end_ = demoBuf.end_ ∧
      (demoBuf.putFast 8 7 9).1.debugGen = demoBuf.debugGen ∧
      (demoBuf.putFast 8 7 9).1.start = demoBuf.start ∧
      (demoBuf.putFast 8 7 9).1.wild = demoBuf.wild ∧
      ∀ i, i ≠ wbBufEntryPointers * 3 → i ≠ wbBufEntryPointers * 3 + 1 →
        (demoBuf.putFast 8 7 9).1.buf[i]? = demoBuf.buf[i]?) ∧
    (∃ b0, demoBuf.reset 8 demoGlobals = Except.ok b0 ∧
      (putFastAll 8 b0 [(0, 8224), (8232, 0), (16384, 0)]).1.next =
        demoBuf.start + 3 * (wbBufEntryPointers * 8) ∧
      (putFastAll 8 b0 [(0, 8224), (8232, 0), (16384, 0)]).1.buf.take (wbBufEntryPointers * 3) =
        [0, 8224, 8232, 0, 16384, 0]) :=
  ⟨(putFast_frame 8 (Or.inr rfl) demoBuf (by decide) (by decide)).1 7 9 3
      (by decide) (by decide) (by decide),
    (putFast_frame 8 (Or.inr rfl) demoBuf (by decide) (by decide)).2 demoGlobals
      [(0, 8224), (8232, 0), (16384, 0)] (by decide)⟩

/-- C12: with `useCheckmark` set, `wbBufFlush1` returns having called `shade` once for each
buffered address, in buffer order and whatever the address is (nil, below `minLegalPointer`,
or repeated); it makes no other call (no `putBatch`), touches no mark bit and no tally, and
leaves the buffer as `reset` does. -/
theorem wbBufFlush1_checkmark_shades (PtrSize : Nat) (hps : PtrSize = 4 ∨ PtrSize = 8)
    (g : Globals) (h : Heap) (s : State) (hck : g.useCheckmark = true)
    (hstart : s.wbBuf.start < uintptrMod PtrSize)
    (hn : s.wbBuf.count PtrSize ≤ wbBufEntryPointers * wbBufEntries) :
    ∃ s' b', wbBufFlush1 PtrSize g h s = Except.ok s' ∧
      s'.trace = s.trace ++ (s.wbBuf.buf.take (s.wbBuf.count PtrSize)).map Event.shade ∧
      s'.marked = s.marked ∧ s'.bytesMarked = s.bytesMarked ∧
      s.wbBuf.reset PtrSize g = Except.ok b' ∧ s'.wbBuf = b' ∧
      s'.wbBuf.next = s.wbBuf.start ∧ s'.wbBuf.buf = s.wbBuf.buf := by
  refine ⟨_, _, wbBufFlush1_checkmark PtrSize hps g h s hck hstart hn, rfl, rfl, rfl,
    reset_eq PtrSize hps g s.wbBuf hstart, rfl, rfl, rfl⟩

/-- Witness of C12: the three-entry buffer, which holds nil three times, flushed in
checkmark mode. -/
theorem wbBufFlush1_checkmark_shades_witness :
    ∃ s' b', wbBufFlush1 8 { demoGlobals with useCheckmark := true } demoHeap demoState =
        Except.ok s' ∧
      s'.trace = demoState.trace ++
        (demoState.wbBuf.buf.take (demoState.wbBuf.count 8)).map Event.shade ∧
      s'.marked = demoState.marked ∧ s'.bytesMarked = demoState.bytesMarked ∧
      demoState.wbBuf.reset 8 { demoGlobals with useCheckmark := true } = Except.ok b' ∧
      s'.wbBuf = b' ∧ s'.wbBuf.next = demoState.wbBuf.start ∧
      s'.wbBuf.buf = demoState.wbBuf.buf :=
  wbBufFlush1_checkmark_shades 8 (Or.inr rfl) { demoGlobals with useCheckmark := true }
    demoHeap demoState rfl (by decide) (by decide)

/-- C13: when `writeBarrier.needed` holds, the type has pointers and `size` is at least the
pointer width, `reflect_typedmemmovepartial` calls `bulkBarrierPreWrite` once, before the
`memmove`, on destination `dst + frag` and source `src + frag` with a length `len` such that
`off + frag` and `len` are multiples of the pointer width and `frag + len <= size` (the
region lies inside the copied range); `frag` is less than the pointer width, so
`asize -= frag` does not underflow. -/
theorem typedmemmovepartial_aligned (PtrSize : Nat) (hps : PtrSize = 4 ∨ PtrSize = 8)
    (g : Globals) (typ : _type) (dst src off size : Nat) (hneeded : g.needed = true)
    (hptr : typ.hasPointers = true) (hsize : PtrSize ≤ size)
    (hdst : dst < uintptrMod PtrSize) (hsrc : src < uintptrMod PtrSize)
    (hoff : off < uintptrMod PtrSize) (hsz : size < uintptrMod PtrSize) :
    ∃ frag len,
      reflect_typedmemmovepartial PtrSize g typ dst src off size =
        [Call.bulkBarrierPreWrite (uadd PtrSize dst frag) (uadd PtrSize src frag) len,
          Call.memmove dst src size] ++
        (if g.cgo then [Call.cgoCheckMemmove typ dst src off size] else []) ∧
      frag = usub PtrSize 0 off &&& (PtrSize - 1) ∧
      frag < PtrSize ∧ frag ≤ size ∧ usub PtrSize size frag = size - frag ∧
      (off + frag) % PtrSize = 0 ∧ len % PtrSize = 0 ∧ frag + len ≤ size := by
  refine ⟨(PtrSize - off % PtrSize) % PtrSize, _,
    partial_barrier PtrSize hps g typ dst src off size hneeded hptr hsize hdst hsrc hoff hsz,
    (frag_eq PtrSize hps off hoff).symm, ?_⟩
  rcases hps with rfl | rfl <;>
  · simp only [usub, uintptrMod] at hsz ⊢
    norm_num at hsz ⊢
    omega

/-- Witness of C13: 20 bytes copied at offset 13 into a value with pointers. -/
theorem typedmemmovepartial_aligned_witness :
    ∃ frag len,
      reflect_typedmemmovepartial 8 demoGlobals demoPtrType 8205 16397 13 20 =
        [Call.bulkBarrierPreWrite (uadd 8 8205 frag) (uadd 8 16397 frag) len,
          Call.memmove 8205 16397 20] ++
        (if demoGlobals.cgo then [Call.cgoCheckMemmove demoPtrType 8205 16397 13 20]
          else []) ∧
      frag = usub 8 0 13 &&& (8 - 1) ∧
      frag < 8 ∧ frag ≤ 20 ∧ usub 8 20 frag = 20 - frag ∧
      (13 + frag) % 8 = 0 ∧ len % 8 = 0 ∧ frag + len ≤ 20 :=
  typedmemmovepartial_aligned 8 (Or.inr rfl) demoGlobals demoPtrType 8205 16397 13 20 rfl
    (by decide) (by decide) (by decide) (by decide) (by decide) (by decide)

/-- C14: when `writeBarrier.needed` holds and the type has pointers, every pointer-width
word at an offset `w` of the value that is a multiple of the pointer width and that lies
inside the copied range `[off, off + size)` is inside the region `reflect_typedmemmovepartial`
passes to `bulkBarrierPreWrite`, whether or not `off` is aligned. -/
theorem typedmemmovepartial_covers (PtrSize : Nat) (hps : PtrSize = 4 ∨ PtrSize = 8)
    (g : Globals) (typ : _type) (dst src off size w : Nat) (hneeded : g.needed = true)
    (hptr : typ.hasPointers = true)
    (hdst : dst < uintptrMod PtrSize) (hsrc : src < uintptrMod PtrSize)
    (hoff : off < uintptrMod PtrSize) (hsz : size < uintptrMod PtrSize)
    (hw1 : off ≤ w) (hw2 : w % PtrSize = 0) (hw3 : w + PtrSize ≤ off + size) :
    ∃ frag len,
      Call.bulkBarrierPreWrite (uadd PtrSize dst frag) (uadd PtrSize src frag) len ∈
        reflect_typedmemmovepartial PtrSize g typ dst src off size ∧
      off + frag ≤ w ∧ w + PtrSize ≤ off + frag + len := by
  have hsize : PtrSize ≤ size := by omega
  refine ⟨(PtrSize - off % PtrSize) % PtrSize,
    (size - (PtrSize - off % PtrSize) % PtrSize) -
      (size - (PtrSize - off % PtrSize) % PtrSize) % PtrSize, ?_, ?_⟩
  · rw [partial_barrier PtrSize hps g typ dst src off size hneeded hptr hsize hdst hsrc hoff hsz]
    simp
  · rcases hps with rfl | rfl <;> omega

/-- Witness of C14: the word at offset 16 of the value, 20 bytes being copied at offset 13. -/
theorem typedmemmovepartial_covers_witness :
    ∃ frag len,
      Call.bulkBarrierPreWrite (uadd 8 8205 frag) (uadd 8 16397 frag) len ∈
        reflect_typedmemmovepartial 8 demoGlobals demoPtrType 8205 16397 13 20 ∧
      13 + frag ≤ 16 ∧ 16 + 8 ≤ 13 + frag + len :=
  typedmemmovepartial_covers 8 (Or.inr rfl) demoGlobals demoPtrType 8205 16397 13 20 16 rfl
    (by decide) (by decide) (by decide) (by decide) (by decide) (by decide) (by decide)
    (by decide)

/-- C15, as stated, fails for `typedslicecopy`: it does not test `kindNoPointers` (its
callers do), so called with a pointer-free element type while `writeBarrier.needed` holds
it calls `bulkBarrierPreWrite` on the whole region. -/
theorem no_pointers_no_barrier_counterexample :
    demoNoPtrType.kind &&& kindNoPointers ≠ 0 ∧
    (typedslicecopy 8 demoBuild demoGlobals demoNoPtrType
      { array := 8192, len := 4, cap := 4 } { array := 16384, len := 4, cap := 4 }).2 =
      [Call.bulkBarrierPreWrite 8192 16384 32, Call.memmove 8192 16384 32] := by
  constructor
  · decide
  · decide

/-- C15 amended: for a type with `kindNoPointers` set, `typedmemmove`,
`reflect_typedmemmovepartial`, `reflectcallmove`, `reflect_typedslicecopy`, `typedmemclr`
and `reflect_typedmemclrpartial` make no call to `bulkBarrierPreWrite`; with the cgo check,
race detector and memory sanitizer off their only call is the raw copy or clear (or they
make no call at all). -/
theorem no_pointers_no_barrier (PtrSize : Nat) (bld : Build) (g : Globals) (typ : _type)
    (hnp : typ.kind &&& kindNoPointers ≠ 0) :
    (∀ dst src, ∀ c ∈ typedmemmove g typ dst src, c.isBarrier = false) ∧
    (∀ dst src off size, ∀ c ∈ reflect_typedmemmovepartial PtrSize g typ dst src off size,
      c.isBarrier = false) ∧
    (∀ dst src size, ∀ c ∈ reflectcallmove PtrSize g (some typ) dst src size,
      c.isBarrier = false) ∧
    (∀ dst src, ∀ c ∈ (reflect_typedslicecopy PtrSize bld g typ dst src).2,
      c.isBarrier = false) ∧
    (∀ ptr, ∀ c ∈ typedmemclr typ ptr, c.isBarrier = false) ∧
    (∀ ptr off size, ∀ c ∈ reflect_typedmemclrpartial typ ptr off size, c.isBarrier = false) ∧
    (g.cgo = false → bld.raceenabled = false → bld.msanenabled = false →
      (∀ dst src, ∀ c ∈ typedmemmove g typ dst src, c = Call.memmove dst src typ.size) ∧
      (∀ dst src off size, reflect_typedmemmovepartial PtrSize g typ dst src off size =
        [Call.memmove dst src size]) ∧
      (∀ dst src size, reflectcallmove PtrSize g (some typ) dst src size =
        [Call.memmove dst src size]) ∧
      (∀ dst src, ∀ c ∈ (reflect_typedslicecopy PtrSize bld g typ dst src).2, c.isCopy = true) ∧
      (∀ ptr, typedmemclr typ ptr = [Call.memclrNoHeapPointers ptr typ.size]) ∧
      (∀ ptr off size, reflect_typedmemclrpartial typ ptr off size =
        [Call.memclrNoHeapPointers ptr size])) := by
  have hp : typ.hasPointers = false := by
    simp only [_type.hasPointers, beq_eq_false_iff_ne]
    exact hnp
  refine ⟨?_, ?_, ?_, ?_, ?_, ?_, ?_⟩
  · intro dst src c hc
    unfold typedmemmove at hc
    split at hc
    · simp at hc
    · cases hg : g.cgo <;> simp [hp, hg] at hc
      · subst hc; rfl
      · rcases hc with rfl | rfl <;> rfl
  · intro dst src off size c hc
    unfold reflect_typedmemmovepartial at hc
    cases hg : g.cgo <;> simp [hp, hg] at hc
    · subst hc; rfl
    · rcases hc with rfl | rfl <;> rfl
  · intro dst src size c hc
    unfold reflectcallmove at hc
    simp [hp] at hc
    subst hc; rfl
  · intro dst src c hc
    obtain ⟨n, -, e⟩ := reflect_typedslicecopy_nopointers PtrSize bld g typ dst src hp
    rw [e] at hc
    by_cases hn : n = 0
    · simp [hn] at hc
    · cases hr : bld.raceenabled <;> cases hm : bld.msanenabled <;> simp [hn, hr, hm] at hc
      · subst hc; rfl
      · rcases hc with rfl | rfl | rfl <;> rfl
      · rcases hc with rfl | rfl | rfl <;> rfl
      · rcases hc with rfl | rfl | rfl | rfl | rfl <;> rfl
  · intro ptr c hc
    unfold typedmemclr at hc
    simp [hp] at hc
    subst hc; rfl
  · intro ptr off size c hc
    unfold reflect_typedmemclrpartial at hc
    simp [hp] at hc
    subst hc; rfl
  · intro hg hr hm
    refine ⟨?_, ?_, ?_, ?_, ?_, ?_⟩
    · intro dst src c hc
      unfold typedmemmove at hc
      split at hc
      · simp at hc
      · simpa [hp, hg] using hc
    · intro dst src off size
      simp [ reflect_typedmemmovepartial, hp, hg]
    · intro dst src size
      simp [reflectcallmove, hp]
    · intro dst src c hc
      obtain ⟨n, -, e⟩ := reflect_typedslicecopy_nopointers PtrSize bld g typ dst src hp
      rw [e] at hc
      by_cases hn : n = 0
      · simp [hn] at hc
      · simp [hn, hr, hm] at hc
        subst hc; rfl
    · intro ptr
      simp [typedmemclr, hp]
    · intro ptr off size
      simp [ reflect_typedmemclrpartial, hp]

/-- Witness of C15 amended: the pointer-free 8-byte type. -/
theorem no_pointers_no_barrier_witness :
    (∀ dst src, ∀ c ∈ typedmemmove demoGlobals demoNoPtrType dst src, c.isBarrier = false) ∧
    (∀ dst src off size,
      ∀ c ∈ reflect_typedmemmovepartial 8 demoGlobals demoNoPtrType dst src off size,
        c.isBarrier = false) ∧
    (∀ dst src size, ∀ c ∈ reflectcallmove 8 demoGlobals (some demoNoPtrType) dst src size,
      c.isBarrier = false) ∧
    (∀ dst src,
      ∀ c ∈ (reflect_typedslicecopy 8 demoBuild demoGlobals demoNoPtrType dst src).2,
        c.isBarrier = false) :=
  ⟨(no_pointers_no_barrier 8 demoBuild demoGlobals demoNoPtrType (by decide)).1,
    (no_pointers_no_barrier 8 demoBuild demoGlobals demoNoPtrType (by decide)).2.1,
    (no_pointers_no_barrier 8 demoBuild demoGlobals demoNoPtrType (by decide)).2.2.1,
    (no_pointers_no_barrier 8 demoBuild demoGlobals demoNoPtrType (by decide)).2.2.2.1⟩

/-- C16: `typedmemmove` makes no call when `dst = src`; when `dst` and `src` differ and the
type has no pointers it calls `memmove` on `typ.size` bytes and no barrier; when they differ
and the type has pointers it calls `bulkBarrierPreWrite(dst, src, typ.size)` once, then
`memmove` (each followed by the cgo check when `writeBarrier.cgo` is set). -/
theorem typedmemmove_calls (g : Globals) (typ : _type) (dst src : Nat) :
    (dst = src → typedmemmove g typ dst src = []) ∧
    (dst ≠ src → typ.kind &&& kindNoPointers ≠ 0 →
      typedmemmove g typ dst src =
        [Call.memmove dst src typ.size] ++
          (if g.cgo then [Call.cgoCheckMemmove typ dst src 0 typ.size] else []) ∧
      ∀ c ∈ typedmemmove g typ dst src, c.isBarrier = false) ∧
    (dst ≠ src → typ.kind &&& kindNoPointers = 0 →
      typedmemmove g typ dst src =
        [Call.bulkBarrierPreWrite dst src typ.size, Call.memmove dst src typ.size] ++
          (if g.cgo then [Call.cgoCheckMemmove typ dst src 0 typ.size] else [])) := by
  refine ⟨?_, ?_, ?_⟩
  · intro he
    simp [typedmemmove, he]
  · intro hne hnp
    have hp : typ.hasPointers = false := by
      simp only [_type.hasPointers, beq_eq_false_iff_ne]
      exact hnp
    have e : typedmemmove g typ dst src =
        [Call.memmove dst src typ.size] ++
          (if g.cgo then [Call.cgoCheckMemmove typ dst src 0 typ.size] else []) := by
      simp [typedmemmove, hne, hp]
    refine ⟨e, ?_⟩
    intro c hc
    rw [e] at hc
    cases hg : g.cgo <;> simp [hg] at hc
    · subst hc; rfl
    · rcases hc with rfl | rfl <;> rfl
  · intro hne hnp
    have hp : typ.hasPointers = true := by
      simp only [_type.hasPointers, beq_iff_eq]
      exact hnp
    simp [typedmemmove, hne, hp]

/-- Witness of C16: a 24-byte value with pointers moved between two distinct addresses. -/
theorem typedmemmove_calls_witness :
    typedmemmove demoGlobals demoPtrType 8192 16384 =
      [Call.bulkBarrierPreWrite 8192 16384 demoPtrType.size,
        Call.memmove 8192 16384 demoPtrType.size] ++
        (if demoGlobals.cgo then [Call.cgoCheckMemmove demoPtrType 8192 16384 0 demoPtrType.size]
          else []) :=
  (typedmemmove_calls demoGlobals demoPtrType 8192 16384).2.2 (by decide) (by decide)

/-- C17: for a type with pointers `typedmemclr` calls `bulkBarrierPreWrite(ptr, 0, typ.size)`
once and then clears `typ.size` bytes; `memclrHasPointers(ptr, n)` always calls
`bulkBarrierPreWrite(ptr, 0, n)` and then clears `n` bytes. The source argument of the barrier
is 0 and its size is the number of bytes cleared. -/
theorem memclr_barrier_first (typ : _type) (ptr n : Nat)
    (hp : typ.kind &&& kindNoPointers = 0) :
    typedmemclr typ ptr =
      [Call.bulkBarrierPreWrite ptr 0 typ.size, Call.memclrNoHeapPointers ptr typ.size] ∧
    memclrHasPointers ptr n =
      [Call.bulkBarrierPreWrite ptr 0 n, Call.memclrNoHeapPointers ptr n] := by
  have hp2 : typ.hasPointers = true := by
    simp only [_type.hasPointers, beq_iff_eq]
    exact hp
  exact ⟨by simp [typedmemclr, hp2], rfl⟩

/-- Witness of C17: a 24-byte value with pointers cleared at 8192, and 40 bytes cleared. -/
theorem memclr_barrier_first_witness :
    typedmemclr demoPtrType 8192 =
      [Call.bulkBarrierPreWrite 8192 0 demoPtrType.size,
        Call.memclrNoHeapPointers 8192 demoPtrType.size] ∧
    memclrHasPointers 8192 40 =
      [Call.bulkBarrierPreWrite 8192 0 40, Call.memclrNoHeapPointers 8192 40] :=
  memclr_barrier_first demoPtrType 8192 40 (by decide)

/-- C18: `typedslicecopy` returns `min(dst.len, src.len)`; when that is 0 it makes no call;
when it is not 0 and the arrays differ, its calls end with `memmove` of `uintptr(n) * typ.size`
bytes, directly preceded by one `bulkBarrierPreWrite` over the same region exactly when
`writeBarrier.needed` holds, and no other barrier or copy is made; the size is `n x typ.size`
when that product is a `uintptr`; and `reflect_typedslicecopy` returns the same count on its
pointer-free path. -/
theorem typedslicecopy_count (PtrSize : Nat) (bld : Build) (g : Globals) (typ : _type)
    (dst src : slice) :
    (typedslicecopy PtrSize bld g typ dst src).1 = min dst.len src.len ∧
    (min dst.len src.len = 0 → (typedslicecopy PtrSize bld g typ dst src).2 = []) ∧
    (min dst.len src.len ≠ 0 → dst.array ≠ src.array →
      ∃ pre, (typedslicecopy PtrSize bld g typ dst src).2 =
          pre ++
          (if g.needed then
            [Call.bulkBarrierPreWrite dst.array src.array
              (umul PtrSize (uintptrOfInt PtrSize (min dst.len src.len)) typ.size)]
          else []) ++
          [Call.memmove dst.array src.array
            (umul PtrSize (uintptrOfInt PtrSize (min dst.len src.len)) typ.size)] ∧
        ∀ c ∈ pre, c.isBarrier = false ∧ c.isCopy = false) ∧
    (0 ≤ min dst.len src.len → (min dst.len src.len).toNat * typ.size < uintptrMod PtrSize →
      (min dst.len src.len).toNat < uintptrMod PtrSize →
      umul PtrSize (uintptrOfInt PtrSize (min dst.len src.len)) typ.size =
        (min dst.len src.len).toNat * typ.size) ∧
    (typ.kind &&& kindNoPointers ≠ 0 →
      (reflect_typedslicecopy PtrSize bld g typ dst src).1 =
        (typedslicecopy PtrSize bld g typ dst src).1) := by
  obtain ⟨n, hn, e⟩ := typedslicecopy_eq PtrSize bld g typ dst src
  rw [← hn, e]
  refine ⟨?_, ?_, ?_, ?_, ?_⟩
  · by_cases h0 : n = 0
    · simp [h0]
    · by_cases ha : dst.array = src.array <;> simp [h0, ha]
  · intro h0
    simp [h0]
  · intro h0 ha
    simp only [h0, ha, if_false]
    refine ⟨_, rfl, ?_⟩
    intro c hc
    cases hr : bld.raceenabled <;> cases hm : bld.msanenabled <;> cases hg : g.cgo <;>
      simp [hr, hm, hg] at hc <;>
      rcases hc with rfl | rfl | rfl | rfl | rfl <;> exact ⟨rfl, rfl⟩
  · intro h0 hmul hlt
    have e1 : uintptrOfInt PtrSize n = n.toNat := by
      unfold uintptrOfInt
      have hn1 : n = (n.toNat : Int) := (Int.toNat_of_nonneg h0).symm
      rw [hn1, Int.toNat_ofNat]
      have : ((n.toNat : Int) % (uintptrMod PtrSize : Int)) = ((n.toNat % uintptrMod PtrSize : Nat) : Int) := by
        norm_cast
      rw [this, Int.toNat_ofNat]
      exact Nat.mod_eq_of_lt hlt
    unfold umul
    rw [e1]
    exact Nat.mod_eq_of_lt hmul
  · intro hnp
    have hp : typ.hasPointers = false := by
      simp only [_type.hasPointers, beq_eq_false_iff_ne]
      exact hnp
    obtain ⟨m, hm, e2⟩ := reflect_typedslicecopy_nopointers PtrSize bld g typ dst src hp
    have hmin : (if dst.len > src.len then src.len else dst.len) = min dst.len src.len := by
      split
      · rename_i hgt; exact (min_eq_right (le_of_lt hgt)).symm
      · rename_i hgt; exact (min_eq_left (not_lt.mp hgt)).symm
    rw [hmin, ← hn] at hm
    subst hm
    rw [e2]
    by_cases h0 : m = 0
    · simp [h0]
    · by_cases ha : dst.array = src.array <;> simp [h0, ha]

/-- Witness of C18: a slice of 4 elements copied into a slice of 6 at another address. -/
theorem typedslicecopy_count_witness :
    (typedslicecopy 8 demoBuild demoGlobals demoPtrType
      { array := 8192, len := 6, cap := 8 } { array := 16384, len := 4, cap := 4 }).1 =
      min (6 : Int) 4 ∧
    umul 8 (uintptrOfInt 8 (min (6 : Int) 4)) demoPtrType.size =
      (min (6 : Int) 4).toNat * demoPtrType.size :=
  ⟨(typedslicecopy_count 8 demoBuild demoGlobals demoPtrType
      { array := 8192, len := 6, cap := 8 } { array := 16384, len := 4, cap := 4 }).1,
    (typedslicecopy_count 8 demoBuild demoGlobals demoPtrType
      { array := 8192, len := 6, cap := 8 } { array := 16384, len := 4, cap := 4 }).2.2.2.1
      (by decide) (by decide) (by decide)⟩

/-- C19: `discard` sets `next` to the address of `buf[0]` and changes nothing else (`end`,
`debugGen`, the slots of `buf`); afterwards `empty` is true and a flush reads no buffered
address: it shades nothing, hands the empty batch to `putBatch` in normal mode, and leaves
the mark bits and the tally unchanged. -/
theorem discard_frame (PtrSize : Nat) (b : wbBuf) :
    b.discard = { b with next := b.start } ∧
    b.discard.end_ = b.end_ ∧ b.discard.debugGen = b.debugGen ∧ b.discard.buf = b.buf ∧
    b.discard.empty = true ∧ b.discard.ptrs PtrSize = [] ∧
    ∀ (g : Globals) (h : Heap) (s : State), PtrSize = 4 ∨ PtrSize = 8 → s.wbBuf = b →
      s.wellTyped PtrSize →
      ∃ s', wbBufFlush1 PtrSize g h { s with wbBuf := b.discard } = Except.ok s' ∧
        s'.marked = s.marked ∧ s'.bytesMarked = s.bytesMarked ∧
        s'.trace = s.trace ++ (if g.useCheckmark then [] else [Event.putBatch []]) := by
  refine ⟨rfl, rfl, rfl, rfl, by simp [wbBuf.empty, wbBuf.discard], discard_ptrs PtrSize b, ?_⟩
  intro g h s hps hsb hwt
  subst hsb
  obtain ⟨⟨hstart, -, -, hlen⟩, hb⟩ := hwt
  have hp := discard_ptrs PtrSize s.wbBuf
  have hcount : s.wbBuf.discard.count PtrSize = 0 := by
    have e : usub PtrSize s.wbBuf.start s.wbBuf.start = 0 := by
      unfold usub
      rw [Nat.add_sub_cancel_left]
      exact Nat.mod_self _
    simp [wbBuf.count, wbBuf.discard, e]
  cases hck : g.useCheckmark with
  | true =>
    have e1 := wbBufFlush1_checkmark PtrSize hps g h { s with wbBuf := s.wbBuf.discard } hck
      hstart (by rw [hcount]; exact Nat.zero_le _)
    refine ⟨_, e1, rfl, rfl, ?_⟩
    show s.trace ++ List.map Event.shade (s.wbBuf.discard.ptrs PtrSize) = _
    rw [hp]; simp
  | false =>
    obtain ⟨buf, e1, -⟩ := wbBufFlush1_normal PtrSize hps g h
      { s with wbBuf := s.wbBuf.discard } hck hstart (by rw [hcount]; exact Nat.zero_le _)
      hlen hb
    refine ⟨_, e1, ?_, ?_, ?_⟩
    · show marksAfter h s.marked (s.wbBuf.discard.ptrs PtrSize) = _
      rw [hp]; rfl
    · show (s.bytesMarked + noscanBytes h s.marked (s.wbBuf.discard.ptrs PtrSize)) % uint64Mod = _
      rw [hp]
      simpa [noscanBytes] using Nat.mod_eq_of_lt hb
    · show s.trace ++ [Event.putBatch (retained h s.marked (s.wbBuf.discard.ptrs PtrSize))] = _
      rw [hp]; simp [retained]

/-- Witness of C19: the three-entry buffer discarded, then flushed in normal mode. -/
theorem discard_frame_witness :
    ∃ s', wbBufFlush1 8 demoGlobals demoHeap { demoState with wbBuf := demoBuf.discard } =
        Except.ok s' ∧
      s'.marked = demoState.marked ∧ s'.bytesMarked = demoState.bytesMarked ∧
      s'.trace = demoState.trace ++
        (if demoGlobals.useCheckmark then [] else [Event.putBatch []]) :=
  (discard_frame 8 demoBuf).2.2.2.2.2.2 demoGlobals demoHeap demoState (Or.inr rfl) rfl
    (by decide)

/-- C20: along every run that starts with a `reset` and continues with `putFast`, `discard`
and flush steps under the protocol of `putFast` (no `putFast` on a full buffer), `empty`
is true exactly when no entry was appended since the last reset, discard or flush; and a
`putFast` then leaves `empty` false. -/
theorem empty_iff_no_pending (PtrSize : Nat) (hps : PtrSize = 4 ∨ PtrSize = 8) (h : Heap)
    (s : State) (g0 : Globals) (ops : List BufOp) (hwt : s.wellTyped PtrSize)
    (hal : s.wbBuf.allocated PtrSize)
    (hob : obeysProtocol PtrSize h s (BufOp.reset g0 :: ops) = true) :
    ∃ s' n, runOps PtrSize h s 0 (BufOp.reset g0 :: ops) = Except.ok (s', n) ∧
      (s'.wbBuf.empty = true ↔ n = 0) ∧
      (s'.wbBuf.next ≠ s'.wbBuf.end_ →
        ∀ old new, (s'.wbBuf.putFast PtrSize old new).1.empty = false) := by
  obtain ⟨⟨-, -, -, hlen⟩, hb⟩ := hwt
  have hinv0 : BufInv PtrSize
      { s with wbBuf := { s.wbBuf with
          next := s.wbBuf.start
          end_ := s.wbBuf.start +
            effectiveCapacity g0 s.wbBuf * (wbBufEntryPointers * PtrSize) } } 0 := by
    unfold BufInv
    exact ⟨hal, hlen, hb, effectiveCapacity g0 s.wbBuf, (effectiveCapacity_bounds g0 _).1,
      (effectiveCapacity_bounds g0 _).2, rfl, by simp, Nat.zero_le _⟩
  have hap : (BufOp.reset g0).apply PtrSize h s = Except.ok
      { s with wbBuf := { s.wbBuf with
          next := s.wbBuf.start
          end_ := s.wbBuf.start +
            effectiveCapacity g0 s.wbBuf * (wbBufEntryPointers * PtrSize) } } := by
    simp only [BufOp.apply, reset_end PtrSize hps g0 s.wbBuf hal]
  simp only [obeysProtocol, Bool.true_and, hap] at hob
  obtain ⟨s', n, e1, hinv⟩ := runOps_inv PtrSize hps h ops _ 0 hinv0 hob
  refine ⟨s', n, ?_, BufInv.empty_iff PtrSize hps s' n hinv, ?_⟩
  · simp only [runOps, hap, BufOp.pending]
    exact e1
  · intro hne old new
    obtain ⟨s2, e2, hinv2⟩ := BufOp.apply_inv PtrSize hps h s' n (BufOp.putFast old new) hinv
      (fun _ _ _ => hne)
    simp only [BufOp.apply, Except.ok.injEq] at e2
    subst e2
    have := (BufInv.empty_iff PtrSize hps _ _ hinv2).not.mpr (by simp [BufOp.pending])
    simpa using this

/-- Witness of C20: reset, one append, a flush, one append, a discard. -/
theorem empty_iff_no_pending_witness :
    ∃ s' n, runOps 8 demoHeap demoState 0
        (BufOp.reset demoGlobals ::
          [BufOp.putFast 0 8224, BufOp.flush demoGlobals 0 0, BufOp.putFast 8232 0,
            BufOp.discard]) = Except.ok (s', n) ∧
      (s'.wbBuf.empty = true ↔ n = 0) ∧
      (s'.wbBuf.next ≠ s'.wbBuf.end_ →
        ∀ old new, (s'.wbBuf.putFast 8 old new).1.empty = false) :=
  empty_iff_no_pending 8 (Or.inr rfl) demoHeap demoState demoGlobals
    [BufOp.putFast 0 8224, BufOp.flush demoGlobals 0 0, BufOp.putFast 8232 0, BufOp.discard]
    (by decide) (by decide) (by decide)

/-- C21, as stated, fails: the flush tests the bit (`isMarked`) and sets it (`setMarked`) in
two steps. Worker 0 buffers 8224 and worker 1 buffers 8232, both addresses of the unmarked
object 2 of span X; when both test before either sets, each hands the object to the queue. -/
theorem concurrent_flush_counterexample :
    (demoHeap.findObject 8224).1 = 8224 ∧ (demoHeap.findObject 8232).1 = 8224 ∧
    (TwoWorkers.run demoHeap (TwoWorkers.init (fun _ _ => false) [8224] [8232])
      [false, true, false, true, false, true]).shared.queue = [[8224], [8224]] ∧
    (TwoWorkers.run demoHeap (TwoWorkers.init (fun _ _ => false) [8224] [8232])
      [false, true, false, true, false, true]).w0.pc = FlushPc.done ∧
    (TwoWorkers.run demoHeap (TwoWorkers.init (fun _ _ => false) [8224] [8232])
      [false, true, false, true, false, true]).w1.pc = FlushPc.done := by
  refine ⟨by decide, by decide, by decide, by decide, by decide⟩

/-- C21 amended: the flush tests the mark bit and sets it in two steps, so: under every
interleaving of two concurrent flushes each worker records an object at most once, hence an
object is handed to the queue at most twice; when the flushes do not overlap (worker 0
completes, then worker 1 runs), the queue holds the two batches of the sequential flushes, no
object twice, and an unmarked object whose span is not noscan and that legal addresses of
both buffers resolve to is handed over exactly once; and when each buffer holds one such
address and both workers test the bit before either sets it, both hand the object over. -/
theorem concurrent_flush (h : Heap) (hco : h.coherent) (m : mspan → Nat → Bool)
    (ptrs0 ptrs1 : List Nat) :
    (∀ (sched : List Bool) (obj : Nat),
      (TwoWorkers.run h (TwoWorkers.init m ptrs0 ptrs1) sched).w0.batch.Nodup ∧
      (TwoWorkers.run h (TwoWorkers.init m ptrs0 ptrs1) sched).w1.batch.Nodup ∧
      (TwoWorkers.run h (TwoWorkers.init m ptrs0 ptrs1) sched).shared.queue.flatten.count obj
        ≤ 2) ∧
    (∀ n0 n1 : Nat, 2 * ptrs0.length + 1 ≤ n0 → 2 * ptrs1.length + 1 ≤ n1 →
      (TwoWorkers.run h (TwoWorkers.init m ptrs0 ptrs1)
        (List.replicate n0 false ++ List.replicate n1 true)).w0.pc = FlushPc.done ∧
      (TwoWorkers.run h (TwoWorkers.init m ptrs0 ptrs1)
        (List.replicate n0 false ++ List.replicate n1 true)).w1.pc = FlushPc.done ∧
      (TwoWorkers.run h (TwoWorkers.init m ptrs0 ptrs1)
        (List.replicate n0 false ++ List.replicate n1 true)).shared.queue =
        [retained h m ptrs0, retained h (marksAfter h m ptrs0) ptrs1] ∧
      (TwoWorkers.run h (TwoWorkers.init m ptrs0 ptrs1)
        (List.replicate n0 false ++ List.replicate n1 true)).shared.queue.flatten.Nodup ∧
      ∀ p0 p1 : Nat, p0 ∈ ptrs0 → p1 ∈ ptrs1 → h.minLegalPointer ≤ p0 →
        h.minLegalPointer ≤ p1 → (h.findObject p0).1 ≠ 0 →
        (h.findObject p0).1 = (h.findObject p1).1 →
        m (h.findObject p0).2.1 (h.findObject p0).2.2 = false →
        (h.findObject p0).2.1.noscan = false →
        (TwoWorkers.run h (TwoWorkers.init m ptrs0 ptrs1)
          (List.replicate n0 false ++ List.replicate n1 true)).shared.queue.flatten.count
            (h.findObject p0).1 = 1) ∧
    (∀ p0 p1 : Nat, h.minLegalPointer ≤ p0 → h.minLegalPointer ≤ p1 →
      (h.findObject p0).1 ≠ 0 → (h.findObject p0).1 = (h.findObject p1).1 →
      m (h.findObject p0).2.1 (h.findObject p0).2.2 = false →
      (h.findObject p0).2.1.noscan = false →
      (TwoWorkers.run h (TwoWorkers.init m [p0] [p1])
        [false, true, false, true, false, true]).shared.queue =
        [[(h.findObject p0).1], [(h.findObject p0).1]]) := by
  refine ⟨?_, ?_, fun p0 p1 hl0 hl1 hobj hsame hm hns =>
    racy_schedule h hco m p0 p1 hl0 hl1 hobj hsame hm hns⟩
  · intro sched obj
    obtain ⟨a0, a1, a2, a3⟩ :=
      TwoWorkers.run_inv h hco sched _ (TwoWorkers.init_inv h m ptrs0 ptrs1)
    refine ⟨a0.1, a1.1, ?_⟩
    have hle := count_flatten_le _ obj a2
    have hlen : (TwoWorkers.run h (TwoWorkers.init m ptrs0 ptrs1) sched).shared.queue.length
        ≤ 2 := by
      rw [a3]
      split <;> split <;> omega
    omega
  · intro n0 n1 hn0 hn1
    obtain ⟨by0, e0⟩ := worker_alone h ptrs0 n0 [] 0 { marked := m, queue := [] } hn0
    obtain ⟨by1, e1⟩ := worker_alone h ptrs1 n1 [] 0
      { marked := marksAfter h m ptrs0, queue := [] ++ [[] ++ retained h m ptrs0] } hn1
    have hrun : TwoWorkers.run h (TwoWorkers.init m ptrs0 ptrs1)
        (List.replicate n0 false ++ List.replicate n1 true) =
        { w0 := { ptrs := [], pc := FlushPc.done, batch := [] ++ retained h m ptrs0,
                  bytesMarked := by0 },
          w1 := { ptrs := [], pc := FlushPc.done,
                  batch := [] ++ retained h (marksAfter h m ptrs0) ptrs1, bytesMarked := by1 },
          shared := { marked := marksAfter h (marksAfter h m ptrs0) ptrs1,
                      queue := ([] ++ [[] ++ retained h m ptrs0]) ++
                        [[] ++ retained h (marksAfter h m ptrs0) ptrs1] } } := by
      rw [run_append, run_replicate_false, run_replicate_true]
      simp only [TwoWorkers.init, e0, e1]
    rw [hrun]
    have hnd : ([retained h m ptrs0, retained h (marksAfter h m ptrs0) ptrs1]).flatten.Nodup := by
      simp only [List.flatten_cons, List.flatten_nil, List.append_nil]
      rw [List.nodup_append]
      refine ⟨retained_nodup h hco _ _, retained_nodup h hco _ _, ?_⟩
      intro obj ho1 ho2
      obtain ⟨-, -, hs1⟩ := retained_sound h hco _ _ obj ho1
      obtain ⟨-, ⟨q, -, hq, -⟩, hs2⟩ := retained_sound h hco _ _ obj ho2
      have a1 := (hs1 q hq).2
      have a2 := (hs2 q hq).1
      rw [a1] at a2
      exact absurd a2 (by simp)
    refine ⟨rfl, rfl, by simp, by simpa using hnd, ?_⟩
    intro p0 p1 hp0 _ hl0 _ hobj _ hm hns
    have hmem : (h.findObject p0).1 ∈
        ([retained h m ptrs0, retained h (marksAfter h m ptrs0) ptrs1]).flatten := by
      simp only [List.flatten_cons, List.flatten_nil, List.append_nil]
      exact List.mem_append_left _ (retained_mem h hco ptrs0 m p0 hp0 hl0 hobj hm hns)
    have := List.count_eq_one_of_mem hnd hmem
    simpa using this

/-- Witness of C21 amended: the two workers of the counterexample, under any schedule, under
the schedule in which worker 0 completes first, and under the schedule in which both test
before either sets. -/
theorem concurrent_flush_witness :
    (∀ (sched : List Bool) (obj : Nat),
      (TwoWorkers.run demoHeap (TwoWorkers.init (fun _ _ => false) [8224] [8232])
        sched).w0.batch.Nodup ∧
      (TwoWorkers.run demoHeap (TwoWorkers.init (fun _ _ => false) [8224] [8232])
        sched).w1.batch.Nodup ∧
      (TwoWorkers.run demoHeap (TwoWorkers.init (fun _ _ => false) [8224] [8232])
        sched).shared.queue.flatten.count obj ≤ 2) ∧
    (TwoWorkers.run demoHeap (TwoWorkers.init (fun _ _ => false) [8224] [8232])
      (List.replicate 3 false ++ List.replicate 3 true)).shared.queue.flatten.count
        (demoHeap.findObject 8224).1 = 1 ∧
    (TwoWorkers.run demoHeap (TwoWorkers.init (fun _ _ => false) [8224] [8232])
      [false, true, false, true, false, true]).shared.queue =
      [[(demoHeap.findObject 8224).1], [(demoHeap.findObject 8224).1]] :=
  ⟨(concurrent_flush demoHeap demoHeap_coherent (fun _ _ => false) [8224] [8232]).1,
    ((concurrent_flush demoHeap demoHeap_coherent (fun _ _ => false) [8224] [8232]).2.1 3 3
      (by decide) (by decide)).2.2.2.2 8224 8232 (by decide) (by decide) (by decide)
      (by decide) (by decide) (by decide) rfl (by decide),
    (concurrent_flush demoHeap demoHeap_coherent (fun _ _ => false) [8224] [8232]).2.2
      8224 8232 (by decide) (by decide) (by decide) (by decide) rfl (by decide)⟩

/-- C22: for a buffer with `start <= next <= start + size of buf`, the count
`n = (next - start) / PtrSize` is at most `len(buf)`, so `buf[:n]` is in range; the loop runs
its `n` iterations on the indices `0 .. n-1`, at each of them the write index `pos` is at
most the index read and the value read is the one the buffer held before the flush;
`wbBufFlush1` returns (no fatal path) whatever the buffer holds and whatever the flags are;
and in normal mode the batch passed to `putBatch` has at most `n` elements. -/
theorem compaction_safe (PtrSize : Nat) (hps : PtrSize = 4 ∨ PtrSize = 8) (g : Globals)
    (h : Heap) (s : State) (hwt : s.wellTyped PtrSize) (h1 : s.wbBuf.start ≤ s.wbBuf.next)
    (h2 : s.wbBuf.next ≤ s.wbBuf.start + (wbBufEntryPointers * wbBufEntries) * PtrSize) :
    s.wbBuf.count PtrSize = (s.wbBuf.next - s.wbBuf.start) / PtrSize ∧
    s.wbBuf.count PtrSize ≤ s.wbBuf.buf.length ∧
    (∃ s', wbBufFlush1 PtrSize g h s = Except.ok s') ∧
    (wbBufFlush1.loopLog h (s.wbBuf.count PtrSize) (s.wbBuf.count PtrSize) 0 0
        { s with wbBuf := { s.wbBuf with next := 0 } }).map (fun e => e.1) =
      List.range (s.wbBuf.count PtrSize) ∧
    (∀ e ∈ wbBufFlush1.loopLog h (s.wbBuf.count PtrSize) (s.wbBuf.count PtrSize) 0 0
        { s with wbBuf := { s.wbBuf with next := 0 } },
      e.2.1 ≤ e.1 ∧ e.2.2 = s.wbBuf.buf.getD e.1 0) ∧
    (g.useCheckmark = false →
      ∃ s' batch, wbBufFlush1 PtrSize g h s = Except.ok s' ∧
        s'.trace = s.trace ++ [Event.putBatch batch] ∧
        batch.length ≤ s.wbBuf.count PtrSize) := by
  obtain ⟨⟨hstart, hnext, -, hlen⟩, hb⟩ := hwt
  have hc : s.wbBuf.count PtrSize = (s.wbBuf.next - s.wbBuf.start) / PtrSize := by
    unfold wbBuf.count usub
    rw [show s.wbBuf.next + uintptrMod PtrSize - s.wbBuf.start =
      (s.wbBuf.next - s.wbBuf.start) + uintptrMod PtrSize by omega, Nat.add_mod_right,
      Nat.mod_eq_of_lt (by omega)]
  have hn : s.wbBuf.count PtrSize ≤ wbBufEntryPointers * wbBufEntries := by
    rw [hc]
    have hp : 0 < PtrSize := by omega
    exact Nat.div_le_of_le_mul (by rw [Nat.mul_comm]; omega)
  obtain ⟨l1, l2⟩ := loopLog_spec h (s.wbBuf.count PtrSize) (s.wbBuf.count PtrSize) 0 0
    { s with wbBuf := { s.wbBuf with next := 0 } } (Nat.le_refl 0) (by omega)
    (by simpa [hlen] using hn)
  refine ⟨hc, by rw [hlen]; exact hn, ?_, ?_, l2, ?_⟩
  · cases hck : g.useCheckmark with
    | true => exact ⟨_, wbBufFlush1_checkmark PtrSize hps g h s hck hstart hn⟩
    | false =>
      obtain ⟨buf, e1, -⟩ := wbBufFlush1_normal PtrSize hps g h s hck hstart hn hlen hb
      exact ⟨_, e1⟩
  · rw [l1, List.range_eq_range']
  · intro hck
    obtain ⟨buf, e1, -, -, -, e5⟩ := wbBufFlush1_normal PtrSize hps g h s hck hstart hn hlen hb
    exact ⟨_, _, e1, rfl, e5⟩

/-- Witness of C22: the three-entry buffer, in which the greyed object base is written to
slot 0 while slot 1 is being read. -/
theorem compaction_safe_witness :
    demoState.wbBuf.count 8 = (demoState.wbBuf.next - demoState.wbBuf.start) / 8 ∧
    demoState.wbBuf.count 8 ≤ demoState.wbBuf.buf.length ∧
    (∃ s', wbBufFlush1 8 demoGlobals demoHeap demoState = Except.ok s') ∧
    (wbBufFlush1.loopLog demoHeap (demoState.wbBuf.count 8) (demoState.wbBuf.count 8) 0 0
        { demoState with wbBuf := { demoState.wbBuf with next := 0 } }).map (fun e => e.1) =
      List.range (demoState.wbBuf.count 8) ∧
    (∀ e ∈ wbBufFlush1.loopLog demoHeap (demoState.wbBuf.count 8) (demoState.wbBuf.count 8) 0 0
        { demoState with wbBuf := { demoState.wbBuf with next := 0 } },
      e.2.1 ≤ e.1 ∧ e.2.2 = demoState.wbBuf.buf.getD e.1 0) ∧
    (demoGlobals.useCheckmark = false →
      ∃ s' batch, wbBufFlush1 8 demoGlobals demoHeap demoState = Except.ok s' ∧
        s'.trace = demoState.trace ++ [Event.putBatch batch] ∧
        batch.length ≤ demoState.wbBuf.count 8) :=
  compaction_safe 8 (Or.inr rfl) demoGlobals demoHeap demoState (by decide) (by decide)
    (by decide)

end Runtime
